import Mathlib

/-! A minimal static-file HTTP server (`http_server_go.go`).

A shallow embedding of the server: `parseRequest`, `handleRequest`,
`sendResponse`, `sendErrorResponse`, `getContentType` and `handleClient`, the
life cycle (`NewHttpServer`, the setup step of `Start`, `Stop`) and `main` up
to the accept loop of `Start`, together with the Go library functions they
call, among them the buffered reader of package `bufio`.

Modelling conventions.

* A Go `string` is modelled as a list of Unicode characters (`Str`), that is,
  as well-formed UTF-8 text; a Go `[]byte` is a list of bytes (`Bytes`), and
  the conversion `[]byte(s)` is UTF-8 encoding.  Indices into a `Str` count
  characters; the source only ever compares an index with `0` or `-1` or
  slices at it, and the needles are ASCII, so slices agree with the byte
  slices of the source.
* A connection is the finite sequence of bytes that it delivers before a read
  fails (EOF, read error or the read deadline).  `readLines` gives the lines
  that the successive `ReadLine` calls of a `bufio.Reader` of the default
  size, 4096 bytes, return on it: a line that does not fit in the buffer comes
  in pieces, and bytes without a line end before the failure come as a last
  line.  The source uses only the line and the error of `ReadLine`, not
  `isPrefix`.  `parseRequest` and `handleClient` are given on the lines
  returned, `parseRequestConn` and `handleClientConn` on the bytes of the
  connection.
* The outside world (working directory, file system, clock, the tables of the
  `mime` and `unicode` packages) is a value of type `Env`.
* What a handler does to the outside world is recorded as a list of `Event`s,
  in order: file-system calls and writes to the connection.
-/

namespace HttpServerGo

set_option maxRecDepth 100000

/-- Go `string`, as a list of characters. -/
abbrev Str := List Char

/-- Go `[]byte`. -/
abbrev Bytes := List UInt8

/-- The conversion `[]byte(s)`: the UTF-8 encoding of the text. -/
def toBytes (s : Str) : Bytes := s.flatMap String.utf8EncodeChar

/-! ## Package `strings` -/

/-- Go `unicode.IsSpace`: the Latin-1 spaces `\t \n \v \f \r`, space, U+0085,
U+00A0, and the characters of category Z / property Pattern_White_Space. -/
def isSpace (c : Char) : Bool :=
  let n := c.toNat
  (9 ≤ n && n ≤ 13) || n = 0x20 || n = 0x85 || n = 0xA0 || n = 0x1680 ||
  (0x2000 ≤ n && n ≤ 0x200A) || n = 0x2028 || n = 0x2029 || n = 0x202F ||
  n = 0x205F || n = 0x3000

/-- The loop of `strings.Fields`: `cur` holds the field being read, reversed. -/
def fieldsAux : Str → Str → List Str
  | [], cur => if cur = [] then [] else [cur.reverse]
  | c :: cs, cur =>
    if isSpace c then
      (if cur = [] then fieldsAux cs [] else cur.reverse :: fieldsAux cs [])
    else fieldsAux cs (c :: cur)

/-- Go `strings.Fields`: the maximal runs of non-space characters. -/
def Fields (s : Str) : List Str := fieldsAux s []

/-- Go `strings.TrimSpace`. -/
def TrimSpace (s : Str) : Str :=
  ((s.dropWhile isSpace).reverse.dropWhile isSpace).reverse

/-- Go `unicode.ToLower`: explicit on ASCII, the case table of the `unicode`
package (`caseTable`) beyond. -/
def unicodeToLower (caseTable : Char → Char) (r : Char) : Char :=
  if r.toNat ≤ 0x7F then
    (if 'A'.toNat ≤ r.toNat ∧ r.toNat ≤ 'Z'.toNat then Char.ofNat (r.toNat + 32) else r)
  else caseTable r

/-- Go `strings.ToLower`. -/
def ToLower (caseTable : Char → Char) (s : Str) : Str :=
  s.map (unicodeToLower caseTable)

/-- Search loop of `strings.Index`, `i` being the offset reached. -/
def indexAux (sep : Str) : Str → Nat → Int
  | [], i => if sep = [] then (i : Int) else -1
  | c :: cs, i => if sep.isPrefixOf (c :: cs) then (i : Int) else indexAux sep cs (i + 1)

/-- Go `strings.Index`: offset of the first occurrence of `sep` in `s`, or `-1`. -/
def Index (s sep : Str) : Int := indexAux sep s 0

/-- Go `strings.HasPrefix`. -/
def HasPrefix (s pre : Str) : Bool := pre.isPrefixOf s

/-- Go `strings.TrimPrefix`. -/
def TrimPrefix (s pre : Str) : Str :=
  if HasPrefix s pre then s.drop pre.length else s

/-- Go `strings.Join`. -/
def stringsJoin : List Str → Str → Str
  | [], _ => []
  | [a], _ => a
  | a :: b :: rest, sep => a ++ sep ++ stringsJoin (b :: rest) sep

/-! ## Package `path/filepath` (Unix) -/

/-- Go `os.IsPathSeparator` on Unix. -/
def IsPathSeparator (c : Char) : Bool := c = '/'

/-- State of the loop of `filepath.Clean`: the output written so far (the
`lazybuf`, of which `out.w` is the length) and the index `dotdot` where a
`..` element must stop backtracking. -/
structure CleanState where
  out : Str
  dotdot : Nat
deriving DecidableEq, Repr

/-- The backtracking `out.w--; for out.w > dotdot &&
!IsPathSeparator(out.index(out.w)) { out.w-- }` of `filepath.Clean`, on the
reversed output: in `c :: rev` the character `c` is `out.index(out.w)` after
the decrement and `rev` is the output kept, of length `out.w`. -/
def backtrack (dotdot : Nat) : Str → Str
  | [] => []
  | c :: rev =>
    if rev.length > dotdot && !IsPathSeparator c then backtrack dotdot rev
    else rev

/-- One `..` element of `filepath.Clean`. -/
def cleanDotDot (rooted : Bool) (st : CleanState) : CleanState :=
  if st.out.length > st.dotdot then
    -- can backtrack: `out.w--`, then back to the last separator
    { st with out := (backtrack st.dotdot st.out.reverse).reverse }
  else if !rooted then
    -- cannot backtrack, but not rooted, so append the `..` element
    let out := (if st.out.length > 0 then st.out ++ ['/'] else st.out) ++ ['.', '.']
    { out := out, dotdot := out.length }
  else st

/-- The main loop `for r < n` of `filepath.Clean` over the unread part of the
path; `fuel` bounds the number of iterations (each one reads a character). -/
def cleanLoop (rooted : Bool) : Nat → Str → CleanState → CleanState
  | 0, _, st => st
  | _, [], st => st
  | fuel + 1, c :: rest, st =>
    if IsPathSeparator c then
      -- empty path element
      cleanLoop rooted fuel rest st
    else if c = '.' ∧ (rest = [] ∨ (rest.head?.map IsPathSeparator = some true)) then
      -- `.` element
      cleanLoop rooted fuel rest st
    else if c = '.' ∧ rest.head? = some '.' ∧
        (rest.tail = [] ∨ (rest.tail.head?.map IsPathSeparator = some true)) then
      -- `..` element
      cleanLoop rooted fuel rest.tail (cleanDotDot rooted st)
    else
      -- real path element: add a slash if needed, then copy the element
      let out :=
        if (rooted && st.out.length != 1) || (!rooted && st.out.length != 0)
        then st.out ++ ['/'] else st.out
      let elt := (c :: rest).takeWhile (fun x => !IsPathSeparator x)
      let rest' := (c :: rest).dropWhile (fun x => !IsPathSeparator x)
      cleanLoop rooted fuel rest' { st with out := out ++ elt }

/-- Go `filepath.Clean` on Unix (no volume name): the empty path gives `.`;
otherwise the loop runs over the path, after the leading separator when the
path is rooted, and an empty output is turned into `.`. -/
def Clean (path : Str) : Str :=
  match path with
  | [] => ['.']
  | c :: rest =>
    let rooted := IsPathSeparator c
    let init : CleanState :=
      if rooted then { out := ['/'], dotdot := 1 } else { out := [], dotdot := 0 }
    let st := cleanLoop rooted path.length (if rooted then rest else c :: rest) init
    if st.out.length = 0 then ['.'] else st.out

/-- Go `filepath.Join`: the elements from the first non-empty one on, joined
with the separator and cleaned; the empty string when all are empty. -/
def Join : List Str → Str
  | [] => []
  | e :: rest => if e ≠ [] then Clean (stringsJoin (e :: rest) ['/']) else Join rest

/-- Go `filepath.IsAbs` on Unix. -/
def IsAbs (path : Str) : Bool := HasPrefix path ['/']

/-- Go `filepath.Abs` on Unix, the error dropped as the source drops it:
`getwd` is the result of `os.Getwd`, `none` when it fails, in which case the
returned path is empty. -/
def Abs (getwd : Option Str) (path : Str) : Str :=
  if IsAbs path then Clean path
  else
    match getwd with
    | some wd => Join [wd, path]
    | none => []

/-! ## Package `path`, `fmt` -/

/-- The scan of Go `path.Ext` from the end of the path: `rev` is the part of
the path not yet scanned, reversed, and `acc` the part already scanned. -/
def extAux : Str → Str → Str
  | [], _ => []
  | c :: rev, acc =>
    if c = '/' then [] else if c = '.' then c :: acc else extAux rev (c :: acc)

/-- Go `path.Ext`: the suffix beginning at the final dot in the final
slash-separated element of the path, empty if there is no dot. -/
def Ext (path : Str) : Str := extAux path.reverse []

/-- The verb `%d` of package `fmt` on an `int`. -/
def formatInt : Int → Str
  | Int.ofNat n => (Nat.repr n).toList
  | Int.negSucc n => '-' :: (Nat.repr (n + 1)).toList

/-- An operand of `fmt.Sprintf`. -/
inductive Arg where
  | int (i : Int)
  | str (s : Str)

/-- A piece of a format string: a run of literal text, or one of the verbs
`%d` and `%s`. -/
inductive Piece where
  | lit (s : Str)
  | d
  | s
deriving DecidableEq

/-- A run of literal text read in reverse, as a piece (none when empty). -/
def flushLit (acc : Str) : List Piece :=
  if acc = [] then [] else [Piece.lit acc.reverse]

/-- The scan of a format string into literal runs and verbs; `acc` is the
literal run being read, reversed. -/
def formatPieces : Str → Str → List Piece
  | [], acc => flushLit acc
  | [c], acc => flushLit (c :: acc)
  | c :: v :: rest, acc =>
    if c = '%' ∧ v = 'd' then flushLit acc ++ Piece.d :: formatPieces rest []
    else if c = '%' ∧ v = 's' then flushLit acc ++ Piece.s :: formatPieces rest []
    else formatPieces (v :: rest) (c :: acc)

/-- The output of the pieces of a format with the operands: a verb takes the
next operand (`%d` an `int`, `%s` a `string`, the only uses in the source). -/
def render : List Piece → List Arg → Str
  | [], _ => []
  | Piece.lit t :: ps, args => t ++ render ps args
  | Piece.d :: ps, Arg.int i :: args => formatInt i ++ render ps args
  | Piece.s :: ps, Arg.str t :: args => t ++ render ps args
  | Piece.d :: ps, args => '%' :: 'd' :: render ps args
  | Piece.s :: ps, args => '%' :: 's' :: render ps args

/-- Go `fmt.Sprintf`, for the verbs the source uses: `%d` with an `int`
operand and `%s` with a `string` operand; the other text of the format is
copied. -/
def Sprintf (format : Str) (args : List Arg) : Str :=
  render (formatPieces format []) args

/-! ## The outside world -/

/-- What the server consults outside itself. -/
structure Env where
  /-- Result of `os.Getwd`, `none` when it fails. -/
  getwd : Option Str
  /-- Result of `os.Stat`: `none` for an error, else `some info.IsDir()`. -/
  stat : Str → Option Bool
  /-- Result of `os.ReadFile`: `none` for an error, else the content. -/
  readFile : Str → Option Bytes
  /-- The text `time.Now().UTC().Format(time.RFC1123)`. -/
  now : Str
  /-- Go `mime.TypeByExtension`, the empty string when the extension is unknown. -/
  typeByExtension : Str → Str
  /-- The lower-case mapping of package `unicode` beyond ASCII. -/
  caseTable : Char → Char

/-- An action of a handler on the outside world. -/
inductive Event where
  /-- The call `os.Stat(path)`. -/
  | stat (path : Str)
  /-- The call `os.ReadFile(path)`. -/
  | readFile (path : Str)
  /-- The call `conn.Write(data)`. -/
  | write (data : Bytes)
deriving DecidableEq

/-- The data of the `conn.Write` calls of a trace, in order. -/
def writes : List Event → List Bytes
  | [] => []
  | Event.write d :: es => d :: writes es
  | _ :: es => writes es

/-- Whether an event is a call to the file system. -/
def Event.isFs : Event → Bool
  | Event.write _ => false
  | _ => true

/-! ## The server -/

/-- Go map `map[string]string`. -/
abbrev Headers := Str → Option Str

/-- The result of `make(map[string]string)`. -/
def Headers.empty : Headers := fun _ => none

/-- The assignment `m[k] = v`. -/
def Headers.set (m : Headers) (k v : Str) : Headers :=
  fun k' => if k' = k then some v else m k'

/-- The type `HttpRequest`. -/
structure HttpRequest where
  Method : Str
  Path : Str
  Version : Str
  Headers : Headers

/-- A `net.Listener`, open or closed. -/
structure Listener where
  closed : Bool
deriving DecidableEq

/-- The type `HttpServer`. -/
structure HttpServer where
  port : Int
  documentRoot : Str
  listener : Option Listener
  running : Bool
deriving DecidableEq

/-- The errors `parseRequest` returns. -/
inductive ParseError where
  /-- The error of the first `ReadLine`. -/
  | readError
  /-- The error made for a request line that has not three fields. -/
  | invalidRequestLine
deriving DecidableEq

/-- The header loop of `parseRequest` over the lines that the calls of
`ReadLine` still return before one fails (see `readLines`; a piece of a line
longer than the buffer is one of them): it stops at a failing `ReadLine` and
at an empty line, and stores a line whose first colon is at a positive
index. -/
def readHeaders (env : Env) : List Str → Headers → Headers
  | [], headers => headers
  | headerStr :: rest, headers =>
    if headerStr = [] then headers
    else
      let colonIndex := Index headerStr ":".toList
      if colonIndex > 0 then
        let headerName := ToLower env.caseTable (TrimSpace (headerStr.take colonIndex.toNat))
        let headerValue := TrimSpace (headerStr.drop (colonIndex + 1).toNat)
        readHeaders env rest (headers.set headerName headerValue)
      else readHeaders env rest headers

/-- The method `parseRequest` after `reader := bufio.NewReader(conn)`: `conn`
lists the lines that the successive calls `reader.ReadLine()` return before
one fails, as `readLines` computes them from the bytes of the connection; the
result is the pair `(request, err)` of the source.  `parseRequestConn` is the
method on the bytes of the connection. -/
def parseRequest (env : Env) (conn : List Str) : Option HttpRequest × Option ParseError :=
  match conn with
  | [] => (none, some ParseError.readError)
  | requestLine :: rest =>
    match Fields requestLine with
    | [m, p, v] =>
      (some { Method := m, Path := p, Version := v,
              Headers := readHeaders env rest Headers.empty }, none)
    | _ => (none, some ParseError.invalidRequestLine)

/-- The method `sendResponse`: the header block, then the body when it is not
empty. -/
def sendResponse (env : Env) (statusCode : Int) (statusText contentType : Str)
    (content : Bytes) : List Event :=
  let response := Sprintf
    ("HTTP/1.1 %d %s\r\n" ++
      "Content-Type: %s\r\n" ++
      "Content-Length: %d\r\n" ++
      "Connection: close\r\n" ++
      "Server: HttpServerGo/1.0\r\n" ++
      "Date: %s\r\n" ++
      "\r\n").toList
    [Arg.int statusCode, Arg.str statusText, Arg.str contentType,
     Arg.int content.length, Arg.str env.now]
  Event.write (toBytes response) ::
    (if content.length > 0 then [Event.write content] else [])

/-- The method `sendErrorResponse`. -/
def sendErrorResponse (env : Env) (statusCode : Int) (statusText : Str) : List Event :=
  let errorHTML := Sprintf
    ("\n<html>\n<head><title>%d %s</title></head>\n<body>\n\t<h1>%d %s</h1>\n" ++
      "\t<p>HttpServerGo/1.0</p>\n\t<hr>\n\t<p><em>纯AI生成的HTTP服务器</em></p>\n" ++
      "</body>\n</html>\n").toList
    [Arg.int statusCode, Arg.str statusText, Arg.int statusCode, Arg.str statusText]
  let content := toBytes errorHTML
  sendResponse env statusCode statusText "text/html; charset=utf-8".toList content

/-- The method `getContentType`. -/
def getContentType (env : Env) (filePath : Str) : Str :=
  let ext := ToLower env.caseTable (Ext filePath)
  let contentType := env.typeByExtension ext
  if contentType ≠ [] then contentType
  else if ext = ".html".toList ∨ ext = ".htm".toList then "text/html; charset=utf-8".toList
  else if ext = ".css".toList then "text/css".toList
  else if ext = ".js".toList then "application/javascript".toList
  else if ext = ".json".toList then "application/json".toList
  else if ext = ".xml".toList then "application/xml".toList
  else if ext = ".png".toList then "image/png".toList
  else if ext = ".jpg".toList ∨ ext = ".jpeg".toList then "image/jpeg".toList
  else if ext = ".gif".toList then "image/gif".toList
  else if ext = ".svg".toList then "image/svg+xml".toList
  else if ext = ".ico".toList then "image/x-icon".toList
  else if ext = ".pdf".toList then "application/pdf".toList
  else if ext = ".txt".toList then "text/plain; charset=utf-8".toList
  else if ext = ".zip".toList then "application/zip".toList
  else "application/octet-stream".toList

/-- The value of `filePath` in `handleRequest` when the full path is built:
the request path, `/index.html` for the path `/`, then cut at the first `?`. -/
def requestFilePath (path : Str) : Str :=
  let filePath := if path = "/".toList then "/index.html".toList else path
  let queryIndex := Index filePath "?".toList
  if queryIndex ≠ -1 then filePath.take queryIndex.toNat else filePath

/-- The value of `fullPath` in `handleRequest`. -/
def fullPath (s : HttpServer) (path : Str) : Str :=
  Join [s.documentRoot, TrimPrefix (requestFilePath path) "/".toList]

/-- The value of `absDocRoot` in `handleRequest`. -/
def absDocRoot (env : Env) (s : HttpServer) : Str := Abs env.getwd s.documentRoot

/-- The value of `absFullPath` in `handleRequest`. -/
def absFullPath (env : Env) (s : HttpServer) (path : Str) : Str :=
  Abs env.getwd (fullPath s path)

/-- The method `handleRequest`. -/
def handleRequest (env : Env) (s : HttpServer) (request : HttpRequest) : List Event :=
  if request.Method ≠ "GET".toList then
    sendErrorResponse env 405 "Method Not Allowed".toList
  else if !HasPrefix (absFullPath env s request.Path) (absDocRoot env s) then
    sendErrorResponse env 403 "Forbidden".toList
  else
    Event.stat (absFullPath env s request.Path) ::
    match env.stat (absFullPath env s request.Path) with
    | none => sendErrorResponse env 404 "Not Found".toList
    | some true => sendErrorResponse env 404 "Not Found".toList
    | some false =>
      Event.readFile (absFullPath env s request.Path) ::
      match env.readFile (absFullPath env s request.Path) with
      | none => sendErrorResponse env 500 "Internal Server Error".toList
      | some content =>
        sendResponse env 200 "OK".toList
          (getContentType env (absFullPath env s request.Path)) content

/-- The method `handleClient`, on the lines that the reader of the connection
returns (the deadlines, the log lines and the closing of the connection leave
no event).  `handleClientConn` is the method on the bytes of the
connection. -/
def handleClient (env : Env) (s : HttpServer) (conn : List Str) : List Event :=
  match parseRequest env conn with
  | (_, some _) => sendErrorResponse env 400 "Bad Request".toList
  | (none, none) => sendErrorResponse env 400 "Bad Request".toList
  | (some request, none) => handleRequest env s request

/-! ## The wire format of the specification, and the vocabulary of the theorems -/

/-- The status line `HTTP/1.1 <code> <text>\r\n` of the wire format. -/
def statusLine (code : Int) (text : Str) : Str :=
  "HTTP/1.1 ".toList ++ formatInt code ++ " ".toList ++ text ++ "\r\n".toList

/-- The header block of the wire format of the specification, line by line,
for a body of `n` bytes and the timestamp `date`. -/
def wireHeader (code : Int) (text ctype : Str) (n : Nat) (date : Str) : Str :=
  statusLine code text ++
  "Content-Type: ".toList ++ ctype ++ "\r\n".toList ++
  "Content-Length: ".toList ++ formatInt n ++ "\r\n".toList ++
  "Connection: close\r\n".toList ++
  "Server: HttpServerGo/1.0\r\n".toList ++
  "Date: ".toList ++ date ++ "\r\n".toList ++
  "\r\n".toList

/-- The HTML text of an error page, written out. -/
def errorPage (code : Int) (text : Str) : Str :=
  "\n<html>\n<head><title>".toList ++ formatInt code ++ " ".toList ++ text ++
  "</title></head>\n<body>\n\t<h1>".toList ++ formatInt code ++ " ".toList ++ text ++
  "</h1>\n\t<p>HttpServerGo/1.0</p>\n\t<hr>\n\t<p><em>纯AI生成的HTTP服务器</em></p>\n</body>\n</html>\n".toList

/-- A trace answers with the status `code text`: its first write to the
connection begins with the status line of that status. -/
def answers (es : List Event) (code : Int) (text : Str) : Prop :=
  ∃ hdr rest, writes es = hdr :: rest ∧ toBytes (statusLine code text) <+: hdr

/-- A world for the examples: the working directory is `/srv`, the directory
`/srv/Pub` holds the file `index.html` with the content `<h1>hi</h1>`. -/
def demoEnv : Env where
  getwd := some "/srv".toList
  stat := fun p =>
    if p = "/srv/Pub/index.html".toList then some false
    else if p = "/srv/Pub".toList then some true else none
  readFile := fun p =>
    if p = "/srv/Pub/index.html".toList then some (toBytes "<h1>hi</h1>".toList) else none
  now := "Sun, 01 Nov 2026 00:00:00 UTC".toList
  typeByExtension := fun e =>
    if e = ".html".toList then "text/html; charset=utf-8".toList else []
  caseTable := id

/-- A server on the default port and document root. -/
def demoServer : HttpServer :=
  { port := 8080, documentRoot := "./Pub".toList, listener := none, running := true }

/-- A request `GET path HTTP/1.1` without headers. -/
def getRequest (path : Str) : HttpRequest :=
  { Method := "GET".toList, Path := path, Version := "HTTP/1.1".toList,
    Headers := Headers.empty }

/-- The entry a non-empty header line stores in the loop of `parseRequest`:
none when the first colon is not at a positive index, else the name (the text
before the first colon, trimmed and lower-cased) and the value (the text
after it, trimmed). -/
def headerEntry (env : Env) (headerStr : Str) : Option (Str × Str) :=
  if Index headerStr ":".toList > 0 then
    some (ToLower env.caseTable (TrimSpace (headerStr.take (Index headerStr ":".toList).toNat)),
          TrimSpace (headerStr.drop (Index headerStr ":".toList + 1).toNat))
  else none

/-- The effect of one non-empty header line on the map of headers. -/
def storeHeader (env : Env) (headers : Headers) (headerStr : Str) : Headers :=
  match headerEntry env headerStr with
  | some (name, value) => headers.set name value
  | none => headers

/-- The extensions named in the `switch` of `getContentType`. -/
def switchExtensions : List Str :=
  [".html".toList, ".htm".toList, ".css".toList, ".js".toList, ".json".toList,
   ".xml".toList, ".png".toList, ".jpg".toList, ".jpeg".toList, ".gif".toList,
   ".svg".toList, ".ico".toList, ".pdf".toList, ".txt".toList, ".zip".toList]

/-- A text without leading and trailing white space. -/
def Trimmed (s : Str) : Prop :=
  (∀ c, s.head? = some c → isSpace c = false) ∧
  (∀ c, s.getLast? = some c → isSpace c = false)

/-! ## The life cycle of the server, and `main` -/

/-- The function `NewHttpServer`. -/
def NewHttpServer (port : Int) (documentRoot : Str) : HttpServer :=
  { port := port, documentRoot := documentRoot, listener := none, running := false }

/-- The method `Start` up to its accept loop: `bound` tells whether
`net.Listen` succeeds. The field `listener` is assigned in both cases; on a
failure the method returns the error (second component `true`) without
touching `running`, on a success it sets `running` and goes on to the loop. -/
def Start (bound : Bool) (s : HttpServer) : HttpServer × Bool :=
  if bound then ({ s with listener := some { closed := false }, running := true }, false)
  else ({ s with listener := none }, true)

/-- The method `Stop`. -/
def Stop (s : HttpServer) : HttpServer :=
  { s with running := false,
           listener := s.listener.map (fun l => { l with closed := true }) }

/-- A life-cycle operation on a server: the setup step of `Start`, with the
outcome of `net.Listen`, or `Stop`. -/
inductive LifecycleOp where
  | start (bound : Bool)
  | stop
deriving DecidableEq

/-- The state of the server after a life-cycle operation. -/
def applyOp (s : HttpServer) : LifecycleOp → HttpServer
  | LifecycleOp.start bound => (Start bound s).1
  | LifecycleOp.stop => Stop s

/-- The state of the server after a sequence of life-cycle operations. -/
def runOps (ops : List LifecycleOp) (s : HttpServer) : HttpServer :=
  ops.foldl applyOp s

/-- The value of a run of decimal digits read after the value `n`, none when
a character is not a decimal digit. -/
def parseDigits : Str → Nat → Option Nat
  | [], n => some n
  | c :: cs, n =>
    if '0'.toNat ≤ c.toNat ∧ c.toNat ≤ '9'.toNat then
      parseDigits cs (n * 10 + (c.toNat - '0'.toNat))
    else none

/-- Go `strconv.Atoi` for a 64-bit `int`, `none` for an error: an optional
sign, then at least one decimal digit and nothing else, the value being in
the range of `int`. -/
def Atoi (s : Str) : Option Int :=
  let neg : Bool := s.head? = some '-'
  let digits := if s.head? = some '-' ∨ s.head? = some '+' then s.tail else s
  if digits = [] then none
  else
    match parseDigits digits 0 with
    | none => none
    | some n =>
      let v : Int := if neg then -(n : Int) else (n : Int)
      if -(2 ^ 63 : Int) ≤ v ∧ v ≤ 2 ^ 63 - 1 then some v else none

/-- How `main` goes on after the command line is read. -/
inductive MainResult where
  /-- The end of the process with the status `code`: the call `os.Exit(code)`
  of `main`, or the one of `log.Fatalf`, whose status is 1. -/
  | exit (code : Int)
  /-- The server in the accept loop of `Start`. -/
  | serve (server : HttpServer)
deriving DecidableEq

/-- The function `main` up to the accept loop of `Start`, on the arguments
`os.Args[1:]`; `isNotExist path` tells whether `os.Stat(path)` fails with an
error for which `os.IsNotExist` holds, and `listen port` whether
`net.Listen("tcp", ":port")` succeeds.  When `Start` returns its error, `main`
calls `log.Fatalf`, which ends the process with status 1. -/
def main (isNotExist : Str → Bool) (listen : Int → Bool) (args : List Str) : MainResult :=
  let port : Option Int :=
    match args with
    | [] => some 8080
    | a :: _ => Atoi a
  match port with
  | none => MainResult.exit 1
  | some port =>
    let documentRoot :=
      match args with
      | _ :: r :: _ => r
      | _ => "./Pub".toList
    if isNotExist documentRoot then MainResult.exit 1
    else
      let started := Start (listen port) (NewHttpServer port documentRoot)
      if started.2 then MainResult.exit 1 else MainResult.serve started.1

/-- Containment by path segments: `path` is the directory `root` or lies
below it (both absolute and clean). -/
def insideDir (root path : Str) : Bool :=
  root = "/".toList || path = root || HasPrefix path (root ++ "/".toList)

/-- A world with two sibling directories: `/srv/pub`, and `/srv/public` with
the file `x`. -/
def siblingEnv : Env where
  getwd := some "/srv".toList
  stat := fun p =>
    if p = "/srv/public/x".toList then some false
    else if p = "/srv/pub".toList ∨ p = "/srv/public".toList then some true else none
  readFile := fun p =>
    if p = "/srv/public/x".toList then some (toBytes "secret".toList) else none
  now := "Sun, 01 Nov 2026 00:00:00 UTC".toList
  typeByExtension := fun _ => []
  caseTable := id

/-- A server whose document root is `/srv/pub`. -/
def siblingServer : HttpServer :=
  { port := 8080, documentRoot := "/srv/pub".toList, listener := none, running := true }

/-! ## Path elements -/

/-- The elements of a path, as `strings.Split(path, "/")` gives them. -/
def splitSlash : Str → List Str
  | [] => [[]]
  | c :: cs =>
    if c = '/' then [] :: splitSlash cs
    else
      match splitSlash cs with
      | [] => [[c]]
      | seg :: segs => (c :: seg) :: segs

/-- What one iteration of the loop of `filepath.Clean` does with the path
element it reads: nothing for an empty element and for `.`, the backtracking
for `..`, and the copy of any other element after a separator where one is
needed. -/
def stepSeg (rooted : Bool) (st : CleanState) (seg : Str) : CleanState :=
  if seg = [] ∨ seg = ['.'] then st
  else if seg = ['.', '.'] then cleanDotDot rooted st
  else
    { st with out :=
        (if (rooted && st.out.length != 1) || (!rooted && st.out.length != 0)
         then st.out ++ ['/'] else st.out) ++ seg }

/-- An element that the loop of `filepath.Clean` copies to its output: not
empty, without separator, and neither `.` nor `..`. -/
def NormalSeg (seg : Str) : Prop :=
  seg ≠ [] ∧ '/' ∉ seg ∧ seg ≠ ['.'] ∧ seg ≠ ['.', '.']

/-- The output of the loop of `filepath.Clean` after the elements of `stack`
(the last one first) were copied behind `base`. -/
def renderPath (rooted : Bool) (base : Str) : List Str → Str
  | [] => base
  | top :: below =>
    (if (rooted && (renderPath rooted base below).length != 1) ||
        (!rooted && (renderPath rooted base below).length != 0)
     then renderPath rooted base below ++ ['/'] else renderPath rooted base below) ++ top

/-- The output of the loop of `filepath.Clean` on `k` elements `..` that
could not backtrack. -/
def dots : Nat → Str
  | 0 => []
  | k + 1 => (if (dots k).length > 0 then dots k ++ ['/'] else dots k) ++ ['.', '.']

/-- The part of the output that `..` cannot remove: the leading separator of
a rooted path, the leading `..` elements of another one. -/
def cleanBase (rooted : Bool) (k : Nat) : Str :=
  if rooted then ['/'] else dots k

/-- The state of the loop of `filepath.Clean` that has `k` leading `..`
elements and the copied elements `stack`. -/
def stateOf (rooted : Bool) (σ : Nat × List Str) : CleanState :=
  { out := renderPath rooted (cleanBase rooted σ.1) σ.2,
    dotdot := (cleanBase rooted σ.1).length }

/-- The loop of `filepath.Clean` on the number of leading `..` elements and
the stack of copied elements. -/
def stepStack (rooted : Bool) (σ : Nat × List Str) (seg : Str) : Nat × List Str :=
  if seg = [] ∨ seg = ['.'] then σ
  else if seg = ['.', '.'] then
    match σ.2 with
    | _ :: below => (σ.1, below)
    | [] => if rooted then σ else (σ.1 + 1, [])
  else (σ.1, seg :: σ.2)

/-- Whether `filepath.Clean` treats a path as rooted: it begins with a
separator. -/
def isRooted (p : Str) : Bool :=
  match p with
  | c :: _ => IsPathSeparator c
  | [] => false

/-- The number of leading `..` elements and the stack of copied elements
with which the loop of `filepath.Clean` ends on a path. -/
def cleanStack (p : Str) : Nat × List Str :=
  (splitSlash p).foldl (stepStack (isRooted p)) (0, [])

/-- A server whose document root is the empty string. -/
def emptyRootServer : HttpServer :=
  { port := 8080, documentRoot := [], listener := none, running := true }

/-! ## The buffered reader of a connection -/

/-- The constant `defaultBufSize` of package `bufio`: the size in bytes of the
buffer of `bufio.NewReader`. -/
def defaultBufSize : Nat := 4096

/-- The end of `bufio.Reader.ReadLine` on a line that ends in `\n`, on the
bytes before the `\n`, reversed: a `\r` right before the `\n` is dropped with
it. -/
def dropCRrev : Bytes → Bytes
  | [] => []
  | b :: cur => if b = 13 then cur else b :: cur

/-- What `ReadLine` returns for the bytes `line` followed by `\n`, when they
fit in the buffer: the bytes without a `\r` at their end. -/
def dropCR (line : Bytes) : Bytes := (dropCRrev line.reverse).reverse

/-- The lines that the successive calls of `ReadLine` return before one
fails, for a reader with a buffer of `defaultBufSize` bytes on a connection
that still delivers the bytes of the first argument and then fails (EOF, read
error, read deadline); `cur` holds the bytes buffered since the last line,
reversed.

* At a `\n` the line read so far is returned, without the `\n` and without a
  `\r` before it.
* When the buffer is full and holds no `\n`, `ReadSlice` fails with
  `ErrBufferFull` and `ReadLine` returns the buffer as a line with `isPrefix`
  set (`parseRequest` does not look at `isPrefix`); a `\r` at the end of the
  full buffer is put back and read again with the next line.
* When the connection fails, the bytes buffered are returned as a last line,
  as they are, if there are any; the next call returns the error. -/
def readLinesAux : Bytes → Bytes → List Bytes
  | [], cur => if cur = [] then [] else [cur.reverse]
  | b :: rest, cur =>
    if b = 10 then (dropCRrev cur).reverse :: readLinesAux rest []
    else if cur.length + 1 = defaultBufSize then
      (if b = 13 then cur.reverse :: readLinesAux rest [b]
       else (b :: cur).reverse :: readLinesAux rest [])
    else readLinesAux rest (b :: cur)

/-- The lines that the successive calls `reader.ReadLine()` return on
`reader := bufio.NewReader(conn)` before one fails, `input` being the bytes
that the connection delivers before it fails. -/
def readLines (input : Bytes) : List Bytes := readLinesAux input []

/-- Go `utf8.DecodeRune`: the first character of a byte string and the number
of bytes read; for bytes that do not begin a well-formed encoding,
`utf8.RuneError` (U+FFFD) and one byte, and no byte for the empty string. -/
def DecodeRune : Bytes → Char × Nat
  | [] => (Char.ofNat 0xFFFD, 0)
  | b0 :: rest =>
    let x := b0.toNat
    if x < 0x80 then (Char.ofNat x, 1)
    else if 0xC2 ≤ x ∧ x ≤ 0xDF then
      match rest with
      | b1 :: _ =>
        if 0x80 ≤ b1.toNat ∧ b1.toNat ≤ 0xBF then
          (Char.ofNat ((x % 32) * 64 + b1.toNat % 64), 2)
        else (Char.ofNat 0xFFFD, 1)
      | _ => (Char.ofNat 0xFFFD, 1)
    else if 0xE0 ≤ x ∧ x ≤ 0xEF then
      match rest with
      | b1 :: b2 :: _ =>
        if (if x = 0xE0 then 0xA0 else 0x80) ≤ b1.toNat ∧
            b1.toNat ≤ (if x = 0xED then 0x9F else 0xBF) ∧
            0x80 ≤ b2.toNat ∧ b2.toNat ≤ 0xBF then
          (Char.ofNat ((x % 16) * 4096 + (b1.toNat % 64) * 64 + b2.toNat % 64), 3)
        else (Char.ofNat 0xFFFD, 1)
      | _ => (Char.ofNat 0xFFFD, 1)
    else if 0xF0 ≤ x ∧ x ≤ 0xF4 then
      match rest with
      | b1 :: b2 :: b3 :: _ =>
        if (if x = 0xF0 then 0x90 else 0x80) ≤ b1.toNat ∧
            b1.toNat ≤ (if x = 0xF4 then 0x8F else 0xBF) ∧
            0x80 ≤ b2.toNat ∧ b2.toNat ≤ 0xBF ∧ 0x80 ≤ b3.toNat ∧ b3.toNat ≤ 0xBF then
          (Char.ofNat ((x % 8) * 262144 + (b1.toNat % 64) * 4096 + (b2.toNat % 64) * 64 +
            b3.toNat % 64), 4)
        else (Char.ofNat 0xFFFD, 1)
      | _ => (Char.ofNat 0xFFFD, 1)
    else (Char.ofNat 0xFFFD, 1)

/-- The characters of a byte string, read one `utf8.DecodeRune` after the
other, at most `fuel` of them. -/
def ofBytesAux : Nat → Bytes → Str
  | 0, _ => []
  | _ + 1, [] => []
  | fuel + 1, b :: rest =>
    (DecodeRune (b :: rest)).1 :: ofBytesAux fuel ((b :: rest).drop (DecodeRune (b :: rest)).2)

/-- The conversion `string(b)`, as the text that the functions of package
`strings` read in it, one `utf8.DecodeRune` after the other: on well-formed
UTF-8 the text encoded, and U+FFFD for every byte that is not part of a
well-formed encoding (a `Str` cannot keep such a byte itself). -/
def ofBytes (b : Bytes) : Str := ofBytesAux b.length b

/-- The texts `string(line)` of the lines that the successive calls
`reader.ReadLine()` return on a connection that delivers the bytes `input`. -/
def connLines (input : Bytes) : List Str := (readLines input).map ofBytes

/-- The method `parseRequest` on a connection that delivers the bytes `input`
and then fails: `parseRequest` on the lines that its reader returns. -/
def parseRequestConn (env : Env) (input : Bytes) : Option HttpRequest × Option ParseError :=
  parseRequest env (connLines input)

/-- The bytes of a sequence of lines, each one followed by `\n`. -/
def joinLines : List Bytes → Bytes
  | [] => []
  | line :: lines => line ++ 10 :: joinLines lines

/-- A request line of three tokens and 5014 bytes: `GET`, a path of 5001
bytes and `HTTP/1.1`. -/
def longRequestLine : Str :=
  "GET /".toList ++ List.replicate 5000 'a' ++ " HTTP/1.1".toList

/-- A header line of 4106 bytes: the name `X-Pad` and a value of 4099 letters
`a`. -/
def longHeaderLine : Str := "X-Pad: ".toList ++ List.replicate 4099 'a'

/-- The text `string(line)` that `parseRequest` gets for the bytes `line`
followed by `\n`, when they fit in the buffer of the reader. -/
def lineText (line : Bytes) : Str := ofBytes (dropCR line)

/-- The bytes of a line before its `\n` fit in the buffer of the reader
together with the `\n`: there are at most 4095 of them, a `\r` before the
`\n` being counted; `ReadLine` then returns the line whole. -/
abbrev WholeLine (line : Bytes) : Prop := (10 : UInt8) ∉ line ∧ line.length < defaultBufSize

/-! ## The library functions on examples -/

theorem Clean_examples :
    Clean "/srv/pub/../../etc/passwd".toList = "/etc/passwd".toList ∧
    Clean "a//b/./c/..".toList = "a/b".toList ∧
    Clean "../../a/../..".toList = "../../..".toList ∧
    Clean "/../a".toList = "/a".toList ∧
    Clean "abc/../..".toList = "..".toList ∧
    Clean "".toList = ".".toList ∧
    Clean "./".toList = ".".toList ∧
    Clean "/".toList = "/".toList ∧
    Clean "a/..b/.c/...".toList = "a/..b/.c/...".toList := by decide

theorem Join_Abs_examples :
    Join ["./Pub".toList, "index.html".toList] = "Pub/index.html".toList ∧
    Join ["/srv/pub".toList, []] = "/srv/pub".toList ∧
    Join [[], "a".toList] = "a".toList ∧
    Abs (some "/srv".toList) "./Pub".toList = "/srv/Pub".toList ∧
    Abs none "./Pub".toList = [] := by decide

theorem strings_examples :
    Fields " GET  /  HTTP/1.1 ".toList = ["GET".toList, "/".toList, "HTTP/1.1".toList] ∧
    Fields "".toList = [] ∧
    TrimSpace "  a b \t".toList = "a b".toList ∧
    Index "a?b?c".toList "?".toList = 1 ∧
    Index "abc".toList "?".toList = -1 ∧
    Ext "/srv/Pub/a.b/data.JSON".toList = ".JSON".toList ∧
    Ext "/srv/Pub/a.b/data".toList = [] := by decide

theorem Clean_go_tests :
    Clean "abc".toList = "abc".toList ∧
    Clean "..".toList = "..".toList ∧
    Clean "../../abc".toList = "../../abc".toList ∧
    Clean "abc/".toList = "abc".toList ∧
    Clean "../../".toList = "../..".toList ∧
    Clean "abc//def//ghi".toList = "abc/def/ghi".toList ∧
    Clean "///abc".toList = "/abc".toList ∧
    Clean "//abc//".toList = "/abc".toList ∧
    Clean "/./abc/def".toList = "/abc/def".toList ∧
    Clean "abc/.".toList = "abc".toList ∧
    Clean "abc/def/../ghi/../jkl".toList = "abc/jkl".toList ∧
    Clean "abc/def/../..".toList = ".".toList ∧
    Clean "/abc/def/../..".toList = "/".toList ∧
    Clean "abc/def/../../..".toList = "..".toList ∧
    Clean "/abc/def/../../..".toList = "/".toList ∧
    Clean "abc/def/../../../ghi/jkl/../../../mno".toList = "../../mno".toList ∧
    Clean "/../abc".toList = "/abc".toList ∧
    Clean "abc/./../def".toList = "def".toList ∧
    Clean "abc//./../def".toList = "def".toList ∧
    Clean "abc/../../././../def".toList = "../../def".toList := by decide

theorem length_dropWhile_lt (c : Char) (rest : Str) (h : IsPathSeparator c = false) :
    ((c :: rest).dropWhile (fun x => !IsPathSeparator x)).length < (c :: rest).length := by
  rw [List.dropWhile_cons]
  simp only [h, Bool.not_false, if_true]
  exact Nat.lt_succ_of_le ((List.dropWhile_sublist _).length_le)

/-- The loop of `filepath.Clean` reads at least one character in each
iteration: with fuel for the length of the path it runs to the end of the
path, and more fuel does not change its result. -/
theorem cleanLoop_fuel (rooted : Bool) (fuel fuel2 : Nat) (path : Str) (st : CleanState)
    (h : path.length ≤ fuel) (h2 : path.length ≤ fuel2) :
    cleanLoop rooted fuel path st = cleanLoop rooted fuel2 path st := by
  induction fuel generalizing fuel2 path st with
  | zero =>
    have hp : path = [] := List.length_eq_zero.mp (Nat.le_zero.mp h)
    subst hp
    cases fuel2 <;> rfl
  | succ n ih =>
    cases path with
    | nil => cases fuel2 <;> rfl
    | cons c rest =>
      cases fuel2 with
      | zero => exact absurd h2 (by simp)
      | succ m =>
        have hl : rest.length ≤ n := Nat.le_of_succ_le_succ h
        have hl2 : rest.length ≤ m := Nat.le_of_succ_le_succ h2
        have ht : rest.tail.length ≤ rest.length := by simp
        simp only [cleanLoop]
        split
        · exact ih m rest st hl hl2
        · rename_i hsep
          split
          · exact ih m rest st hl hl2
          · split
            · exact ih m rest.tail _ (le_trans ht hl) (le_trans ht hl2)
            · have hsep2 : IsPathSeparator c = false := by simpa using hsep
              have hlt := length_dropWhile_lt c rest hsep2
              simp only [List.length_cons] at hlt
              exact ih m _ _ (by omega) (by omega)


/-! ## The response writer -/

theorem toBytes_append (a b : Str) : toBytes (a ++ b) = toBytes a ++ toBytes b := by
  simp [toBytes]

theorem toBytes_cons (c : Char) (a : Str) :
    toBytes (c :: a) = String.utf8EncodeChar c ++ toBytes a := by
  simp [toBytes]

theorem responsePieces :
    formatPieces ("HTTP/1.1 %d %s\r\n" ++
      "Content-Type: %s\r\n" ++
      "Content-Length: %d\r\n" ++
      "Connection: close\r\n" ++
      "Server: HttpServerGo/1.0\r\n" ++
      "Date: %s\r\n" ++
      "\r\n").toList [] =
    [Piece.lit "HTTP/1.1 ".toList, Piece.d, Piece.lit " ".toList, Piece.s,
     Piece.lit "\r\nContent-Type: ".toList, Piece.s,
     Piece.lit "\r\nContent-Length: ".toList, Piece.d,
     Piece.lit "\r\nConnection: close\r\nServer: HttpServerGo/1.0\r\nDate: ".toList, Piece.s,
     Piece.lit "\r\n\r\n".toList] := by decide

theorem errorPieces :
    formatPieces
      ("\n<html>\n<head><title>%d %s</title></head>\n<body>\n\t<h1>%d %s</h1>\n" ++
      "\t<p>HttpServerGo/1.0</p>\n\t<hr>\n\t<p><em>纯AI生成的HTTP服务器</em></p>\n" ++
      "</body>\n</html>\n").toList [] =
    [Piece.lit "\n<html>\n<head><title>".toList, Piece.d, Piece.lit " ".toList, Piece.s,
     Piece.lit "</title></head>\n<body>\n\t<h1>".toList, Piece.d, Piece.lit " ".toList,
     Piece.s,
     Piece.lit ("</h1>\n\t<p>HttpServerGo/1.0</p>\n\t<hr>\n\t<p><em>纯AI生成的HTTP服务器</em></p>\n" ++
       "</body>\n</html>\n").toList] := by decide

/-- The header block `sendResponse` formats is the header block of the wire
format. -/
theorem Sprintf_response (code : Int) (text ctype : Str) (n : Nat) (date : Str) :
    Sprintf
      ("HTTP/1.1 %d %s\r\n" ++
        "Content-Type: %s\r\n" ++
        "Content-Length: %d\r\n" ++
        "Connection: close\r\n" ++
        "Server: HttpServerGo/1.0\r\n" ++
        "Date: %s\r\n" ++
        "\r\n").toList
      [Arg.int code, Arg.str text, Arg.str ctype, Arg.int n, Arg.str date] =
    wireHeader code text ctype n date := by
  unfold Sprintf
  rw [responsePieces]
  simp only [render, wireHeader, statusLine, List.append_assoc, List.append_nil]
  rfl

/-- The HTML `sendErrorResponse` formats is the error page. -/
theorem Sprintf_error (code : Int) (text : Str) :
    Sprintf
      ("\n<html>\n<head><title>%d %s</title></head>\n<body>\n\t<h1>%d %s</h1>\n" ++
      "\t<p>HttpServerGo/1.0</p>\n\t<hr>\n\t<p><em>纯AI生成的HTTP服务器</em></p>\n" ++
      "</body>\n</html>\n").toList
      [Arg.int code, Arg.str text, Arg.int code, Arg.str text] =
    errorPage code text := by
  unfold Sprintf
  rw [errorPieces]
  simp only [render, errorPage, List.append_assoc, List.append_nil]
  rfl

theorem sendResponse_eq (env : Env) (code : Int) (text ctype : Str) (body : Bytes) :
    sendResponse env code text ctype body =
      Event.write (toBytes (wireHeader code text ctype body.length env.now)) ::
        (if body = [] then [] else [Event.write body]) := by
  unfold sendResponse
  simp only [Sprintf_response]
  cases body <;> simp

theorem errorPage_bytes_ne_nil (code : Int) (text : Str) :
    toBytes (errorPage code text) ≠ [] := by
  have h : errorPage code text = '\n' :: (errorPage code text).tail := by
    simp only [errorPage, List.append_assoc]; rfl
  rw [h, toBytes_cons]
  have : String.utf8EncodeChar '\n' = [10] := by decide
  simp [this]

theorem sendErrorResponse_eq (env : Env) (code : Int) (text : Str) :
    sendErrorResponse env code text =
      [Event.write (toBytes (wireHeader code text "text/html; charset=utf-8".toList
          (toBytes (errorPage code text)).length env.now)),
       Event.write (toBytes (errorPage code text))] := by
  unfold sendErrorResponse
  simp only [Sprintf_error, sendResponse_eq, errorPage_bytes_ne_nil, if_false]

theorem statusLine_prefix_wireHeader (code : Int) (text ctype : Str) (n : Nat) (date : Str) :
    toBytes (statusLine code text) <+: toBytes (wireHeader code text ctype n date) := by
  simp only [wireHeader, List.append_assoc, toBytes_append]
  exact List.prefix_append _ _

theorem answers_sendResponse (env : Env) (code : Int) (text ctype : Str) (body : Bytes) :
    answers (sendResponse env code text ctype body) code text := by
  rw [sendResponse_eq]
  refine ⟨_, _, rfl, statusLine_prefix_wireHeader _ _ _ _ _⟩

theorem answers_sendErrorResponse (env : Env) (code : Int) (text : Str) :
    answers (sendErrorResponse env code text) code text := by
  rw [sendErrorResponse_eq]
  exact ⟨_, _, rfl, statusLine_prefix_wireHeader _ _ _ _ _⟩

theorem sendErrorResponse_noFs (env : Env) (code : Int) (text : Str) :
    ∀ e ∈ sendErrorResponse env code text, e.isFs = false := by
  rw [sendErrorResponse_eq]
  intro e he
  simp only [List.mem_cons, List.mem_singleton, List.not_mem_nil, or_false] at he
  rcases he with rfl | rfl <;> rfl

/-! ## Routing -/

/-- C1. A GET request whose resolved absolute path does not have the absolute
document root as a string prefix is answered `403 Forbidden`, and the handler
makes no call to the file system: its trace is the two writes of the error
response. -/
theorem handleRequest_forbidden (env : Env) (s : HttpServer) (request : HttpRequest)
    (hget : request.Method = "GET".toList)
    (hout : HasPrefix (absFullPath env s request.Path) (absDocRoot env s) = false) :
    handleRequest env s request = sendErrorResponse env 403 "Forbidden".toList ∧
    answers (handleRequest env s request) 403 "Forbidden".toList ∧
    ∀ e ∈ handleRequest env s request, e.isFs = false := by
  have h : handleRequest env s request = sendErrorResponse env 403 "Forbidden".toList := by
    unfold handleRequest
    rw [if_neg (not_not.mpr hget), hout]
    rfl
  rw [h]
  exact ⟨rfl, answers_sendErrorResponse _ _ _, sendErrorResponse_noFs _ _ _⟩

/-- The path `/../../etc/passwd` under the document root `./Pub` of the
working directory `/srv` resolves to `/etc/passwd` and is answered 403
without a call to the file system. -/
theorem handleRequest_forbidden_witness :
    absFullPath demoEnv demoServer "/../../etc/passwd".toList = "/etc/passwd".toList ∧
    absDocRoot demoEnv demoServer = "/srv/Pub".toList ∧
    handleRequest demoEnv demoServer (getRequest "/../../etc/passwd".toList) =
      sendErrorResponse demoEnv 403 "Forbidden".toList ∧
    answers (handleRequest demoEnv demoServer (getRequest "/../../etc/passwd".toList))
      403 "Forbidden".toList ∧
    ∀ e ∈ handleRequest demoEnv demoServer (getRequest "/../../etc/passwd".toList),
      e.isFs = false :=
  ⟨by decide, by decide,
   handleRequest_forbidden demoEnv demoServer (getRequest "/../../etc/passwd".toList)
     (by decide) (by decide)⟩

/-- C2. A request whose method is not exactly `GET` is answered `405 Method
Not Allowed`: the trace is the error response for 405, whatever the path and
the state of the file system, and no call to the file system is made. -/
theorem handleRequest_method_not_allowed (env : Env) (s : HttpServer) (request : HttpRequest)
    (hm : request.Method ≠ "GET".toList) :
    handleRequest env s request = sendErrorResponse env 405 "Method Not Allowed".toList ∧
    answers (handleRequest env s request) 405 "Method Not Allowed".toList ∧
    ∀ e ∈ handleRequest env s request, e.isFs = false := by
  have h : handleRequest env s request =
      sendErrorResponse env 405 "Method Not Allowed".toList := by
    unfold handleRequest
    exact if_pos hm
  rw [h]
  exact ⟨rfl, answers_sendErrorResponse _ _ _, sendErrorResponse_noFs _ _ _⟩

/-- A `POST` for the existing `/index.html` and a `POST` for the traversal path
are both answered 405. -/
theorem handleRequest_method_not_allowed_witness :
    answers (handleRequest demoEnv demoServer
      { getRequest "/index.html".toList with Method := "POST".toList })
      405 "Method Not Allowed".toList ∧
    answers (handleRequest demoEnv demoServer
      { getRequest "/../../etc/passwd".toList with Method := "POST".toList })
      405 "Method Not Allowed".toList :=
  ⟨(handleRequest_method_not_allowed demoEnv demoServer
      { getRequest "/index.html".toList with Method := "POST".toList } (by decide)).2.1,
   (handleRequest_method_not_allowed demoEnv demoServer
      { getRequest "/../../etc/passwd".toList with Method := "POST".toList } (by decide)).2.1⟩

/-! ## The request parser -/

theorem fieldsAux_spaces (w r : Str) (hw : ∀ c ∈ w, isSpace c = true) :
    fieldsAux (w ++ r) [] = fieldsAux r [] := by
  induction w with
  | nil => rfl
  | cons c w ih =>
    have hc : isSpace c = true := hw c (List.mem_cons_self _ _)
    have hw2 : ∀ c ∈ w, isSpace c = true := fun x hx => hw x (List.mem_cons_of_mem _ hx)
    show fieldsAux (c :: (w ++ r)) [] = _
    rw [fieldsAux, hc, if_pos rfl, if_pos rfl]
    exact ih hw2

theorem fieldsAux_token (t r cur : Str) (ht : ∀ c ∈ t, isSpace c = false) :
    fieldsAux (t ++ r) cur = fieldsAux r (t.reverse ++ cur) := by
  induction t generalizing cur with
  | nil => rfl
  | cons c t ih =>
    have hc : isSpace c = false := ht c (List.mem_cons_self _ _)
    have ht2 : ∀ c ∈ t, isSpace c = false := fun x hx => ht x (List.mem_cons_of_mem _ hx)
    show fieldsAux (c :: (t ++ r)) cur = _
    rw [fieldsAux, hc, if_neg (by decide), ih _ ht2]
    simp

theorem fieldsAux_end_token (w r cur : Str) (hcur : cur ≠ []) (hw : ∀ c ∈ w, isSpace c = true)
    (hne : w ≠ []) :
    fieldsAux (w ++ r) cur = cur.reverse :: fieldsAux r [] := by
  cases w with
  | nil => exact absurd rfl hne
  | cons c w =>
    have hc : isSpace c = true := hw c (List.mem_cons_self _ _)
    have hw2 : ∀ c ∈ w, isSpace c = true := fun x hx => hw x (List.mem_cons_of_mem _ hx)
    show fieldsAux (c :: (w ++ r)) cur = _
    rw [fieldsAux, hc, if_pos rfl, if_neg hcur, fieldsAux_spaces w r hw2]

/-- A line made of three non-empty tokens without white space, separated by
non-empty runs of white space and with white space around, splits into these
three tokens. -/
theorem Fields_three_tokens (w0 a w1 b w2 c w3 : Str)
    (ha : a ≠ []) (hb : b ≠ []) (hc : c ≠ [])
    (hna : ∀ x ∈ a, isSpace x = false) (hnb : ∀ x ∈ b, isSpace x = false)
    (hnc : ∀ x ∈ c, isSpace x = false)
    (h0 : ∀ x ∈ w0, isSpace x = true) (h1 : ∀ x ∈ w1, isSpace x = true)
    (h2 : ∀ x ∈ w2, isSpace x = true) (h3 : ∀ x ∈ w3, isSpace x = true)
    (hw1 : w1 ≠ []) (hw2 : w2 ≠ []) :
    Fields (w0 ++ (a ++ (w1 ++ (b ++ (w2 ++ (c ++ w3)))))) = [a, b, c] := by
  have ra : a.reverse ++ [] ≠ [] := by simpa using ha
  have rb : b.reverse ++ [] ≠ [] := by simpa using hb
  have rc : c.reverse ++ [] ≠ [] := by simpa using hc
  unfold Fields
  rw [fieldsAux_spaces _ _ h0, fieldsAux_token _ _ _ hna, fieldsAux_end_token _ _ _ ra h1 hw1,
    fieldsAux_token _ _ _ hnb, fieldsAux_end_token _ _ _ rb h2 hw2,
    fieldsAux_token _ _ _ hnc]
  cases w3 with
  | nil => simp [fieldsAux, hc]
  | cons x w3 =>
    have := fieldsAux_end_token (x :: w3) [] _ rc h3 (by simp)
    rw [List.append_nil] at this
    rw [this]
    simp [fieldsAux]

/-- On the lines that the reader returns: when the first line splits into
exactly three fields, `parseRequest` succeeds, whatever lines follow it; the
method, path and version of the request are the first, second and third
field, and the headers are those of the following lines. -/
theorem parseRequest_three_fields (env : Env) (requestLine : Str) (rest : List Str)
    (m p v : Str) (h : Fields requestLine = [m, p, v]) :
    parseRequest env (requestLine :: rest) =
      (some { Method := m, Path := p, Version := v,
              Headers := readHeaders env rest Headers.empty }, none) := by
  simp only [parseRequest, h]

theorem parseRequest_not_three (env : Env) (requestLine : Str) (rest : List Str)
    (h : (Fields requestLine).length ≠ 3) :
    parseRequest env (requestLine :: rest) = (none, some ParseError.invalidRequestLine) := by
  simp only [parseRequest]
  split
  · rename_i m p v heq
    rw [heq] at h
    exact absurd rfl h
  · rfl

/-! ## Serving files -/

theorem writes_stat (p : Str) (es : List Event) : writes (Event.stat p :: es) = writes es := rfl

theorem writes_readFile (p : Str) (es : List Event) :
    writes (Event.readFile p :: es) = writes es := rfl

theorem writes_sendResponse (env : Env) (code : Int) (text ctype : Str) (body : Bytes) :
    writes (sendResponse env code text ctype body) =
      toBytes (wireHeader code text ctype body.length env.now) ::
        (if body = [] then [] else [body]) := by
  rw [sendResponse_eq]
  by_cases h : body = [] <;> simp [h, writes]

theorem writes_sendErrorResponse (env : Env) (code : Int) (text : Str) :
    writes (sendErrorResponse env code text) =
      [toBytes (wireHeader code text "text/html; charset=utf-8".toList
          (toBytes (errorPage code text)).length env.now),
       toBytes (errorPage code text)] := by
  rw [sendErrorResponse_eq]
  rfl

theorem code_infix_errorPage (code : Int) (text : Str) :
    toBytes (formatInt code) <:+: toBytes (errorPage code text) := by
  simp only [errorPage, toBytes_append, List.append_assoc]
  exact List.infix_append' _ _ _

theorem text_infix_errorPage (code : Int) (text : Str) :
    toBytes text <:+: toBytes (errorPage code text) := by
  simp only [errorPage, toBytes_append, List.append_assoc]
  exact (List.infix_append' _ _ _).trans
    ((List.suffix_append _ _).isInfix.trans (List.suffix_append _ _).isInfix)

theorem contentType_infix_wireHeader (code : Int) (text ctype : Str) (n : Nat) (date : Str) :
    toBytes ("Content-Type: ".toList ++ ctype ++ "\r\n".toList) <:+:
      toBytes (wireHeader code text ctype n date) := by
  simp only [wireHeader, toBytes_append, List.append_assoc]
  have h := List.infix_append' (toBytes (statusLine code text))
    (toBytes "Content-Type: ".toList ++ (toBytes ctype ++ toBytes "\r\n".toList))
    (toBytes "Content-Length: ".toList ++ (toBytes (formatInt n) ++ (toBytes "\r\n".toList ++
      (toBytes "Connection: close\r\n".toList ++ (toBytes "Server: HttpServerGo/1.0\r\n".toList ++
      (toBytes "Date: ".toList ++ (toBytes date ++ (toBytes "\r\n".toList ++
        toBytes "\r\n".toList))))))))
  simpa only [List.append_assoc] using h

theorem toBytes_infix (a m b : Str) : toBytes m <:+: toBytes (a ++ (m ++ b)) := by
  simp only [toBytes_append]
  exact List.infix_append' _ _ _

theorem contentLength_infix_wireHeader (code : Int) (text ctype : Str) (n : Nat) (date : Str) :
    toBytes ("Content-Length: ".toList ++ formatInt n ++ "\r\n".toList) <:+:
      toBytes (wireHeader code text ctype n date) := by
  have h : wireHeader code text ctype n date =
      (statusLine code text ++ "Content-Type: ".toList ++ ctype ++ "\r\n".toList) ++
      (("Content-Length: ".toList ++ formatInt n ++ "\r\n".toList) ++
       ("Connection: close\r\n".toList ++ "Server: HttpServerGo/1.0\r\n".toList ++
        "Date: ".toList ++ date ++ "\r\n".toList ++ "\r\n".toList)) := by
    simp only [wireHeader, List.append_assoc]
  rw [h]
  exact toBytes_infix _ _ _

theorem connectionClose_infix_wireHeader (code : Int) (text ctype : Str) (n : Nat)
    (date : Str) :
    toBytes "Connection: close\r\n".toList <:+: toBytes (wireHeader code text ctype n date) := by
  have h : wireHeader code text ctype n date =
      (statusLine code text ++ "Content-Type: ".toList ++ ctype ++ "\r\n".toList ++
       "Content-Length: ".toList ++ formatInt n ++ "\r\n".toList) ++
      ("Connection: close\r\n".toList ++
       ("Server: HttpServerGo/1.0\r\n".toList ++
        "Date: ".toList ++ date ++ "\r\n".toList ++ "\r\n".toList)) := by
    simp only [wireHeader, List.append_assoc]
  rw [h]
  exact toBytes_infix _ _ _

theorem handleRequest_of_stat_fails (env : Env) (s : HttpServer) (request : HttpRequest)
    (hget : request.Method = "GET".toList)
    (hin : HasPrefix (absFullPath env s request.Path) (absDocRoot env s) = true)
    (hstat : env.stat (absFullPath env s request.Path) = none ∨
      env.stat (absFullPath env s request.Path) = some true) :
    handleRequest env s request =
      Event.stat (absFullPath env s request.Path) ::
        sendErrorResponse env 404 "Not Found".toList := by
  unfold handleRequest
  rw [if_neg (not_not.mpr hget), hin]
  rcases hstat with h | h <;> rw [h] <;> rfl

/-- C5. A GET request whose path passes the containment check and whose
resolved file cannot be stat-ed or is a directory is answered `404 Not Found`
after the one call to `os.Stat`: the header block announces
`text/html; charset=utf-8` and the body, the error page, contains the text
`404`. -/
theorem handleRequest_not_found (env : Env) (s : HttpServer) (request : HttpRequest)
    (hget : request.Method = "GET".toList)
    (hin : HasPrefix (absFullPath env s request.Path) (absDocRoot env s) = true)
    (hstat : env.stat (absFullPath env s request.Path) = none ∨
      env.stat (absFullPath env s request.Path) = some true) :
    handleRequest env s request =
      Event.stat (absFullPath env s request.Path) ::
        sendErrorResponse env 404 "Not Found".toList ∧
    answers (handleRequest env s request) 404 "Not Found".toList ∧
    ∃ hdr body, writes (handleRequest env s request) = [hdr, body] ∧
      toBytes "Content-Type: text/html; charset=utf-8\r\n".toList <:+: hdr ∧
      body = toBytes (errorPage 404 "Not Found".toList) ∧
      toBytes "404".toList <:+: body := by
  have h := handleRequest_of_stat_fails env s request hget hin hstat
  refine ⟨h, ?_, ?_⟩
  · rw [h]
    obtain ⟨hdr, rest, hw, hp⟩ := answers_sendErrorResponse env 404 "Not Found".toList
    exact ⟨hdr, rest, hw, hp⟩
  · rw [h, writes_stat, writes_sendErrorResponse]
    have e1 : "Content-Type: text/html; charset=utf-8\r\n".toList =
        "Content-Type: ".toList ++ "text/html; charset=utf-8".toList ++ "\r\n".toList := by
      decide
    have e2 : "404".toList = formatInt 404 := by decide
    rw [e1, e2]
    exact ⟨_, _, rfl, contentType_infix_wireHeader _ _ _ _ _, rfl,
      code_infix_errorPage 404 "Not Found".toList⟩

/-- A missing file and the document root itself (a directory) are answered
404. -/
theorem handleRequest_not_found_witness :
    answers (handleRequest demoEnv demoServer (getRequest "/missing.txt".toList)) 404
      "Not Found".toList ∧
    answers (handleRequest demoEnv demoServer (getRequest "/.".toList)) 404
      "Not Found".toList :=
  ⟨(handleRequest_not_found demoEnv demoServer (getRequest "/missing.txt".toList)
      (by decide) (by decide) (Or.inl (by decide))).2.1,
   (handleRequest_not_found demoEnv demoServer (getRequest "/.".toList)
      (by decide) (by decide) (Or.inr (by decide))).2.1⟩

theorem requestFilePath_root :
    requestFilePath "/".toList = requestFilePath "/index.html".toList := by decide

theorem handleRequest_congr (env : Env) (s : HttpServer) (r r2 : HttpRequest)
    (hm : r.Method = r2.Method) (hp : requestFilePath r.Path = requestFilePath r2.Path) :
    handleRequest env s r = handleRequest env s r2 := by
  have hf : absFullPath env s r.Path = absFullPath env s r2.Path := by
    unfold absFullPath fullPath
    rw [hp]
  unfold handleRequest
  rw [hm, hf]

theorem sendErrorResponse_as_sendResponse (env : Env) (code : Int) (text : Str) :
    sendErrorResponse env code text =
      sendResponse env code text "text/html; charset=utf-8".toList
        (toBytes (errorPage code text)) := by
  unfold sendErrorResponse
  simp only [Sprintf_error]

theorem handleRequest_of_not_get (env : Env) (s : HttpServer) (request : HttpRequest)
    (hm : request.Method ≠ "GET".toList) :
    handleRequest env s request = sendErrorResponse env 405 "Method Not Allowed".toList := by
  unfold handleRequest
  exact if_pos hm

theorem handleRequest_of_outside (env : Env) (s : HttpServer) (request : HttpRequest)
    (hget : request.Method = "GET".toList)
    (hout : HasPrefix (absFullPath env s request.Path) (absDocRoot env s) = false) :
    handleRequest env s request = sendErrorResponse env 403 "Forbidden".toList := by
  unfold handleRequest
  rw [if_neg (not_not.mpr hget), hout]
  rfl

theorem handleRequest_of_read_fails (env : Env) (s : HttpServer) (request : HttpRequest)
    (hget : request.Method = "GET".toList)
    (hin : HasPrefix (absFullPath env s request.Path) (absDocRoot env s) = true)
    (hstat : env.stat (absFullPath env s request.Path) = some false)
    (hread : env.readFile (absFullPath env s request.Path) = none) :
    handleRequest env s request =
      Event.stat (absFullPath env s request.Path) ::
      Event.readFile (absFullPath env s request.Path) ::
        sendErrorResponse env 500 "Internal Server Error".toList := by
  unfold handleRequest
  rw [if_neg (not_not.mpr hget), hin]
  simp only [hstat, hread]
  rfl

theorem handleRequest_of_file (env : Env) (s : HttpServer) (request : HttpRequest)
    (content : Bytes)
    (hget : request.Method = "GET".toList)
    (hin : HasPrefix (absFullPath env s request.Path) (absDocRoot env s) = true)
    (hstat : env.stat (absFullPath env s request.Path) = some false)
    (hread : env.readFile (absFullPath env s request.Path) = some content) :
    handleRequest env s request =
      Event.stat (absFullPath env s request.Path) ::
      Event.readFile (absFullPath env s request.Path) ::
        sendResponse env 200 "OK".toList
          (getContentType env (absFullPath env s request.Path)) content := by
  unfold handleRequest
  rw [if_neg (not_not.mpr hget), hin]
  simp only [hstat, hread]
  rfl

theorem isFs_stat_readFile (p q : Str) :
    ∀ e ∈ [Event.stat p, Event.readFile q], e.isFs = true := by
  intro e he
  simp only [List.mem_cons, List.mem_singleton, List.not_mem_nil, or_false] at he
  rcases he with rfl | rfl <;> rfl

theorem isFs_stat (p : Str) : ∀ e ∈ [Event.stat p], e.isFs = true := by
  intro e he
  rw [List.mem_singleton] at he
  rw [he]; rfl

/-- The trace of `handleRequest` is made of calls to the file system followed
by one call of `sendResponse`, whose operands do not depend on the clock. -/
theorem handleRequest_shape (env : Env) (s : HttpServer) (request : HttpRequest) :
    ∃ fs code text ctype body, (∀ e ∈ fs, e.isFs = true) ∧
      ∀ d, handleRequest { env with now := d } s request =
        fs ++ sendResponse { env with now := d } code text ctype body := by
  by_cases hget : request.Method = "GET".toList
  · by_cases hin : HasPrefix (absFullPath env s request.Path) (absDocRoot env s) = true
    · cases hstat : env.stat (absFullPath env s request.Path) with
      | none =>
        refine ⟨[Event.stat (absFullPath env s request.Path)], 404, "Not Found".toList,
          "text/html; charset=utf-8".toList, toBytes (errorPage 404 "Not Found".toList),
          isFs_stat _, fun d => ?_⟩
        rw [← sendErrorResponse_as_sendResponse]
        exact handleRequest_of_stat_fails { env with now := d } s request hget hin
            (Or.inl hstat)
      | some isDir =>
        cases isDir with
        | true =>
          refine ⟨[Event.stat (absFullPath env s request.Path)], 404, "Not Found".toList,
            "text/html; charset=utf-8".toList, toBytes (errorPage 404 "Not Found".toList),
            isFs_stat _, fun d => ?_⟩
          rw [← sendErrorResponse_as_sendResponse]
          exact handleRequest_of_stat_fails { env with now := d } s request hget hin
              (Or.inr hstat)
        | false =>
          cases hread : env.readFile (absFullPath env s request.Path) with
          | none =>
            refine ⟨[Event.stat (absFullPath env s request.Path),
                Event.readFile (absFullPath env s request.Path)],
              500, "Internal Server Error".toList,
              "text/html; charset=utf-8".toList,
              toBytes (errorPage 500 "Internal Server Error".toList),
              isFs_stat_readFile _ _, fun d => ?_⟩
            rw [← sendErrorResponse_as_sendResponse]
            exact handleRequest_of_read_fails { env with now := d } s request hget hin
              hstat hread
          | some content =>
            refine ⟨[Event.stat (absFullPath env s request.Path),
                Event.readFile (absFullPath env s request.Path)],
              200, "OK".toList, getContentType env (absFullPath env s request.Path),
              content, isFs_stat_readFile _ _, fun d => ?_⟩
            exact handleRequest_of_file { env with now := d } s request content hget hin
              hstat hread
    · have hout : HasPrefix (absFullPath env s request.Path) (absDocRoot env s) = false := by
        simpa using hin
      refine ⟨[], 403, "Forbidden".toList, "text/html; charset=utf-8".toList,
        toBytes (errorPage 403 "Forbidden".toList),
        fun e he => absurd he (List.not_mem_nil e), fun d => ?_⟩
      rw [← sendErrorResponse_as_sendResponse]
      exact handleRequest_of_outside { env with now := d } s request hget hout
  · refine ⟨[], 405, "Method Not Allowed".toList, "text/html; charset=utf-8".toList,
      toBytes (errorPage 405 "Method Not Allowed".toList),
      fun e he => absurd he (List.not_mem_nil e), fun d => ?_⟩
    rw [← sendErrorResponse_as_sendResponse]
    exact handleRequest_of_not_get { env with now := d } s request hget

/-- C6. A GET request for `/` and a GET request for `/index.html` have the
same trace in every world (same calls to the file system, same bytes
written), and at two different times they are the same response (status,
content type, body) written with the timestamp of each. -/
theorem handleRequest_root_eq_index (env : Env) (s : HttpServer) (r r2 : HttpRequest)
    (hm : r.Method = "GET".toList) (hp : r.Path = "/".toList)
    (hm2 : r2.Method = "GET".toList) (hp2 : r2.Path = "/index.html".toList) :
    handleRequest env s r = handleRequest env s r2 ∧
    ∃ fs code text ctype body, ∀ d d2,
      handleRequest { env with now := d } s r =
        fs ++ sendResponse { env with now := d } code text ctype body ∧
      handleRequest { env with now := d2 } s r2 =
        fs ++ sendResponse { env with now := d2 } code text ctype body := by
  have hpath : requestFilePath r.Path = requestFilePath r2.Path := by
    rw [hp, hp2]; exact requestFilePath_root
  have hmeth : r.Method = r2.Method := by rw [hm, hm2]
  refine ⟨handleRequest_congr env s r r2 hmeth hpath, ?_⟩
  obtain ⟨fs, code, text, ctype, body, _, h⟩ := handleRequest_shape env s r
  refine ⟨fs, code, text, ctype, body, fun d d2 => ⟨h d, ?_⟩⟩
  rw [← handleRequest_congr { env with now := d2 } s r r2 hmeth hpath]
  exact h d2

/-- In the example world both requests are answered with the content of
`index.html`. -/
theorem handleRequest_root_eq_index_witness :
    handleRequest demoEnv demoServer (getRequest "/".toList) =
      handleRequest demoEnv demoServer (getRequest "/index.html".toList) ∧
    answers (handleRequest demoEnv demoServer (getRequest "/".toList)) 200 "OK".toList :=
  ⟨(handleRequest_root_eq_index demoEnv demoServer (getRequest "/".toList)
      (getRequest "/index.html".toList) (by decide) (by decide) (by decide) (by decide)).1,
   by
     rw [handleRequest_of_file demoEnv demoServer (getRequest "/".toList)
       (toBytes "<h1>hi</h1>".toList) (by decide) (by decide) (by decide) (by decide)]
     obtain ⟨hdr, rest, hw, hpre⟩ := answers_sendResponse demoEnv 200 "OK".toList
       (getContentType demoEnv (absFullPath demoEnv demoServer (getRequest "/".toList).Path))
       (toBytes "<h1>hi</h1>".toList)
     exact ⟨hdr, rest, hw, hpre⟩⟩

theorem indexAux_ge (sep s : Str) (i : Nat) :
    indexAux sep s i = -1 ∨ (i : Int) ≤ indexAux sep s i := by
  induction s generalizing i with
  | nil =>
    unfold indexAux
    split
    · exact Or.inr (le_refl _)
    · exact Or.inl rfl
  | cons c cs ih =>
    unfold indexAux
    split
    · exact Or.inr (le_refl _)
    · rcases ih (i + 1) with h | h
      · exact Or.inl h
      · right
        have : ((i + 1 : Nat) : Int) = (i : Int) + 1 := by push_cast; rfl
        omega

theorem indexAux_take (q : Char) (s : Str) (i j : Nat) (h : indexAux [q] s i ≠ -1) :
    indexAux [q] (s.take (indexAux [q] s i - i).toNat) j = -1 := by
  induction s generalizing i j with
  | nil => exact absurd (by simp [indexAux]) h
  | cons c cs ih =>
    by_cases hc : [q].isPrefixOf (c :: cs) = true
    · have : indexAux [q] (c :: cs) i = i := by
        rw [indexAux, if_pos hc]
      rw [this]
      simp [indexAux]
    · have e : indexAux [q] (c :: cs) i = indexAux [q] cs (i + 1) := by
        rw [indexAux, if_neg hc]
      rw [e] at h ⊢
      have hge := indexAux_ge [q] cs (i + 1)
      rcases hge with h1 | h1
      · exact absurd h1 h
      · have e2 : (indexAux [q] cs (i + 1) - (i : Int)).toNat =
            (indexAux [q] cs (i + 1) - ((i + 1 : Nat) : Int)).toNat + 1 := by
          push_cast at h1 ⊢
          omega
        rw [e2, List.take_succ_cons, indexAux]
        have hc2 : ¬ [q].isPrefixOf
            (c :: List.take (indexAux [q] cs (i + 1) - ((i + 1 : Nat) : Int)).toNat cs) = true := by
          simpa [List.isPrefixOf] using hc
        rw [if_neg hc2]
        exact ih (i + 1) (j + 1) h

/-- Apart from the targets whose query-free part is `/`, a target with a query
resolves like the target without it. -/
theorem requestFilePath_strip_query (t : Str) (h : Index t "?".toList ≠ -1)
    (hroot : t.take (Index t "?".toList).toNat ≠ "/".toList) :
    requestFilePath t = requestFilePath (t.take (Index t "?".toList).toNat) := by
  have ht : t ≠ "/".toList := by
    intro e
    rw [e] at h
    exact h (by decide)
  have h2 : Index (t.take (Index t "?".toList).toNat) "?".toList = -1 := by
    have := indexAux_take '?' t 0 0 h
    simpa [Index] using this
  have l : requestFilePath t = t.take (Index t "?".toList).toNat := by
    unfold requestFilePath
    simp only [if_neg ht, if_pos h]
  have r : requestFilePath (t.take (Index t "?".toList).toNat) =
      t.take (Index t "?".toList).toNat := by
    unfold requestFilePath
    simp only [if_neg hroot, h2, ne_eq, not_true_eq_false, if_false]
  rw [l, r]


/-- Apart from the targets whose query-free part is `/`, a GET request for a
target with a query has the trace of the GET request for the target without
it. -/
theorem handleRequest_strip_query (env : Env) (s : HttpServer) (r r2 : HttpRequest)
    (hm : r.Method = r2.Method) (h : Index r.Path "?".toList ≠ -1)
    (hroot : r.Path.take (Index r.Path "?".toList).toNat ≠ "/".toList)
    (hp : r2.Path = r.Path.take (Index r.Path "?".toList).toNat) :
    handleRequest env s r = handleRequest env s r2 := by
  apply handleRequest_congr env s r r2 hm
  rw [hp]
  exact requestFilePath_strip_query r.Path h hroot


/-- C7 (the code at the failing input). The target `/?a=1` is not `/`, so it is
not mapped to `/index.html`; the query is cut afterwards and leaves `/`, which
resolves to the document root itself: in the example world the directory
`/srv/Pub` is stat-ed and the answer is `404 Not Found`, while the target `/`
is answered `200 OK` with the content of `index.html`. -/
theorem query_on_root_is_not_index :
    requestFilePath "/?a=1".toList = "/".toList ∧
    requestFilePath "/".toList = "/index.html".toList ∧
    handleClient demoEnv demoServer ["GET /?a=1 HTTP/1.1".toList, []] =
      Event.stat "/srv/Pub".toList :: sendErrorResponse demoEnv 404 "Not Found".toList ∧
    handleClient demoEnv demoServer ["GET / HTTP/1.1".toList, []] =
      Event.stat "/srv/Pub/index.html".toList ::
      Event.readFile "/srv/Pub/index.html".toList ::
      sendResponse demoEnv 200 "OK".toList "text/html; charset=utf-8".toList
        (toBytes "<h1>hi</h1>".toList) := by
  decide

theorem demo_index_writes :
    writes (handleClient demoEnv demoServer ["GET / HTTP/1.1".toList, []]) =
      [toBytes ("HTTP/1.1 200 OK\r\nContent-Type: text/html; charset=utf-8\r\n" ++
        "Content-Length: 11\r\nConnection: close\r\nServer: HttpServerGo/1.0\r\n" ++
        "Date: Sun, 01 Nov 2026 00:00:00 UTC\r\n\r\n").toList,
       toBytes "<h1>hi</h1>".toList] := by decide

/-- C8 (as stated, refuted). In the example world, whose document root holds
`index.html` with the 11 bytes of `<h1>hi</h1>`, the input `GET / HTTP/1.1`
followed by an empty line is answered with two writes, a header block and the
body; the header block has the line `Content-Length: 11`, and it is not a
header block with a line `Content-Length: 12`. -/
theorem index_content_length_is_not_12 :
    (toBytes "<h1>hi</h1>".toList).length = 11 ∧
    writes (handleClient demoEnv demoServer ["GET / HTTP/1.1".toList, []]) =
      [toBytes ("HTTP/1.1 200 OK\r\nContent-Type: text/html; charset=utf-8\r\n" ++
        "Content-Length: 11\r\nConnection: close\r\nServer: HttpServerGo/1.0\r\n" ++
        "Date: Sun, 01 Nov 2026 00:00:00 UTC\r\n\r\n").toList,
       toBytes "<h1>hi</h1>".toList] ∧
    ¬ ∃ hdr, writes (handleClient demoEnv demoServer ["GET / HTTP/1.1".toList, []]) =
        [hdr, toBytes "<h1>hi</h1>".toList] ∧
      toBytes "Content-Length: 12\r\n".toList <:+: hdr := by
  refine ⟨by decide, demo_index_writes, ?_⟩
  rintro ⟨hdr, hw, hinf⟩
  rw [demo_index_writes] at hw
  have hh := (List.cons.inj hw).1
  rw [← hh] at hinf
  revert hinf
  decide

theorem parseRequest_get_root (env : Env) (rest : List Str) :
    parseRequest env ("GET / HTTP/1.1".toList :: rest) =
      (some { Method := "GET".toList, Path := "/".toList, Version := "HTTP/1.1".toList,
              Headers := readHeaders env rest Headers.empty }, none) := by
  have h : Fields "GET / HTTP/1.1".toList = ["GET".toList, "/".toList, "HTTP/1.1".toList] := by
    decide
  simp only [parseRequest, h]

theorem handleClient_get_root (env : Env) (s : HttpServer) (rest : List Str) :
    handleClient env s ("GET / HTTP/1.1".toList :: rest) =
      handleRequest env s ⟨"GET".toList, "/".toList, "HTTP/1.1".toList,
        readHeaders env rest Headers.empty⟩ := by
  unfold handleClient
  rw [parseRequest_get_root]

theorem hi_bytes_length : (toBytes "<h1>hi</h1>".toList).length = 11 := by decide

theorem hi_bytes_ne_nil : toBytes "<h1>hi</h1>".toList ≠ [] := by decide

theorem statusLine_200 : "HTTP/1.1 200 OK\r\n".toList = statusLine 200 "OK".toList := by
  decide

theorem contentLength_11 :
    "Content-Length: 11\r\n".toList =
      "Content-Length: ".toList ++ formatInt (11 : Nat) ++ "\r\n".toList := by decide

/-- C8 (amended). End to end: when the path resolved for `/` passes the
containment check and is a regular file whose content is the bytes of
`<h1>hi</h1>`, the input `GET / HTTP/1.1` followed by an empty line is
answered with a header block that starts with `HTTP/1.1 200 OK` and has the
line `Content-Length: 11`, followed by exactly that body. -/
theorem handleClient_serves_index (env : Env) (s : HttpServer) (rest : List Str)
    (hin : HasPrefix (absFullPath env s "/".toList) (absDocRoot env s) = true)
    (hstat : env.stat (absFullPath env s "/".toList) = some false)
    (hread : env.readFile (absFullPath env s "/".toList) =
      some (toBytes "<h1>hi</h1>".toList)) :
    ∃ hdr, writes (handleClient env s ("GET / HTTP/1.1".toList :: [] :: rest)) =
        [hdr, toBytes "<h1>hi</h1>".toList] ∧
      toBytes "HTTP/1.1 200 OK\r\n".toList <+: hdr ∧
      toBytes "Content-Length: 11\r\n".toList <:+: hdr := by
  have hf := handleRequest_of_file env s ⟨"GET".toList, "/".toList, "HTTP/1.1".toList,
    readHeaders env ([] :: rest) Headers.empty⟩ (toBytes "<h1>hi</h1>".toList) rfl hin hstat
    hread
  rw [handleClient_get_root, hf, writes_stat, writes_readFile, writes_sendResponse,
    if_neg hi_bytes_ne_nil, hi_bytes_length]
  refine ⟨_, rfl, ?_, ?_⟩
  · rw [statusLine_200]
    exact statusLine_prefix_wireHeader _ _ _ _ _
  · rw [contentLength_11]
    exact contentLength_infix_wireHeader _ _ _ _ _

/-- In the example world the document root `./Pub` holds `index.html` with the
content `<h1>hi</h1>`. -/
theorem handleClient_serves_index_witness :
    ∃ hdr, writes (handleClient demoEnv demoServer ["GET / HTTP/1.1".toList, []]) =
        [hdr, toBytes "<h1>hi</h1>".toList] ∧
      toBytes "HTTP/1.1 200 OK\r\n".toList <+: hdr ∧
      toBytes "Content-Length: 11\r\n".toList <:+: hdr :=
  handleClient_serves_index demoEnv demoServer [] (by decide) (by decide) (by decide)

/-- C9. The trace of `sendResponse` is the write of the header block of the
wire format, with the decimal length of the body as `Content-Length` and the
timestamp of the clock as `Date`, followed by the write of the body, which is
left out exactly when the body is empty; the bytes written are the header
block followed by the body. -/
theorem sendResponse_wire_format (env : Env) (code : Int) (text ctype : Str) (body : Bytes) :
    sendResponse env code text ctype body =
      Event.write (toBytes (wireHeader code text ctype body.length env.now)) ::
        (if body = [] then [] else [Event.write body]) ∧
    (writes (sendResponse env code text ctype body)).flatten =
      toBytes (wireHeader code text ctype body.length env.now) ++ body ∧
    ((writes (sendResponse env code text ctype body)).length = 1 ↔ body = []) := by
  refine ⟨sendResponse_eq env code text ctype body, ?_, ?_⟩
  · rw [writes_sendResponse]
    by_cases h : body = [] <;> simp [h]
  · rw [writes_sendResponse]
    by_cases h : body = [] <;> simp [h]

theorem writes_append_of_isFs (fs es : List Event) (h : ∀ e ∈ fs, e.isFs = true) :
    writes (fs ++ es) = writes es := by
  induction fs with
  | nil => rfl
  | cons e fs ih =>
    have he : e.isFs = true := h e (List.mem_cons_self _ _)
    have hfs : ∀ x ∈ fs, x.isFs = true := fun x hx => h x (List.mem_cons_of_mem _ hx)
    cases e with
    | write d => cases he
    | stat p => exact ih hfs
    | readFile p => exact ih hfs

/-- C10. Whatever lines the connection delivers and whatever the world, the
trace of `handleClient` is a list of calls to the file system followed by
exactly one call of `sendResponse`: the writes to the connection are one
header block, followed by the body when it is not empty, and the header block
has the line `Connection: close`. -/
theorem handleClient_one_response (env : Env) (s : HttpServer) (conn : List Str) :
    ∃ fs code text ctype body,
      handleClient env s conn = fs ++ sendResponse env code text ctype body ∧
      (∀ e ∈ fs, e.isFs = true) ∧
      writes (handleClient env s conn) =
        toBytes (wireHeader code text ctype body.length env.now) ::
          (if body = [] then [] else [body]) ∧
      toBytes "Connection: close\r\n".toList <:+:
        toBytes (wireHeader code text ctype body.length env.now) := by
  have key : ∃ fs code text ctype body,
      handleClient env s conn = fs ++ sendResponse env code text ctype body ∧
      (∀ e ∈ fs, e.isFs = true) := by
    have h400 : ∃ fs code text ctype body,
        sendErrorResponse env 400 "Bad Request".toList =
          fs ++ sendResponse env code text ctype body ∧ (∀ e ∈ fs, e.isFs = true) :=
      ⟨[], 400, "Bad Request".toList, "text/html; charset=utf-8".toList,
        toBytes (errorPage 400 "Bad Request".toList),
        sendErrorResponse_as_sendResponse env _ _, fun e he => absurd he (List.not_mem_nil e)⟩
    unfold handleClient
    split
    · exact h400
    · exact h400
    · rename_i request _
      obtain ⟨fs, code, text, ctype, body, hfs, h⟩ := handleRequest_shape env s request
      exact ⟨fs, code, text, ctype, body, h env.now, hfs⟩
  obtain ⟨fs, code, text, ctype, body, h, hfs⟩ := key
  refine ⟨fs, code, text, ctype, body, h, hfs, ?_, connectionClose_infix_wireHeader _ _ _ _ _⟩
  rw [h, writes_append_of_isFs fs _ hfs, writes_sendResponse]

/-! ## The header lines -/

theorem indexAux_split (q : Char) (a b : Str) (i : Nat) (h : q ∉ a) :
    indexAux [q] (a ++ q :: b) i = ((i + a.length : Nat) : Int) := by
  induction a generalizing i with
  | nil =>
    have hp : [q].isPrefixOf (q :: b) = true := by simp [List.isPrefixOf]
    show indexAux [q] (q :: b) i = _
    rw [indexAux, if_pos hp]
    simp
  | cons c cs ih =>
    have hc : q ≠ c := fun e => h (e ▸ List.mem_cons_self _ _)
    have hcs : q ∉ cs := fun m => h (List.mem_cons_of_mem _ m)
    have hp : ¬ [q].isPrefixOf (c :: (cs ++ q :: b)) = true := by simp [List.isPrefixOf, hc]
    show indexAux [q] (c :: (cs ++ q :: b)) i = _
    rw [indexAux, if_neg hp, ih (i + 1) hcs]
    simp only [List.length_cons]
    congr 1
    omega

/-- The index of the first colon of a line `a:b`, where `a` has no colon, is
the length of `a`. -/
theorem Index_colon_split (a b : Str) (h : ':' ∉ a) :
    Index (a ++ ':' :: b) ":".toList = (a.length : Int) := by
  have := indexAux_split ':' a b 0 h
  simpa [Index] using this

theorem readHeaders_cons (env : Env) (line : Str) (rest : List Str) (h : Headers)
    (hne : line ≠ []) :
    readHeaders env (line :: rest) h = readHeaders env rest (storeHeader env h line) := by
  rw [readHeaders, if_neg hne]
  unfold storeHeader headerEntry
  by_cases hc : Index line ":".toList > 0
  · simp only [hc, if_true]
  · simp only [hc, if_false]

theorem readHeaders_nil_line (env : Env) (rest : List Str) (h : Headers) :
    readHeaders env ([] :: rest) h = h := by
  rw [readHeaders, if_pos rfl]

theorem readHeaders_append (env : Env) (pre rest : List Str) (h : Headers)
    (hpre : ∀ l ∈ pre, l ≠ []) :
    readHeaders env (pre ++ rest) h = readHeaders env rest (pre.foldl (storeHeader env) h) := by
  induction pre generalizing h with
  | nil => rfl
  | cons l pre ih =>
    have hl : l ≠ [] := hpre l (List.mem_cons_self _ _)
    have hp : ∀ x ∈ pre, x ≠ [] := fun x hx => hpre x (List.mem_cons_of_mem _ hx)
    show readHeaders env (l :: (pre ++ rest)) h = _
    rw [readHeaders_cons env l _ h hl, ih _ hp]
    rfl

theorem headerEntry_split (env : Env) (a b : Str) (h : ':' ∉ a) (hne : a ≠ []) :
    headerEntry env (a ++ ':' :: b) =
      some (ToLower env.caseTable (TrimSpace a), TrimSpace b) := by
  have hi := Index_colon_split a b h
  have hpos : Index (a ++ ':' :: b) ":".toList > 0 := by
    rw [hi]
    have : 0 < a.length := List.length_pos.mpr hne
    omega
  unfold headerEntry
  rw [if_pos hpos, hi]
  have e1 : ((a.length : Int)).toNat = a.length := by simp
  have e2 : ((a.length : Int) + 1).toNat = a.length + 1 := by omega
  rw [e1, e2]
  simp

theorem headerEntry_colon_first (env : Env) (b : Str) :
    headerEntry env (':' :: b) = none := by
  have hi := Index_colon_split [] b (List.not_mem_nil _)
  unfold headerEntry
  have : ¬ Index (':' :: b) ":".toList > 0 := by
    have e : ([] : Str) ++ ':' :: b = ':' :: b := rfl
    rw [e] at hi
    rw [hi]
    simp
  rw [if_neg this]

/-- On the lines that the reader returns: a line `a:b` whose first colon is
not at the very start (`a` is not empty and has no colon), read after lines
`pre` none of which is empty, stores the entry whose key is `a` trimmed and lower-cased and
whose value is `b` trimmed (later colons stay in `b`): the map of the parsed
request is the map read from the following lines on top of that entry. -/
theorem parseRequest_header_line (env : Env) (requestLine m p v : Str) (pre post : List Str)
    (a b : Str) (hreq : Fields requestLine = [m, p, v]) (hpre : ∀ l ∈ pre, l ≠ [])
    (ha : ':' ∉ a) (hne : a ≠ []) :
    parseRequest env (requestLine :: (pre ++ (a ++ ':' :: b) :: post)) =
      (some { Method := m, Path := p, Version := v,
              Headers := readHeaders env post
                ((readHeaders env pre Headers.empty).set
                  (ToLower env.caseTable (TrimSpace a)) (TrimSpace b)) }, none) := by
  have hline : a ++ ':' :: b ≠ [] := by simp
  have h1 : readHeaders env (pre ++ (a ++ ':' :: b) :: post) Headers.empty =
      readHeaders env post
        ((readHeaders env pre Headers.empty).set
          (ToLower env.caseTable (TrimSpace a)) (TrimSpace b)) := by
    rw [readHeaders_append env pre _ _ hpre, readHeaders_cons env _ _ _ hline]
    have hp := readHeaders_append env pre [] Headers.empty hpre
    rw [List.append_nil] at hp
    rw [hp]
    unfold storeHeader
    rw [headerEntry_split env a b ha hne]
    rfl
  simp only [parseRequest, hreq, h1]

theorem contentType_html_line :
    "Content-Type: ".toList ++ "text/html; charset=utf-8".toList ++ "\r\n".toList =
      "Content-Type: text/html; charset=utf-8\r\n".toList := by decide

theorem statusLine_contentType_isPrefix (code : Int) (text ctype : Str) (n : Nat) (date : Str) :
    toBytes (statusLine code text ++ ("Content-Type: ".toList ++ ctype ++ "\r\n".toList)) <+:
      toBytes (wireHeader code text ctype n date) := by
  have h : wireHeader code text ctype n date =
      (statusLine code text ++ ("Content-Type: ".toList ++ ctype ++ "\r\n".toList)) ++
      ("Content-Length: ".toList ++ formatInt n ++ "\r\n".toList ++
       "Connection: close\r\n".toList ++ "Server: HttpServerGo/1.0\r\n".toList ++
        "Date: ".toList ++ date ++ "\r\n".toList ++ "\r\n".toList) := by
    simp only [wireHeader, List.append_assoc]
  rw [h]
  exact ⟨_, (toBytes_append _ _).symm⟩

/-- C14. For every status code and status text, `sendErrorResponse` writes a
header block and a body: the header block starts with the status line of that
code and text, followed by the line `Content-Type: text/html; charset=utf-8`,
and the body is the error page, which contains the decimal status code and
the status text. -/
theorem sendErrorResponse_format (env : Env) (code : Int) (text : Str) :
    ∃ hdr body, sendErrorResponse env code text = [Event.write hdr, Event.write body] ∧
      toBytes (statusLine code text ++
        "Content-Type: text/html; charset=utf-8\r\n".toList) <+: hdr ∧
      body = toBytes (errorPage code text) ∧
      toBytes (formatInt code) <:+: body ∧
      toBytes text <:+: body := by
  refine ⟨_, _, sendErrorResponse_eq env code text, ?_, rfl, code_infix_errorPage code text,
    text_infix_errorPage code text⟩
  rw [← contentType_html_line]
  exact statusLine_contentType_isPrefix _ _ _ _ _

theorem ToLower_json (ct : Char → Char) : ToLower ct ".json".toList = ".json".toList := by
  rfl

theorem getContentType_of_lower_json (env : Env) (filePath : Str)
    (hext : ToLower env.caseTable (Ext filePath) = ".json".toList)
    (htab : env.typeByExtension ".json".toList = [] ∨
      env.typeByExtension ".json".toList = "application/json".toList) :
    getContentType env filePath = "application/json".toList := by
  unfold getContentType
  simp only [hext]
  rcases htab with h | h
  · rw [h]
    decide
  · rw [h]
    decide

/-- C13. A file path whose extension is `.json`, also in upper case, gets the
content type `application/json`, the table of package `mime` having for
`.json` that type or no type; a file path whose lower-cased extension is
neither in the table of package `mime` nor in the `switch` gets
`application/octet-stream`. -/
theorem getContentType_json_and_unknown (env : Env) (filePath : Str) :
    ((Ext filePath = ".json".toList ∨
        ToLower env.caseTable (Ext filePath) = ".json".toList) →
      (env.typeByExtension ".json".toList = [] ∨
        env.typeByExtension ".json".toList = "application/json".toList) →
      getContentType env filePath = "application/json".toList) ∧
    (env.typeByExtension (ToLower env.caseTable (Ext filePath)) = [] →
      ToLower env.caseTable (Ext filePath) ∉ switchExtensions →
      getContentType env filePath = "application/octet-stream".toList) := by
  constructor
  · intro hext htab
    apply getContentType_of_lower_json env filePath _ htab
    rcases hext with h | h
    · rw [h]
      exact ToLower_json _
    · exact h
  · intro htab hsw
    unfold getContentType
    simp only [htab]
    simp only [switchExtensions, List.mem_cons, List.mem_singleton, List.not_mem_nil,
      not_or, or_false] at hsw
    obtain ⟨h1, h2, h3, h4, h5, h6, h7, h8, h9, h10, h11, h12, h13, h14, h15⟩ := hsw
    simp only [ne_eq, not_true_eq_false, if_false, h1, h2, h3, h4, h5, h6, h7, h8, h9, h10,
      h11, h12, h13, h14, h15, or_self]

/-- In the example world, whose table of package `mime` knows `.html` only:
`data.json` and `DATA.JSON` are `application/json`, `blob.xyz` and a file
without extension are `application/octet-stream`. -/
theorem getContentType_json_and_unknown_witness :
    getContentType demoEnv "/srv/Pub/data.json".toList = "application/json".toList ∧
    getContentType demoEnv "/srv/Pub/DATA.JSON".toList = "application/json".toList ∧
    getContentType demoEnv "/srv/Pub/blob.xyz".toList = "application/octet-stream".toList ∧
    getContentType demoEnv "/srv/Pub.d/blob".toList = "application/octet-stream".toList :=
  ⟨(getContentType_json_and_unknown demoEnv "/srv/Pub/data.json".toList).1
      (Or.inl (by decide)) (Or.inl (by decide)),
   (getContentType_json_and_unknown demoEnv "/srv/Pub/DATA.JSON".toList).1
      (Or.inr (by decide)) (Or.inl (by decide)),
   (getContentType_json_and_unknown demoEnv "/srv/Pub/blob.xyz".toList).2
      (by decide) (by decide),
   (getContentType_json_and_unknown demoEnv "/srv/Pub.d/blob".toList).2
      (by decide) (by decide)⟩

/-! ## The invariant of the header map -/

theorem head?_dropWhile_not (p : Char → Bool) (l : Str) (c : Char)
    (h : (l.dropWhile p).head? = some c) : p c = false := by
  induction l with
  | nil => simp at h
  | cons a l ih =>
    rw [List.dropWhile_cons] at h
    by_cases ha : p a = true
    · rw [if_pos ha] at h
      exact ih h
    · rw [if_neg ha] at h
      simp only [List.head?_cons, Option.some.injEq] at h
      rw [← h]
      simpa using ha

theorem dropWhile_eq_self (p : Char → Bool) (l : Str)
    (h : ∀ c, l.head? = some c → p c = false) : l.dropWhile p = l := by
  cases l with
  | nil => rfl
  | cons a l =>
    have ha : p a = false := h a rfl
    rw [List.dropWhile_cons, ha]
    rfl

theorem TrimSpace_of_Trimmed (s : Str) (h : Trimmed s) : TrimSpace s = s := by
  unfold TrimSpace
  rw [dropWhile_eq_self isSpace s h.1, dropWhile_eq_self isSpace s.reverse, List.reverse_reverse]
  intro c hc
  rw [List.head?_reverse] at hc
  exact h.2 c hc

/-- The lines after a header line change the value of a name only when one of
them, before the first empty line, stores that name. -/
theorem readHeaders_frame (env : Env) (post : List Str) (h : Headers) (k : Str)
    (hpost : ∀ l ∈ post.takeWhile (fun l => decide (l ≠ [])),
      (headerEntry env l).map Prod.fst ≠ some k) :
    readHeaders env post h k = h k := by
  induction post generalizing h with
  | nil => rfl
  | cons l post ih =>
    by_cases hl : l = []
    · subst hl
      rw [readHeaders_nil_line]
    · have htw : (l :: post).takeWhile (fun l => decide (l ≠ [])) =
          l :: post.takeWhile (fun l => decide (l ≠ [])) := by
        rw [List.takeWhile_cons]
        simp [hl]
      rw [htw] at hpost
      rw [readHeaders_cons env l post h hl,
        ih _ (fun x hx => hpost x (List.mem_cons_of_mem _ hx))]
      unfold storeHeader
      cases he : headerEntry env l with
      | none => rfl
      | some kv =>
        obtain ⟨k0, v0⟩ := kv
        have hne : k ≠ k0 := by
          intro e
          exact hpost l (List.mem_cons_self _ _) (by rw [he, e]; rfl)
        simp only [Headers.set, if_neg hne]

theorem Atoi_examples :
    Atoi "8080".toList = some 8080 ∧ Atoi "+5".toList = some 5 ∧ Atoi "-5".toList = some (-5) ∧
    Atoi "007".toList = some 7 ∧ Atoi "0".toList = some 0 ∧ Atoi "".toList = none ∧
    Atoi "-".toList = none ∧ Atoi "80a".toList = none ∧ Atoi " 80".toList = none ∧
    Atoi "8_0".toList = none ∧
    Atoi "9223372036854775807".toList = some 9223372036854775807 ∧
    Atoi "9223372036854775808".toList = none ∧
    Atoi "-9223372036854775808".toList = some (-9223372036854775808) := by decide

/-- C17 (as stated, refuted). The flag `running` is false in a new server and
the setup step of `Start` with a bound listener makes it true, a change from
false to true; after `Stop` a second `Start` makes it true again. -/
theorem running_false_to_true :
    (NewHttpServer 8080 "./Pub".toList).running = false ∧
    (runOps [LifecycleOp.start true] (NewHttpServer 8080 "./Pub".toList)).running = true ∧
    (runOps [LifecycleOp.start true, LifecycleOp.stop]
      (NewHttpServer 8080 "./Pub".toList)).running = false ∧
    (runOps [LifecycleOp.start true, LifecycleOp.stop, LifecycleOp.start true]
      (NewHttpServer 8080 "./Pub".toList)).running = true := by
  decide

/-- C17 (amended). The flag `running` is false in a new server; the setup
step of `Start` makes it true when the listener is bound and leaves it as it
is when binding fails; `Stop` makes it false, also at the end of any sequence
of operations, and a second `Stop` changes nothing; the one operation that
turns the flag from false to true is a `Start` with a bound listener. -/
theorem lifecycle_running :
    (∀ port root, (NewHttpServer port root).running = false) ∧
    (∀ s bound, (Start bound s).1.running = (bound || s.running)) ∧
    (∀ s, (Stop s).running = false) ∧
    (∀ s, Stop (Stop s) = Stop s) ∧
    (∀ ops s, (runOps (ops ++ [LifecycleOp.stop]) s).running = false) ∧
    (∀ op s, s.running = false → (applyOp s op).running = true →
      op = LifecycleOp.start true) := by
  refine ⟨fun _ _ => rfl, ?_, fun _ => rfl, ?_, ?_, ?_⟩
  · intro s bound
    cases bound <;> simp [Start]
  · intro s
    cases s with
    | mk port root listener running =>
      cases listener <;> simp [Stop]
  · intro ops s
    simp [runOps, List.foldl_append, applyOp, Stop]
  · intro op s hs h
    cases op with
    | stop => simp [applyOp, Stop] at h
    | start bound =>
      cases bound with
      | true => rfl
      | false =>
        simp [applyOp, Start] at h
        rw [hs] at h
        exact absurd h (by decide)

theorem Atoi_range (a : Str) (v : Int) (h : Atoi a = some v) :
    -(2 ^ 63 : Int) ≤ v ∧ v ≤ 2 ^ 63 - 1 := by
  unfold Atoi at h
  simp only at h
  generalize (if a.head? = some '-' ∨ a.head? = some '+' then a.tail else a) = digits at h
  generalize (decide (a.head? = some '-')) = neg at h
  by_cases hd : digits = []
  · rw [if_pos hd] at h
    exact absurd h (by simp)
  · rw [if_neg hd] at h
    cases hp : parseDigits digits 0 with
    | none =>
      rw [hp] at h
      exact absurd h (by simp)
    | some n =>
      rw [hp] at h
      change (if -(2 ^ 63 : Int) ≤ (if neg = true then -(n : Int) else (n : Int)) ∧
        (if neg = true then -(n : Int) else (n : Int)) ≤ 2 ^ 63 - 1
        then some (if neg = true then -(n : Int) else (n : Int)) else none) = some v at h
      generalize (if neg = true then -(n : Int) else (n : Int)) = w at h
      by_cases hr : -(2 ^ 63 : Int) ≤ w ∧ w ≤ 2 ^ 63 - 1
      · rw [if_pos hr] at h
        injection h with h
        rw [← h]
        exact hr
      · rw [if_neg hr] at h
        exact absurd h (by simp)

theorem Start_bound (s : HttpServer) :
    Start true s = ({ s with listener := some { closed := false }, running := true }, false) :=
  rfl

theorem Start_not_bound (s : HttpServer) : Start false s = ({ s with listener := none }, true) :=
  rfl

theorem main_bad_port (isNotExist : Str → Bool) (listen : Int → Bool) (a : Str)
    (rest : List Str) (h : Atoi a = none) :
    main isNotExist listen (a :: rest) = MainResult.exit 1 := by
  simp only [main, h]

/-- The function `main` when the port is read: it exits when `os.Stat` reports
the document root missing and when `net.Listen` fails, else it serves. -/
theorem main_of_port (isNotExist : Str → Bool) (listen : Int → Bool) (args : List Str)
    (port : Int)
    (hport : args = [] ∧ port = 8080 ∨ ∃ a rest, args = a :: rest ∧ Atoi a = some port) :
    main isNotExist listen args =
      if isNotExist (args.getD 1 "./Pub".toList) = true then MainResult.exit 1
      else if listen port = true then
        MainResult.serve { port := port, documentRoot := args.getD 1 "./Pub".toList,
                           listener := some { closed := false }, running := true }
      else MainResult.exit 1 := by
  have key : ∀ root : Str,
      (if isNotExist root = true then MainResult.exit 1
       else if (Start (listen port) (NewHttpServer port root)).2 = true then MainResult.exit 1
       else MainResult.serve (Start (listen port) (NewHttpServer port root)).1) =
      if isNotExist root = true then MainResult.exit 1
      else if listen port = true then
        MainResult.serve { port := port, documentRoot := root,
                           listener := some { closed := false }, running := true }
      else MainResult.exit 1 := by
    intro root
    cases hl : listen port with
    | true => rfl
    | false => rfl
  rcases hport with ⟨h1, h2⟩ | ⟨a, rest, h1, h2⟩
  · subst h1 h2
    exact key "./Pub".toList
  · subst h1
    cases rest with
    | nil =>
      simp only [main, h2]
      exact key "./Pub".toList
    | cons r rest2 =>
      simp only [main, h2]
      exact key r

theorem main_port_cases (args : List Str) :
    (∃ a rest, args = a :: rest ∧ Atoi a = none) ∨
    ∃ port, args = [] ∧ port = 8080 ∨ ∃ a rest, args = a :: rest ∧ Atoi a = some port := by
  cases args with
  | nil => exact Or.inr ⟨8080, Or.inl ⟨rfl, rfl⟩⟩
  | cons a rest =>
    cases ha : Atoi a with
    | none => exact Or.inl ⟨a, rest, rfl, ha⟩
    | some port => exact Or.inr ⟨port, Or.inr ⟨a, rest, rfl, ha⟩⟩

/-- The document root of a server that `main` has started is not the empty
string, for which `os.Stat` reports that the file does not exist. -/
theorem main_documentRoot_ne_nil (isNotExist : Str → Bool) (listen : Int → Bool)
    (args : List Str) (server : HttpServer) (hempty : isNotExist [] = true)
    (h : main isNotExist listen args = MainResult.serve server) :
    server.documentRoot ≠ [] := by
  rcases main_port_cases args with ⟨a, rest, h1, h2⟩ | ⟨port, hport⟩
  · subst h1
    rw [main_bad_port isNotExist listen a rest h2] at h
    exact absurd h (by simp)
  · rw [main_of_port isNotExist listen args port hport] at h
    by_cases hroot : isNotExist (args.getD 1 "./Pub".toList) = true
    · rw [if_pos hroot] at h
      exact absurd h (by simp)
    · rw [if_neg hroot] at h
      by_cases hl : listen port = true
      · rw [if_pos hl] at h
        have hs := MainResult.serve.inj h
        rw [← hs]
        intro e
        exact hroot (by rw [show args.getD 1 "./Pub".toList = [] from e]; exact hempty)
      · rw [if_neg hl] at h
        exact absurd h (by simp)

/-! ## The containment check -/

/-- C19. The containment check is a test on strings: with the document root
`/srv/pub`, the path `/../public/x` resolves to `/srv/public/x`, which is not
inside the directory `/srv/pub` but has `/srv/pub` as a string prefix;
`handleRequest` does not answer 403, it calls `os.Stat` and `os.ReadFile` on
that file and sends its content with `200 OK`. -/
theorem prefix_check_sibling_escape :
    absDocRoot siblingEnv siblingServer = "/srv/pub".toList ∧
    absFullPath siblingEnv siblingServer "/../public/x".toList = "/srv/public/x".toList ∧
    insideDir "/srv/pub".toList "/srv/public/x".toList = false ∧
    HasPrefix "/srv/public/x".toList "/srv/pub".toList = true ∧
    handleRequest siblingEnv siblingServer (getRequest "/../public/x".toList) =
      Event.stat "/srv/public/x".toList :: Event.readFile "/srv/public/x".toList ::
        sendResponse siblingEnv 200 "OK".toList "application/octet-stream".toList
          (toBytes "secret".toList) ∧
    handleRequest siblingEnv siblingServer (getRequest "/../public/x".toList) ≠
      sendErrorResponse siblingEnv 403 "Forbidden".toList := by
  decide

/-! ## The loop of `filepath.Clean`, element by element -/

theorem splitSlash_ne_nil (p : Str) : splitSlash p ≠ [] := by
  induction p with
  | nil => simp [splitSlash]
  | cons c cs ih =>
    unfold splitSlash
    split
    · simp
    · split <;> simp

theorem splitSlash_slash (cs : Str) : splitSlash ('/' :: cs) = [] :: splitSlash cs := by
  rw [splitSlash, if_pos rfl]

theorem splitSlash_cons (c : Char) (cs : Str) (h : c ≠ '/') :
    ∃ seg segs, splitSlash cs = seg :: segs ∧ splitSlash (c :: cs) = (c :: seg) :: segs := by
  cases hs : splitSlash cs with
  | nil => exact absurd hs (splitSlash_ne_nil cs)
  | cons seg segs =>
    refine ⟨seg, segs, rfl, ?_⟩
    rw [splitSlash, if_neg h, hs]

theorem splitSlash_no_slash (p : Str) : ∀ seg ∈ splitSlash p, '/' ∉ seg := by
  induction p with
  | nil =>
    intro seg hseg
    simp only [splitSlash, List.mem_singleton] at hseg
    rw [hseg]
    exact List.not_mem_nil _
  | cons c cs ih =>
    intro seg hseg
    by_cases hc : c = '/'
    · subst hc
      rw [splitSlash_slash] at hseg
      rcases List.mem_cons.mp hseg with h | h
      · rw [h]
        exact List.not_mem_nil _
      · exact ih seg h
    · obtain ⟨s0, segs, h1, h2⟩ := splitSlash_cons c cs hc
      rw [h2] at hseg
      rcases List.mem_cons.mp hseg with h | h
      · rw [h]
        intro hm
        rcases List.mem_cons.mp hm with e | e
        · exact hc e.symm
        · exact ih s0 (by rw [h1]; exact List.mem_cons_self _ _) e
      · exact ih seg (by rw [h1]; exact List.mem_cons_of_mem _ h)

/-- A path without separator is its one element. -/
theorem splitSlash_of_no_slash (seg : Str) (h : '/' ∉ seg) : splitSlash seg = [seg] := by
  induction seg with
  | nil => rfl
  | cons c cs ih =>
    have hc : c ≠ '/' := fun e => h (e ▸ List.mem_cons_self _ _)
    have hcs : '/' ∉ cs := fun m => h (List.mem_cons_of_mem _ m)
    rw [splitSlash, if_neg hc, ih hcs]

/-- The elements of `a/b` are those of `a` followed by those of `b`. -/
theorem splitSlash_append (a b : Str) :
    splitSlash (a ++ '/' :: b) = splitSlash a ++ splitSlash b := by
  induction a with
  | nil =>
    show splitSlash ('/' :: b) = _
    rw [splitSlash_slash]
    rfl
  | cons c cs ih =>
    show splitSlash (c :: (cs ++ '/' :: b)) = _
    by_cases hc : c = '/'
    · subst hc
      rw [splitSlash_slash, splitSlash_slash, ih]
      rfl
    · obtain ⟨s0, segs, h1, h2⟩ := splitSlash_cons c cs hc
      rw [h2, splitSlash, if_neg hc, ih, h1]
      rfl

theorem splitSlash_takeWhile (p : Str) :
    splitSlash p = p.takeWhile (fun x => !IsPathSeparator x) ::
      (match p.dropWhile (fun x => !IsPathSeparator x) with
       | [] => []
       | _ :: t => splitSlash t) := by
  induction p with
  | nil => rfl
  | cons c cs ih =>
    by_cases hc : c = '/'
    · subst hc
      rw [splitSlash_slash]
      rfl
    · have hs : (!IsPathSeparator c) = true := by simp [IsPathSeparator, hc]
      rw [splitSlash, if_neg hc, ih, List.takeWhile_cons, List.dropWhile_cons, hs]
      rfl

theorem takeWhile_eq_dot (c : Char) (rest : Str) (hc : c ≠ '/') :
    (c = '.' ∧ (rest = [] ∨ (rest.head?.map IsPathSeparator = some true))) ↔
      (c :: rest).takeWhile (fun x => !IsPathSeparator x) = ['.'] := by
  have hs : (!IsPathSeparator c) = true := by simp [IsPathSeparator, hc]
  rw [List.takeWhile_cons, hs]
  cases rest with
  | nil => simp
  | cons d rest2 =>
    by_cases hd : d = '/'
    · subst hd
      simp [IsPathSeparator]
    · simp [IsPathSeparator, hd]

theorem dropWhile_of_dot (c : Char) (rest : Str) (hc : c ≠ '/')
    (h : rest = [] ∨ (rest.head?.map IsPathSeparator = some true)) :
    (c :: rest).dropWhile (fun x => !IsPathSeparator x) = rest := by
  have hs : (!IsPathSeparator c) = true := by simp [IsPathSeparator, hc]
  rw [List.dropWhile_cons, hs]
  cases rest with
  | nil => rfl
  | cons d rest2 =>
    rcases h with h | h
    · exact absurd h (by simp)
    · have hd : IsPathSeparator d = true := by simpa using h
      simp [List.dropWhile_cons, hd]

theorem takeWhile_eq_dotdot (c : Char) (rest : Str) (hc : c ≠ '/') :
    (c = '.' ∧ rest.head? = some '.' ∧
        (rest.tail = [] ∨ (rest.tail.head?.map IsPathSeparator = some true))) ↔
      (c :: rest).takeWhile (fun x => !IsPathSeparator x) = ['.', '.'] := by
  have hs : (!IsPathSeparator c) = true := by simp [IsPathSeparator, hc]
  rw [List.takeWhile_cons, hs]
  cases rest with
  | nil => simp
  | cons d rest2 =>
    by_cases hd : d = '/'
    · subst hd
      simp [IsPathSeparator]
    · cases rest2 with
      | nil => simp [IsPathSeparator, hd]
      | cons e rest3 =>
        by_cases he : e = '/'
        · subst he
          simp [IsPathSeparator, hd]
        · simp [IsPathSeparator, hd, he]

theorem dropWhile_of_dotdot (c : Char) (rest : Str) (hc : c ≠ '/')
    (h : rest.head? = some '.' ∧
        (rest.tail = [] ∨ (rest.tail.head?.map IsPathSeparator = some true))) :
    (c :: rest).dropWhile (fun x => !IsPathSeparator x) = rest.tail := by
  have hs : (!IsPathSeparator c) = true := by simp [IsPathSeparator, hc]
  rw [List.dropWhile_cons, hs]
  cases rest with
  | nil => rfl
  | cons d rest2 =>
    have hd : d = '.' := by simpa using h.1
    subst hd
    exact dropWhile_of_dot '.' rest2 (by decide) h.2

/-- One iteration of the loop of `filepath.Clean` at a character that is not
a separator reads the path element that starts there. -/
theorem cleanLoop_element (rooted : Bool) (fuel : Nat) (c : Char) (rest : Str)
    (st : CleanState) (hc : c ≠ '/') :
    cleanLoop rooted (fuel + 1) (c :: rest) st =
      cleanLoop rooted fuel ((c :: rest).dropWhile (fun x => !IsPathSeparator x))
        (stepSeg rooted st ((c :: rest).takeWhile (fun x => !IsPathSeparator x))) := by
  have hsep : ¬ IsPathSeparator c = true := by simp [IsPathSeparator, hc]
  have hne : (c :: rest).takeWhile (fun x => !IsPathSeparator x) ≠ [] := by
    have hs : (!IsPathSeparator c) = true := by simp [IsPathSeparator, hc]
    rw [List.takeWhile_cons, hs]
    simp
  rw [cleanLoop, if_neg hsep]
  by_cases h1 : c = '.' ∧ (rest = [] ∨ (rest.head?.map IsPathSeparator = some true))
  · rw [if_pos h1, dropWhile_of_dot c rest hc h1.2]
    have e := (takeWhile_eq_dot c rest hc).mp h1
    rw [e]
    rfl
  · rw [if_neg h1]
    have n1 : (c :: rest).takeWhile (fun x => !IsPathSeparator x) ≠ ['.'] :=
      fun e => h1 ((takeWhile_eq_dot c rest hc).mpr e)
    by_cases h2 : c = '.' ∧ rest.head? = some '.' ∧
        (rest.tail = [] ∨ (rest.tail.head?.map IsPathSeparator = some true))
    · rw [if_pos h2, dropWhile_of_dotdot c rest hc h2.2]
      have e := (takeWhile_eq_dotdot c rest hc).mp h2
      rw [e]
      rfl
    · rw [if_neg h2]
      have n2 : (c :: rest).takeWhile (fun x => !IsPathSeparator x) ≠ ['.', '.'] :=
        fun e => h2 ((takeWhile_eq_dotdot c rest hc).mpr e)
      have n0 : ¬ ((c :: rest).takeWhile (fun x => !IsPathSeparator x) = [] ∨
          (c :: rest).takeWhile (fun x => !IsPathSeparator x) = ['.']) := by
        rintro (e | e)
        · exact hne e
        · exact n1 e
      unfold stepSeg
      rw [if_neg n0, if_neg n2]

theorem stepSeg_nil (rooted : Bool) (st : CleanState) : stepSeg rooted st [] = st := by
  unfold stepSeg
  rw [if_pos (Or.inl rfl)]

/-- With fuel for its length, the loop of `filepath.Clean` over a path is the
iteration of `stepSeg` over the elements of the path. -/
theorem cleanLoop_eq_foldl (rooted : Bool) (fuel : Nat) (p : Str) (st : CleanState)
    (h : p.length ≤ fuel) :
    cleanLoop rooted fuel p st = (splitSlash p).foldl (stepSeg rooted) st := by
  induction fuel generalizing p st with
  | zero =>
    have hp : p = [] := List.length_eq_zero.mp (Nat.le_zero.mp h)
    subst hp
    simp [cleanLoop, splitSlash, stepSeg_nil]
  | succ n ih =>
    cases p with
    | nil => simp [cleanLoop, splitSlash, stepSeg_nil]
    | cons c rest =>
      have hl : rest.length ≤ n := Nat.le_of_succ_le_succ h
      by_cases hc : c = '/'
      · subst hc
        have hsep : IsPathSeparator '/' = true := by decide
        rw [cleanLoop, if_pos hsep, splitSlash_slash, List.foldl_cons, stepSeg_nil]
        exact ih rest st hl
      · rw [cleanLoop_element rooted n c rest st hc, splitSlash_takeWhile (c :: rest),
          List.foldl_cons]
        have hsep2 : IsPathSeparator c = false := by simp [IsPathSeparator, hc]
        have hlt := length_dropWhile_lt c rest hsep2
        simp only [List.length_cons] at hlt
        rw [ih _ _ (by omega)]
        cases hd : (c :: rest).dropWhile (fun x => !IsPathSeparator x) with
        | nil => simp [splitSlash, stepSeg_nil]
        | cons d t =>
          have hdsep : d = '/' := by
            have hh := List.head?_dropWhile_not (fun x => !IsPathSeparator x) (c :: rest)
            rw [hd] at hh
            simpa [IsPathSeparator] using hh
          subst hdsep
          rw [splitSlash_slash, List.foldl_cons, stepSeg_nil]

theorem renderPath_cons (rooted : Bool) (base top : Str) (below : List Str) :
    renderPath rooted base (top :: below) =
      (if (rooted && (renderPath rooted base below).length != 1) ||
          (!rooted && (renderPath rooted base below).length != 0)
       then renderPath rooted base below ++ ['/'] else renderPath rooted base below) ++ top :=
  rfl

theorem renderPath_base_isPrefix (rooted : Bool) (base : Str) (stack : List Str) :
    base <+: renderPath rooted base stack := by
  induction stack with
  | nil => exact List.prefix_refl _
  | cons top below ih =>
    rw [renderPath_cons]
    split
    · exact ih.trans ((List.prefix_append _ _).trans (List.prefix_append _ _))
    · exact ih.trans (List.prefix_append _ _)

theorem renderPath_base_le (rooted : Bool) (base : Str) (stack : List Str) :
    base.length ≤ (renderPath rooted base stack).length :=
  (renderPath_base_isPrefix rooted base stack).length_le

theorem backtrack_aux (dotdot : Nat) (o o2 : Str) (hd : dotdot ≤ o.length)
    (ho : o2 = o ++ ['/'] ∨ (o2 = o ∧ o.length ≤ dotdot)) (t : Str) (hne : t ≠ [])
    (hns : '/' ∉ t) :
    backtrack dotdot (t ++ o2.reverse) = o.reverse := by
  induction t with
  | nil => exact absurd rfl hne
  | cons c t ih =>
    have hc : IsPathSeparator c = false := by
      have : c ≠ '/' := fun e => hns (e ▸ List.mem_cons_self _ _)
      simp [IsPathSeparator, this]
    have hlen : o.length ≤ o2.length := by
      rcases ho with h | h
      · rw [h]; simp
      · rw [h.1]
    cases t with
    | nil =>
      show backtrack dotdot (c :: o2.reverse) = _
      rcases ho with h | h
      · subst h
        have e : (o ++ ['/']).reverse = '/' :: o.reverse := by simp
        rw [e, backtrack]
        have h1 : (('/' :: o.reverse).length > dotdot && !IsPathSeparator c) = true := by
          simp [hc]; omega
        rw [if_pos h1, backtrack]
        have h2 : ¬ ((o.reverse.length > dotdot && !IsPathSeparator '/') = true) := by
          simp [IsPathSeparator]
        rw [if_neg h2]
      · rw [h.1, backtrack]
        have h1 : ¬ ((o.reverse.length > dotdot && !IsPathSeparator c) = true) := by
          simp [hc]; exact h.2
        rw [if_neg h1]
    | cons d t2 =>
      show backtrack dotdot (c :: (d :: t2 ++ o2.reverse)) = _
      rw [backtrack]
      have h1 : (((d :: t2 ++ o2.reverse).length > dotdot) && !IsPathSeparator c) = true := by
        simp [hc]; omega
      rw [if_pos h1]
      exact ih (by simp) (fun m => hns (List.mem_cons_of_mem _ m))

/-- The backtracking of `..` removes the last copied element and the
separator before it. -/
theorem backtrack_renderPath (dotdot : Nat) (o o2 top : Str) (hd : dotdot ≤ o.length)
    (ho : o2 = o ++ ['/'] ∨ (o2 = o ∧ o.length ≤ dotdot)) (hne : top ≠ [])
    (hns : '/' ∉ top) :
    (backtrack dotdot (o2 ++ top).reverse).reverse = o := by
  rw [List.reverse_append,
    backtrack_aux dotdot o o2 hd ho top.reverse (by simpa using hne) (by simpa using hns),
    List.reverse_reverse]

theorem cleanBase_length_rooted (k : Nat) : (cleanBase true k).length = 1 := rfl

/-- One element read by the loop of `filepath.Clean`, on the stack of copied
elements. -/
theorem stepSeg_stateOf (rooted : Bool) (σ : Nat × List Str) (seg : Str)
    (hσ : ∀ s ∈ σ.2, NormalSeg s) :
    stepSeg rooted (stateOf rooted σ) seg = stateOf rooted (stepStack rooted σ seg) := by
  obtain ⟨k, stack⟩ := σ
  unfold stepSeg stepStack
  by_cases h0 : seg = [] ∨ seg = ['.']
  · rw [if_pos h0, if_pos h0]
  · rw [if_neg h0, if_neg h0]
    by_cases h2 : seg = ['.', '.']
    · rw [if_pos h2, if_pos h2]
      cases stack with
      | nil =>
        show cleanDotDot rooted (stateOf rooted (k, [])) = _
        unfold cleanDotDot stateOf
        simp only [renderPath]
        rw [if_neg (Nat.lt_irrefl _)]
        cases rooted with
        | true => rfl
        | false => rfl
      | cons top below =>
        have htop : NormalSeg top := hσ top (List.mem_cons_self _ _)
        show cleanDotDot rooted (stateOf rooted (k, top :: below)) = stateOf rooted (k, below)
        have hbase := renderPath_base_le rooted (cleanBase rooted k) below
        have hlen : ((stateOf rooted (k, top :: below)).out).length >
            (stateOf rooted (k, top :: below)).dotdot := by
          have ht : 0 < top.length := List.length_pos.mpr htop.1
          show (renderPath rooted (cleanBase rooted k) (top :: below)).length >
            (cleanBase rooted k).length
          rw [renderPath_cons]
          split <;> simp only [List.length_append] <;> omega
        unfold cleanDotDot
        rw [if_pos hlen]
        show (⟨(backtrack (cleanBase rooted k).length
            (renderPath rooted (cleanBase rooted k) (top :: below)).reverse).reverse,
            (cleanBase rooted k).length⟩ : CleanState) = _
        have key : (backtrack (cleanBase rooted k).length
            (renderPath rooted (cleanBase rooted k) (top :: below)).reverse).reverse =
            renderPath rooted (cleanBase rooted k) below := by
          rw [renderPath_cons]
          by_cases hs : ((rooted && (renderPath rooted (cleanBase rooted k) below).length != 1) ||
              (!rooted && (renderPath rooted (cleanBase rooted k) below).length != 0)) = true
          · rw [if_pos hs]
            exact backtrack_renderPath _ _ _ top hbase (Or.inl rfl) htop.1 htop.2.1
          · rw [if_neg hs]
            refine backtrack_renderPath _ _ _ top hbase (Or.inr ⟨rfl, ?_⟩) htop.1 htop.2.1
            cases rooted with
            | true =>
              simp at hs
              rw [hs]
              exact Nat.le_refl _
            | false =>
              simp at hs
              rw [hs]
              exact Nat.zero_le _
        rw [key]
        rfl
    · rw [if_neg h2, if_neg h2]
      rfl

theorem stepStack_nil (rooted : Bool) (σ : Nat × List Str) : stepStack rooted σ [] = σ := by
  unfold stepStack
  rw [if_pos (Or.inl rfl)]

theorem stepStack_normal (rooted : Bool) (σ : Nat × List Str) (seg : Str)
    (hσ : ∀ s ∈ σ.2, NormalSeg s) (hseg : '/' ∉ seg) :
    ∀ s ∈ (stepStack rooted σ seg).2, NormalSeg s := by
  obtain ⟨k, stack⟩ := σ
  unfold stepStack
  by_cases h0 : seg = [] ∨ seg = ['.']
  · rw [if_pos h0]
    exact hσ
  · rw [if_neg h0]
    by_cases h2 : seg = ['.', '.']
    · rw [if_pos h2]
      cases stack with
      | nil =>
        cases rooted <;> simp
      | cons top below =>
        intro s hs
        exact hσ s (List.mem_cons_of_mem _ hs)
    · rw [if_neg h2]
      intro s hs
      rcases List.mem_cons.mp hs with e | e
      · rw [e]
        exact ⟨fun e0 => h0 (Or.inl e0), hseg, fun e1 => h0 (Or.inr e1), h2⟩
      · exact hσ s e

/-- The iteration of `stepSeg` over path elements, on the stack of copied
elements. -/
theorem foldl_stepSeg_stateOf (rooted : Bool) (segs : List Str) (σ : Nat × List Str)
    (hσ : ∀ s ∈ σ.2, NormalSeg s) (hsegs : ∀ seg ∈ segs, '/' ∉ seg) :
    segs.foldl (stepSeg rooted) (stateOf rooted σ) =
      stateOf rooted (segs.foldl (stepStack rooted) σ) ∧
    ∀ s ∈ (segs.foldl (stepStack rooted) σ).2, NormalSeg s := by
  induction segs generalizing σ with
  | nil => exact ⟨rfl, hσ⟩
  | cons seg segs ih =>
    have hseg : '/' ∉ seg := hsegs seg (List.mem_cons_self _ _)
    have hrest : ∀ x ∈ segs, '/' ∉ x := fun x hx => hsegs x (List.mem_cons_of_mem _ hx)
    rw [List.foldl_cons, List.foldl_cons, stepSeg_stateOf rooted σ seg hσ]
    exact ih _ (stepStack_normal rooted σ seg hσ hseg) hrest

theorem cleanStack_normal (p : Str) : ∀ s ∈ (cleanStack p).2, NormalSeg s :=
  (foldl_stepSeg_stateOf (isRooted p) (splitSlash p) (0, [])
    (fun s hs => absurd hs (List.not_mem_nil s)) (splitSlash_no_slash p)).2

/-- The result of `filepath.Clean` on a non-empty path, read off the stack of
copied elements. -/
theorem Clean_eq (p : Str) (hp : p ≠ []) :
    Clean p =
      if (renderPath (isRooted p) (cleanBase (isRooted p) (cleanStack p).1)
          (cleanStack p).2).length = 0 then ['.']
      else renderPath (isRooted p) (cleanBase (isRooted p) (cleanStack p).1)
          (cleanStack p).2 := by
  cases p with
  | nil => exact absurd rfl hp
  | cons c rest =>
    have hfold := (foldl_stepSeg_stateOf (isRooted (c :: rest)) (splitSlash (c :: rest)) (0, [])
      (fun s hs => absurd hs (List.not_mem_nil s)) (splitSlash_no_slash (c :: rest))).1
    have hloop : cleanLoop (IsPathSeparator c) (c :: rest).length
        (if IsPathSeparator c = true then rest else c :: rest)
        (if IsPathSeparator c = true then { out := ['/'], dotdot := 1 }
          else { out := [], dotdot := 0 }) =
        stateOf (isRooted (c :: rest)) (cleanStack (c :: rest)) := by
      unfold cleanStack
      rw [← hfold]
      by_cases hc : c = '/'
      · subst hc
        have hsep : IsPathSeparator '/' = true := by decide
        rw [if_pos hsep, if_pos hsep,
          cleanLoop_eq_foldl (IsPathSeparator '/') ('/' :: rest).length rest _
            (by simp), splitSlash_slash, List.foldl_cons]
        rfl
      · have hsep : ¬ IsPathSeparator c = true := by simp [IsPathSeparator, hc]
        rw [if_neg hsep, if_neg hsep, cleanLoop_eq_foldl _ _ (c :: rest) _ (Nat.le_refl _)]
        have hr : isRooted (c :: rest) = IsPathSeparator c := rfl
        rw [hr]
        have hf : IsPathSeparator c = false := by simpa using hsep
        rw [hf]
        rfl
    show (if (cleanLoop (IsPathSeparator c) (c :: rest).length
        (if IsPathSeparator c = true then rest else c :: rest)
        (if IsPathSeparator c = true then { out := ['/'], dotdot := 1 }
          else { out := [], dotdot := 0 })).out.length = 0 then ['.']
      else (cleanLoop (IsPathSeparator c) (c :: rest).length
        (if IsPathSeparator c = true then rest else c :: rest)
        (if IsPathSeparator c = true then { out := ['/'], dotdot := 1 }
          else { out := [], dotdot := 0 })).out) = _
    rw [hloop]
    rfl

/-! ## The stack of copied elements -/

theorem stepStack_rooted_fst (σ : Nat × List Str) (seg : Str) :
    (stepStack true σ seg).1 = σ.1 := by
  obtain ⟨k, stack⟩ := σ
  unfold stepStack
  split
  · rfl
  · split
    · cases stack <;> rfl
    · rfl

theorem foldl_stepStack_rooted_fst (segs : List Str) (σ : Nat × List Str) :
    (segs.foldl (stepStack true) σ).1 = σ.1 := by
  induction segs generalizing σ with
  | nil => rfl
  | cons seg segs ih => rw [List.foldl_cons, ih, stepStack_rooted_fst]

/-- Elements other than `..` only add to the stack. -/
theorem foldl_stepStack_push (rooted : Bool) (segs : List Str) (σ : Nat × List Str)
    (h : ∀ seg ∈ segs, seg ≠ ['.', '.']) :
    ∃ T, segs.foldl (stepStack rooted) σ = (σ.1, T ++ σ.2) := by
  induction segs generalizing σ with
  | nil => exact ⟨[], rfl⟩
  | cons seg segs ih =>
    have hseg : seg ≠ ['.', '.'] := h seg (List.mem_cons_self _ _)
    have hrest : ∀ x ∈ segs, x ≠ ['.', '.'] := fun x hx => h x (List.mem_cons_of_mem _ hx)
    rw [List.foldl_cons]
    by_cases h0 : seg = [] ∨ seg = ['.']
    · have e : stepStack rooted σ seg = σ := by
        unfold stepStack
        rw [if_pos h0]
      rw [e]
      exact ih σ hrest
    · have e : stepStack rooted σ seg = (σ.1, seg :: σ.2) := by
        unfold stepStack
        rw [if_neg h0, if_neg hseg]
      rw [e]
      obtain ⟨T, hT⟩ := ih (σ.1, seg :: σ.2) hrest
      exact ⟨T ++ [seg], by rw [hT]; simp⟩

/-- Normal elements, read in the order of the path, are put on the stack. -/
theorem foldl_stepStack_normal (rooted : Bool) (L : List Str) (σ : Nat × List Str)
    (h : ∀ seg ∈ L, NormalSeg seg) :
    L.foldl (stepStack rooted) σ = (σ.1, L.reverse ++ σ.2) := by
  induction L generalizing σ with
  | nil => rfl
  | cons seg L ih =>
    have hseg : NormalSeg seg := h seg (List.mem_cons_self _ _)
    have hrest : ∀ x ∈ L, NormalSeg x := fun x hx => h x (List.mem_cons_of_mem _ hx)
    have h0 : ¬ (seg = [] ∨ seg = ['.']) := by
      rintro (e | e)
      · exact hseg.1 e
      · exact hseg.2.2.1 e
    have e : stepStack rooted σ seg = (σ.1, seg :: σ.2) := by
      unfold stepStack
      rw [if_neg h0, if_neg hseg.2.2.2]
    rw [List.foldl_cons, e, ih _ hrest]
    simp

theorem renderPath_isPrefix_append (rooted : Bool) (base : Str) (T S : List Str) :
    renderPath rooted base S <+: renderPath rooted base (T ++ S) := by
  induction T with
  | nil => exact List.prefix_refl _
  | cons top T ih =>
    show _ <+: renderPath rooted base (top :: (T ++ S))
    rw [renderPath_cons]
    split
    · exact ih.trans ((List.prefix_append _ _).trans (List.prefix_append _ _))
    · exact ih.trans (List.prefix_append _ _)

theorem renderPath_length_gt (rooted : Bool) (base top : Str) (below : List Str)
    (htop : top ≠ []) :
    base.length < (renderPath rooted base (top :: below)).length := by
  have hb := renderPath_base_le rooted base below
  have ht : 0 < top.length := List.length_pos.mpr htop
  rw [renderPath_cons]
  split <;> simp only [List.length_append] <;> omega

/-- The elements of a rooted output are the copied elements. -/
theorem splitSlash_renderPath_rooted (S : List Str) (hS : ∀ s ∈ S, NormalSeg s) :
    splitSlash (renderPath true ['/'] S) = [] :: (if S = [] then [[]] else S.reverse) := by
  induction S with
  | nil => rfl
  | cons top below ih =>
    have htop : NormalSeg top := hS top (List.mem_cons_self _ _)
    have hbelow : ∀ s ∈ below, NormalSeg s := fun x hx => hS x (List.mem_cons_of_mem _ hx)
    rw [renderPath_cons, if_neg (List.cons_ne_nil _ _)]
    cases below with
    | nil =>
      show splitSlash ('/' :: top) = _
      rw [splitSlash_slash, splitSlash_of_no_slash top htop.2.1]
      rfl
    | cons b below2 =>
      have hlen := renderPath_length_gt true ['/'] b below2
        (hbelow b (List.mem_cons_self _ _)).1
      have hne : ((true && (renderPath true ['/'] (b :: below2)).length != 1) ||
          (!true && (renderPath true ['/'] (b :: below2)).length != 0)) = true := by
        have : (renderPath true ['/'] (b :: below2)).length ≠ 1 := by
          simp only [List.length_singleton] at hlen
          omega
        simp [this]
      rw [if_pos hne, List.append_assoc]
      show splitSlash (renderPath true ['/'] (b :: below2) ++ '/' :: top) = _
      rw [splitSlash_append, ih hbelow, if_neg (List.cons_ne_nil _ _),
        splitSlash_of_no_slash top htop.2.1]
      simp

theorem isRooted_renderPath (S : List Str) : isRooted (renderPath true ['/'] S) = true := by
  obtain ⟨t, ht⟩ := renderPath_base_isPrefix true ['/'] S
  rw [← ht]
  rfl

theorem renderPath_rooted_ne_nil (S : List Str) : renderPath true ['/'] S ≠ [] := by
  obtain ⟨t, ht⟩ := renderPath_base_isPrefix true ['/'] S
  rw [← ht]
  simp

theorem Clean_rooted (p : Str) (h : isRooted p = true) :
    Clean p = renderPath true ['/'] (cleanStack p).2 := by
  have hp : p ≠ [] := by
    intro e
    rw [e] at h
    exact absurd h (by decide)
  rw [Clean_eq p hp, h]
  have hne : ¬ (renderPath true (cleanBase true (cleanStack p).1) (cleanStack p).2).length = 0 := by
    intro e
    exact renderPath_rooted_ne_nil _ (List.length_eq_zero.mp e)
  rw [if_neg hne]
  rfl

/-- A rooted output of `filepath.Clean` is left as it is by `filepath.Clean`. -/
theorem Clean_renderPath (S : List Str) (hS : ∀ s ∈ S, NormalSeg s) :
    Clean (renderPath true ['/'] S) = renderPath true ['/'] S := by
  rw [Clean_rooted _ (isRooted_renderPath S)]
  unfold cleanStack
  rw [isRooted_renderPath, splitSlash_renderPath_rooted S hS, List.foldl_cons, stepStack_nil]
  by_cases hnil : S = []
  · subst hnil
    rfl
  · rw [if_neg hnil, foldl_stepStack_normal true S.reverse (0, [])
      (fun s hs => hS s (List.mem_reverse.mp hs))]
    simp

theorem isRooted_append (a b : Str) (ha : a ≠ []) : isRooted (a ++ b) = isRooted a := by
  cases a with
  | nil => exact absurd rfl ha
  | cons c cs => rfl

/-- The stack of `a/b` is the stack of `a` after the elements of `b` are
read. -/
theorem cleanStack_append (a b : Str) (ha : a ≠ []) :
    cleanStack (a ++ '/' :: b) =
      (splitSlash b).foldl (stepStack (isRooted a)) (cleanStack a) := by
  unfold cleanStack
  rw [isRooted_append a _ ha, splitSlash_append, List.foldl_append]

theorem dots_succ_ne_nil (k : Nat) : dots (k + 1) ≠ [] := by
  unfold dots
  simp

theorem dots_eq_nil (k : Nat) (h : dots k = []) : k = 0 := by
  cases k with
  | zero => rfl
  | succ n => exact absurd h (dots_succ_ne_nil n)

theorem splitSlash_dots (k : Nat) (hk : 0 < k) :
    splitSlash (dots k) = List.replicate k ['.', '.'] := by
  induction k with
  | zero => exact absurd hk (Nat.lt_irrefl 0)
  | succ n ih =>
    cases n with
    | zero => rfl
    | succ m =>
      have hne : (dots (m + 1)).length > 0 := List.length_pos.mpr (dots_succ_ne_nil m)
      have e : dots (m + 1 + 1) = dots (m + 1) ++ '/' :: ['.', '.'] := by
        show (if (dots (m + 1)).length > 0 then dots (m + 1) ++ ['/'] else dots (m + 1)) ++
          ['.', '.'] = _
        rw [if_pos hne, List.append_assoc]
        rfl
      rw [e, splitSlash_append, ih (Nat.succ_pos m)]
      have e2 : splitSlash ['.', '.'] = [['.', '.']] := by decide
      rw [e2, List.replicate_succ' (m + 1)]

theorem renderPath_unrooted_eq_nil (k : Nat) (S : List Str) (hS : ∀ s ∈ S, NormalSeg s)
    (h : renderPath false (dots k) S = []) : k = 0 ∧ S = [] := by
  cases S with
  | nil => exact ⟨dots_eq_nil k h, rfl⟩
  | cons top below =>
    have := renderPath_length_gt false (dots k) top below (hS top (List.mem_cons_self _ _)).1
    rw [h] at this
    exact absurd this (Nat.not_lt_zero _)

/-- The elements of an unrooted output are its leading `..` elements and the
copied elements. -/
theorem splitSlash_renderPath_unrooted (k : Nat) (S : List Str)
    (hS : ∀ s ∈ S, NormalSeg s) (hne : 0 < k ∨ S ≠ []) :
    splitSlash (renderPath false (dots k) S) = List.replicate k ['.', '.'] ++ S.reverse := by
  induction S with
  | nil =>
    rcases hne with h | h
    · show splitSlash (dots k) = _
      rw [splitSlash_dots k h]
      simp
    · exact absurd rfl h
  | cons top below ih =>
    have htop : NormalSeg top := hS top (List.mem_cons_self _ _)
    have hbelow : ∀ s ∈ below, NormalSeg s := fun x hx => hS x (List.mem_cons_of_mem _ hx)
    rw [renderPath_cons]
    by_cases ho : renderPath false (dots k) below = []
    · obtain ⟨hk, hb⟩ := renderPath_unrooted_eq_nil k below hbelow ho
      subst hk hb
      show splitSlash ([] ++ top) = _
      rw [List.nil_append, splitSlash_of_no_slash top htop.2.1]
      rfl
    · have hlen : (renderPath false (dots k) below).length ≠ 0 :=
        fun e => ho (List.length_eq_zero.mp e)
      have hcond : ((false && (renderPath false (dots k) below).length != 1) ||
          (!false && (renderPath false (dots k) below).length != 0)) = true := by
        simp [hlen]
      have hne2 : 0 < k ∨ below ≠ [] := by
        by_contra hcon
        have h1 : k = 0 := by
          by_contra hk
          exact hcon (Or.inl (Nat.pos_of_ne_zero hk))
        have h2 : below = [] := by
          by_contra hb
          exact hcon (Or.inr hb)
        subst h1 h2
        exact ho rfl
      rw [if_pos hcond, List.append_assoc]
      show splitSlash (renderPath false (dots k) below ++ '/' :: top) = _
      rw [splitSlash_append, ih hbelow hne2, splitSlash_of_no_slash top htop.2.1]
      simp

theorem foldl_stepStack_dotdots (k : Nat) (S0 : List Str) :
    (List.replicate k ['.', '.']).foldl (stepStack true) (0, S0) = (0, S0.drop k) := by
  induction k generalizing S0 with
  | zero => rfl
  | succ n ih =>
    rw [List.replicate_succ, List.foldl_cons]
    have e : stepStack true (0, S0) ['.', '.'] = (0, S0.tail) := by
      unfold stepStack
      rw [if_neg (by decide), if_pos rfl]
      cases S0 <;> rfl
    rw [e, ih]
    cases S0 with
    | nil => simp
    | cons a S1 => rfl

/-- An unrooted path read behind a rooted one: its `..` elements that could
not backtrack remove elements of the rooted stack, and its copied elements
are put on top. -/
theorem foldl_stepStack_unrooted_on_rooted (segs : List Str) (k0 : Nat)
    (st0 S0 : List Str) :
    segs.foldl (stepStack true) (0, st0 ++ S0.drop k0) =
      (0, (segs.foldl (stepStack false) (k0, st0)).2 ++
          S0.drop (segs.foldl (stepStack false) (k0, st0)).1) := by
  induction segs generalizing k0 st0 with
  | nil => rfl
  | cons seg segs ih =>
    rw [List.foldl_cons, List.foldl_cons]
    have step : stepStack true (0, st0 ++ S0.drop k0) seg =
        (0, (stepStack false (k0, st0) seg).2 ++ S0.drop (stepStack false (k0, st0) seg).1) := by
      unfold stepStack
      by_cases h0 : seg = [] ∨ seg = ['.']
      · rw [if_pos h0, if_pos h0]
      · rw [if_neg h0, if_neg h0]
        by_cases h2 : seg = ['.', '.']
        · rw [if_pos h2, if_pos h2]
          cases st0 with
          | nil =>
            show (match S0.drop k0 with
              | _ :: below => ((0 : Nat), below)
              | [] => if true = true then (0, S0.drop k0) else (0 + 1, [])) =
              (0, [] ++ S0.drop (k0 + 1))
            rw [List.nil_append, ← List.drop_drop 1 k0 S0]
            cases S0.drop k0 <;> rfl
          | cons t b => rfl
        · rw [if_neg h2, if_neg h2]
          rfl
    rw [step]
    exact ih _ _

theorem IsAbs_eq_isRooted (p : Str) : IsAbs p = isRooted p := by
  cases p with
  | nil => rfl
  | cons c cs =>
    by_cases hc : c = '/'
    · subst hc
      simp [IsAbs, HasPrefix, isRooted, IsPathSeparator, List.isPrefixOf]
    · simp [IsAbs, HasPrefix, isRooted, IsPathSeparator, List.isPrefixOf, hc]
      exact fun e => hc e.symm

theorem Join_pair (a b : Str) (ha : a ≠ []) : Join [a, b] = Clean (a ++ '/' :: b) := by
  rw [Join, if_pos ha]
  simp [stringsJoin]

theorem isRooted_dots (k : Nat) : isRooted (dots k) = false := by
  induction k with
  | zero => rfl
  | succ n ih =>
    show isRooted ((if (dots n).length > 0 then dots n ++ ['/'] else dots n) ++ ['.', '.']) = _
    by_cases h : (dots n).length > 0
    · have hne : dots n ≠ [] := List.length_pos.mp h
      rw [if_pos h, List.append_assoc, isRooted_append _ _ hne]
      exact ih
    · rw [if_neg h]
      have : dots n = [] := List.length_eq_zero.mp (by omega)
      rw [this]
      rfl

theorem isRooted_of_no_slash (seg : Str) (h : '/' ∉ seg) : isRooted seg = false := by
  cases seg with
  | nil => rfl
  | cons c cs =>
    have hc : c ≠ '/' := fun e => h (e ▸ List.mem_cons_self _ _)
    simp [isRooted, IsPathSeparator, hc]

theorem isRooted_renderPath_unrooted (k : Nat) (S : List Str) (hS : ∀ s ∈ S, NormalSeg s) :
    isRooted (renderPath false (dots k) S) = false := by
  induction S with
  | nil => exact isRooted_dots k
  | cons top below ih =>
    have htop : NormalSeg top := hS top (List.mem_cons_self _ _)
    have hbelow : ∀ s ∈ below, NormalSeg s := fun x hx => hS x (List.mem_cons_of_mem _ hx)
    rw [renderPath_cons]
    by_cases ho : renderPath false (dots k) below = []
    · rw [ho]
      exact isRooted_of_no_slash top htop.2.1
    · split
      · rw [List.append_assoc, isRooted_append _ _ ho]
        exact ih hbelow
      · rw [isRooted_append _ _ ho]
        exact ih hbelow

/-- The result of `filepath.Clean` on a path that is not rooted is not
rooted. -/
theorem isRooted_Clean_unrooted (p : Str) (hp : p ≠ []) (hr : isRooted p = false) :
    isRooted (Clean p) = false := by
  rw [Clean_eq p hp, hr]
  split
  · rfl
  · exact isRooted_renderPath_unrooted _ _ (cleanStack_normal p)

/-- Behind a rooted path, the result of `filepath.Clean` on an unrooted path
is read like that path itself. -/
theorem foldl_Clean_unrooted (J : Str) (hJ : J ≠ []) (hr : isRooted J = false)
    (S0 : List Str) :
    (splitSlash (Clean J)).foldl (stepStack true) (0, S0) =
      (splitSlash J).foldl (stepStack true) (0, S0) := by
  have halg := foldl_stepStack_unrooted_on_rooted (splitSlash J) 0 [] S0
  have hσ : (splitSlash J).foldl (stepStack false) (0, []) = cleanStack J := by
    unfold cleanStack
    rw [hr]
  rw [hσ] at halg
  have e0 : ([] : List Str) ++ S0.drop 0 = S0 := rfl
  rw [e0] at halg
  rw [halg, Clean_eq J hJ, hr]
  have hS := cleanStack_normal J
  by_cases hout : renderPath false (cleanBase false (cleanStack J).1) (cleanStack J).2 = []
  · have hlen : (renderPath false (cleanBase false (cleanStack J).1) (cleanStack J).2).length = 0 := by
      rw [hout]
      rfl
    rw [if_pos hlen]
    obtain ⟨hk, hst⟩ := renderPath_unrooted_eq_nil _ _ hS hout
    rw [hk, hst]
    rfl
  · have hlen : ¬ (renderPath false (cleanBase false (cleanStack J).1) (cleanStack J).2).length = 0 :=
      fun e => hout (List.length_eq_zero.mp e)
    rw [if_neg hlen]
    have hne : 0 < (cleanStack J).1 ∨ (cleanStack J).2 ≠ [] := by
      by_contra hcon
      have h1 : (cleanStack J).1 = 0 := by
        by_contra hk
        exact hcon (Or.inl (Nat.pos_of_ne_zero hk))
      have h2 : (cleanStack J).2 = [] := by
        by_contra hb
        exact hcon (Or.inr hb)
      apply hout
      rw [h1, h2]
      rfl
    show (splitSlash (renderPath false (dots (cleanStack J).1) (cleanStack J).2)).foldl
      (stepStack true) (0, S0) = _
    rw [splitSlash_renderPath_unrooted _ _ hS hne, List.foldl_append, foldl_stepStack_dotdots,
      foldl_stepStack_normal true _ _ (fun s hs => hS s (List.mem_reverse.mp hs))]
    simp

theorem HasPrefix_of_isPrefix (a b : Str) (h : b <+: a) : HasPrefix a b = true := by
  unfold HasPrefix
  exact List.isPrefixOf_iff_prefix.mpr h

theorem cleanStack_rooted_fst (p : Str) (h : isRooted p = true) : (cleanStack p).1 = 0 := by
  unfold cleanStack
  rw [h, foldl_stepStack_rooted_fst]

/-- Reading elements other than `..` behind a rooted path keeps the cleaned
path as a prefix. -/
theorem renderPath_grows_of_push (σ : Nat × List Str) (segs : List Str)
    (h : ∀ seg ∈ segs, seg ≠ ['.', '.']) :
    renderPath true ['/'] σ.2 <+: renderPath true ['/'] (segs.foldl (stepStack true) σ).2 := by
  obtain ⟨T, hT⟩ := foldl_stepStack_push true segs σ h
  rw [hT]
  exact renderPath_isPrefix_append true ['/'] T σ.2

/-- The containment check passes for every non-empty document root and every
joined path without `..` element, the working directory being absolute (or
unknown). -/
theorem containment_of_no_dotdot (getwd : Option Str) (root x : Str) (hroot : root ≠ [])
    (hwd : ∀ wd, getwd = some wd → IsAbs wd = true)
    (hx : ∀ seg ∈ splitSlash x, seg ≠ ['.', '.']) :
    HasPrefix (Abs getwd (Join [root, x])) (Abs getwd root) = true := by
  have hJne : root ++ '/' :: x ≠ [] := by simp
  rw [Join_pair root x hroot]
  by_cases hr : isRooted root = true
  · -- the document root is absolute
    have hrJ : isRooted (root ++ '/' :: x) = true := by rw [isRooted_append _ _ hroot, hr]
    have hF : Clean (root ++ '/' :: x) = renderPath true ['/'] (cleanStack (root ++ '/' :: x)).2 :=
      Clean_rooted _ hrJ
    have hAbsRoot : Abs getwd root = renderPath true ['/'] (cleanStack root).2 := by
      unfold Abs
      rw [IsAbs_eq_isRooted, hr, if_pos rfl, Clean_rooted _ hr]
    have hAbsFull : Abs getwd (Clean (root ++ '/' :: x)) =
        renderPath true ['/'] (cleanStack (root ++ '/' :: x)).2 := by
      unfold Abs
      rw [hF, IsAbs_eq_isRooted, isRooted_renderPath, if_pos rfl,
        Clean_renderPath _ (cleanStack_normal _)]
    rw [hAbsRoot, hAbsFull, cleanStack_append root x hroot, hr]
    exact HasPrefix_of_isPrefix _ _ (renderPath_grows_of_push _ _ hx)
  · -- the document root is relative
    have hr2 : isRooted root = false := by simpa using hr
    have hrJ : isRooted (root ++ '/' :: x) = false := by rw [isRooted_append _ _ hroot, hr2]
    have hrF : isRooted (Clean (root ++ '/' :: x)) = false :=
      isRooted_Clean_unrooted _ hJne hrJ
    cases hg : getwd with
    | none =>
      unfold Abs
      rw [IsAbs_eq_isRooted, IsAbs_eq_isRooted, hr2, hrF]
      rfl
    | some wd =>
      have hwdr : isRooted wd = true := by
        rw [← IsAbs_eq_isRooted]
        exact hwd wd hg
      have hwdne : wd ≠ [] := by
        intro e
        rw [e] at hwdr
        exact absurd hwdr (by decide)
      have hAbsRoot : Abs (some wd) root =
          renderPath true ['/'] (cleanStack (wd ++ '/' :: root)).2 := by
        unfold Abs
        rw [IsAbs_eq_isRooted, hr2]
        show Join [wd, root] = _
        rw [Join_pair wd root hwdne,
          Clean_rooted _ (by rw [isRooted_append _ _ hwdne, hwdr])]
      have hAbsFull : Abs (some wd) (Clean (root ++ '/' :: x)) =
          renderPath true ['/'] (cleanStack (wd ++ '/' :: Clean (root ++ '/' :: x))).2 := by
        unfold Abs
        rw [IsAbs_eq_isRooted, hrF]
        show Join [wd, Clean (root ++ '/' :: x)] = _
        rw [Join_pair wd _ hwdne,
          Clean_rooted _ (by rw [isRooted_append _ _ hwdne, hwdr])]
      have hwd0 : cleanStack wd = (0, (cleanStack wd).2) := by
        rw [← cleanStack_rooted_fst wd hwdr]
      have hstack : cleanStack (wd ++ '/' :: Clean (root ++ '/' :: x)) =
          (splitSlash x).foldl (stepStack true) (cleanStack (wd ++ '/' :: root)) := by
        rw [cleanStack_append wd _ hwdne, cleanStack_append wd root hwdne, hwdr, hwd0,
          foldl_Clean_unrooted _ hJne hrJ, splitSlash_append, List.foldl_append]
      rw [hAbsRoot, hAbsFull, hstack]
      exact HasPrefix_of_isPrefix _ _ (renderPath_grows_of_push _ _ hx)

theorem splitSlash_TrimPrefix (y : Str) :
    ∀ seg ∈ splitSlash (TrimPrefix y "/".toList), seg ∈ splitSlash y := by
  intro seg hseg
  cases y with
  | nil => exact hseg
  | cons c cs =>
    by_cases hc : c = '/'
    · subst hc
      have e : TrimPrefix ('/' :: cs) "/".toList = cs := by
        simp [TrimPrefix, HasPrefix, List.isPrefixOf]
      rw [e] at hseg
      rw [splitSlash_slash]
      exact List.mem_cons_of_mem _ hseg
    · have e : TrimPrefix (c :: cs) "/".toList = c :: cs := by
        have : ¬ '/' = c := fun e => hc e.symm
        simp [TrimPrefix, HasPrefix, List.isPrefixOf, this]
      rw [e] at hseg
      exact hseg

theorem take_eq_of_isPrefix (a l : Bytes) (n : Nat) (h : a <+: l) (hn : n ≤ a.length) :
    l.take n = a.take n := by
  obtain ⟨t, rfl⟩ := h
  exact List.take_append_of_le_length hn

theorem not_answers_of_take (es : List Event) (code code2 : Int) (text text2 : Str)
    (h1 : answers es code text)
    (hlen1 : 12 ≤ (toBytes (statusLine code text)).length)
    (hlen2 : 12 ≤ (toBytes (statusLine code2 text2)).length)
    (hne : (toBytes (statusLine code text)).take 12 ≠
      (toBytes (statusLine code2 text2)).take 12) :
    ¬ answers es code2 text2 := by
  rintro ⟨hdr2, rest2, hw2, hp2⟩
  obtain ⟨hdr, rest, hw, hp⟩ := h1
  rw [hw] at hw2
  have e : hdr = hdr2 := (List.cons.inj hw2).1
  subst e
  apply hne
  rw [← take_eq_of_isPrefix _ _ 12 hp hlen1, ← take_eq_of_isPrefix _ _ 12 hp2 hlen2]

theorem answers_cons_stat (p : Str) (es : List Event) (code : Int) (text : Str)
    (h : answers es code text) : answers (Event.stat p :: es) code text := h

theorem answers_cons_readFile (p : Str) (es : List Event) (code : Int) (text : Str)
    (h : answers es code text) : answers (Event.readFile p :: es) code text := h

theorem statusLine_403_length :
    12 ≤ (toBytes (statusLine 403 "Forbidden".toList)).length := by decide

theorem statusLine_404_ne_403 :
    12 ≤ (toBytes (statusLine 404 "Not Found".toList)).length ∧
    (toBytes (statusLine 404 "Not Found".toList)).take 12 ≠
      (toBytes (statusLine 403 "Forbidden".toList)).take 12 := by decide

theorem statusLine_500_ne_403 :
    12 ≤ (toBytes (statusLine 500 "Internal Server Error".toList)).length ∧
    (toBytes (statusLine 500 "Internal Server Error".toList)).take 12 ≠
      (toBytes (statusLine 403 "Forbidden".toList)).take 12 := by decide

theorem statusLine_200_ne_403 :
    12 ≤ (toBytes (statusLine 200 "OK".toList)).length ∧
    (toBytes (statusLine 200 "OK".toList)).take 12 ≠
      (toBytes (statusLine 403 "Forbidden".toList)).take 12 := by decide

/-- A GET request that passes the containment check begins with the call of
`os.Stat` and is not answered 403. -/
theorem handleRequest_of_inside (env : Env) (s : HttpServer) (request : HttpRequest)
    (hget : request.Method = "GET".toList)
    (hin : HasPrefix (absFullPath env s request.Path) (absDocRoot env s) = true) :
    (∃ rest, handleRequest env s request =
      Event.stat (absFullPath env s request.Path) :: rest) ∧
    ¬ answers (handleRequest env s request) 403 "Forbidden".toList := by
  cases hstat : env.stat (absFullPath env s request.Path) with
  | none =>
    have h := handleRequest_of_stat_fails env s request hget hin (Or.inl hstat)
    rw [h]
    exact ⟨⟨_, rfl⟩, not_answers_of_take _ 404 403 _ _
      (answers_cons_stat _ _ _ _ (answers_sendErrorResponse env 404 "Not Found".toList))
      statusLine_404_ne_403.1 statusLine_403_length statusLine_404_ne_403.2⟩
  | some isDir =>
    cases isDir with
    | true =>
      have h := handleRequest_of_stat_fails env s request hget hin (Or.inr hstat)
      rw [h]
      exact ⟨⟨_, rfl⟩, not_answers_of_take _ 404 403 _ _
        (answers_cons_stat _ _ _ _ (answers_sendErrorResponse env 404 "Not Found".toList))
        statusLine_404_ne_403.1 statusLine_403_length statusLine_404_ne_403.2⟩
    | false =>
      cases hread : env.readFile (absFullPath env s request.Path) with
      | none =>
        have h := handleRequest_of_read_fails env s request hget hin hstat hread
        rw [h]
        exact ⟨⟨_, rfl⟩, not_answers_of_take _ 500 403 _ _
          (answers_cons_stat _ _ _ _ (answers_cons_readFile _ _ _ _
            (answers_sendErrorResponse env 500 "Internal Server Error".toList)))
          statusLine_500_ne_403.1 statusLine_403_length statusLine_500_ne_403.2⟩
      | some content =>
        have h := handleRequest_of_file env s request content hget hin hstat hread
        rw [h]
        exact ⟨⟨_, rfl⟩, not_answers_of_take _ 200 403 _ _
          (answers_cons_stat _ _ _ _ (answers_cons_readFile _ _ _ _
            (answers_sendResponse env 200 "OK".toList _ content)))
          statusLine_200_ne_403.1 statusLine_403_length statusLine_200_ne_403.2⟩

/-- The document root must not be the empty string for the containment check
to accept every path without `..`: with the empty document root, which
`main` never passes to `NewHttpServer` (`main_documentRoot_ne_nil`), and the
working directory `/srv`, the path `//etc/passwd` is joined to the absolute
path `/etc/passwd`, the absolute document root is `/srv`, the prefix test
fails and the answer is 403. -/
theorem empty_root_rejects :
    (∀ seg ∈ splitSlash (requestFilePath "//etc/passwd".toList), seg ≠ "..".toList) ∧
    fullPath emptyRootServer "//etc/passwd".toList = "/etc/passwd".toList ∧
    absFullPath demoEnv emptyRootServer "//etc/passwd".toList = "/etc/passwd".toList ∧
    absDocRoot demoEnv emptyRootServer = "/srv".toList ∧
    HasPrefix (absFullPath demoEnv emptyRootServer "//etc/passwd".toList)
      (absDocRoot demoEnv emptyRootServer) = false ∧
    handleRequest demoEnv emptyRootServer (getRequest "//etc/passwd".toList) =
      sendErrorResponse demoEnv 403 "Forbidden".toList := by
  decide

/-- C20. No false rejections: for every document root, absolute or relative,
the working directory being absolute (or unknown), and every GET request
whose path, after the query is cut, has no `..` among its elements between
separators, the absolute joined path has the absolute document root as a
string prefix; `handleRequest` goes on to `os.Stat` and does not answer 403.
The document root is a path that `main` has passed to `NewHttpServer`, its
one caller, after `os.Stat` did not report it missing: it is not the empty
string (`main_documentRoot_ne_nil`), which is the hypothesis `hroot`. -/
theorem no_false_rejection (env : Env) (s : HttpServer) (request : HttpRequest)
    (hroot : s.documentRoot ≠ [])
    (hwd : ∀ wd, env.getwd = some wd → IsAbs wd = true)
    (hget : request.Method = "GET".toList)
    (hseg : ∀ seg ∈ splitSlash (requestFilePath request.Path), seg ≠ "..".toList) :
    HasPrefix (absFullPath env s request.Path) (absDocRoot env s) = true ∧
    (∃ rest, handleRequest env s request =
      Event.stat (absFullPath env s request.Path) :: rest) ∧
    ¬ answers (handleRequest env s request) 403 "Forbidden".toList := by
  have hin : HasPrefix (absFullPath env s request.Path) (absDocRoot env s) = true := by
    unfold absFullPath absDocRoot fullPath
    exact containment_of_no_dotdot env.getwd s.documentRoot _ hroot hwd
      (fun seg h => hseg seg (splitSlash_TrimPrefix _ seg h))
  exact ⟨hin, handleRequest_of_inside env s request hget hin⟩

/-- The paths `//etc/passwd`, `etc/passwd` and `/a/./b//c?x=..` under the
document root `./Pub` of the working directory `/srv`. -/
theorem no_false_rejection_witness :
    absFullPath demoEnv demoServer "//etc/passwd".toList = "/srv/Pub/etc/passwd".toList ∧
    ¬ answers (handleRequest demoEnv demoServer (getRequest "//etc/passwd".toList))
      403 "Forbidden".toList ∧
    ¬ answers (handleRequest demoEnv demoServer (getRequest "etc/passwd".toList))
      403 "Forbidden".toList ∧
    ¬ answers (handleRequest demoEnv demoServer (getRequest "/a/./b//c?x=..".toList))
      403 "Forbidden".toList :=
  ⟨by decide,
   (no_false_rejection demoEnv demoServer (getRequest "//etc/passwd".toList)
      (by decide) (by decide) (by decide) (by decide)).2.2,
   (no_false_rejection demoEnv demoServer (getRequest "etc/passwd".toList)
      (by decide) (by decide) (by decide) (by decide)).2.2,
   (no_false_rejection demoEnv demoServer (getRequest "/a/./b//c?x=..".toList)
      (by decide) (by decide) (by decide) (by decide)).2.2⟩

/-! ## The lines of a connection -/

theorem readLines_examples :
    readLines (toBytes "GET / HTTP/1.1\r\nHost: a\r\n\r\n".toList) =
      [toBytes "GET / HTTP/1.1".toList, toBytes "Host: a".toList, []] ∧
    readLines (toBytes "a\nb\r\r\nc\r".toList) =
      [toBytes "a".toList, toBytes "b\r".toList, toBytes "c\r".toList] ∧
    readLines [] = [] ∧
    connLines (toBytes "GET / HTTP/1.1\r\n\r\n".toList) = ["GET / HTTP/1.1".toList, []] ∧
    connLines (toBytes "GET /é HTTP/1.1\r\nHost: 服务器".toList) =
      ["GET /é HTTP/1.1".toList, "Host: 服务器".toList] ∧
    ofBytes [0x47, 0xFF, 0xC3, 0x28, 0xE2, 0x82, 0xAC, 0xF0, 0x9F, 0x98, 0x80, 0xED, 0xA0, 0x80] =
      ['G', Char.ofNat 0xFFFD, Char.ofNat 0xFFFD, '(', '€', Char.ofNat 0x1F600,
       Char.ofNat 0xFFFD, Char.ofNat 0xFFFD, Char.ofNat 0xFFFD] := by
  decide

theorem readLinesAux_cons (b : UInt8) (rest cur : Bytes) :
    readLinesAux (b :: rest) cur =
      if b = 10 then (dropCRrev cur).reverse :: readLinesAux rest []
      else if cur.length + 1 = defaultBufSize then
        (if b = 13 then cur.reverse :: readLinesAux rest [b]
         else (b :: cur).reverse :: readLinesAux rest [])
      else readLinesAux rest (b :: cur) := rfl

/-- A line that fits in the buffer with its `\n` is returned whole, without
its line end. -/
theorem readLinesAux_line (line rest cur : Bytes) (hlf : (10 : UInt8) ∉ line)
    (hlen : cur.length + line.length < defaultBufSize) :
    readLinesAux (line ++ 10 :: rest) cur =
      (dropCRrev (line.reverse ++ cur)).reverse :: readLinesAux rest [] := by
  induction line generalizing cur with
  | nil =>
    show readLinesAux (10 :: rest) cur = _
    rw [readLinesAux_cons, if_pos rfl]
    rfl
  | cons b line ih =>
    have hb : b ≠ 10 := fun e => hlf (e ▸ List.mem_cons_self _ _)
    have hl : (10 : UInt8) ∉ line := fun m => hlf (List.mem_cons_of_mem _ m)
    have hfull : ¬ cur.length + 1 = defaultBufSize := by
      simp only [List.length_cons] at hlen
      omega
    show readLinesAux (b :: (line ++ 10 :: rest)) cur = _
    rw [readLinesAux_cons, if_neg hb, if_neg hfull, ih (b :: cur) hl (by
      simp only [List.length_cons] at hlen ⊢
      omega)]
    simp

theorem readLines_line (line rest : Bytes) (hlf : (10 : UInt8) ∉ line)
    (hlen : line.length < defaultBufSize) :
    readLines (line ++ 10 :: rest) = dropCR line :: readLines rest := by
  have h := readLinesAux_line line rest [] hlf (by simpa using hlen)
  rw [List.append_nil] at h
  exact h

/-- Bytes without `\n` that fit in the buffer, at the end of the connection,
are returned as a last line, as they are. -/
theorem readLinesAux_last (line cur : Bytes) (hlf : (10 : UInt8) ∉ line)
    (hlen : cur.length + line.length < defaultBufSize) :
    readLinesAux line cur =
      if line.reverse ++ cur = [] then [] else [(line.reverse ++ cur).reverse] := by
  induction line generalizing cur with
  | nil => rfl
  | cons b line ih =>
    have hb : b ≠ 10 := fun e => hlf (e ▸ List.mem_cons_self _ _)
    have hl : (10 : UInt8) ∉ line := fun m => hlf (List.mem_cons_of_mem _ m)
    have hfull : ¬ cur.length + 1 = defaultBufSize := by
      simp only [List.length_cons] at hlen
      omega
    rw [readLinesAux_cons, if_neg hb, if_neg hfull, ih (b :: cur) hl (by
      simp only [List.length_cons] at hlen ⊢
      omega)]
    simp

theorem readLines_last (line : Bytes) (hlf : (10 : UInt8) ∉ line)
    (hlen : line.length < defaultBufSize) :
    readLines line = if line = [] then [] else [line] := by
  have h := readLinesAux_last line [] hlf (by simpa using hlen)
  rw [List.append_nil] at h
  unfold readLines
  rw [h]
  by_cases hl : line = []
  · simp [hl]
  · simp [hl]

/-- A run of `defaultBufSize` bytes without `\n` that does not end in `\r` fills the
buffer and is returned as a line, whatever follows it. -/
theorem readLinesAux_full (piece rest cur : Bytes) (b : UInt8) (hlf : (10 : UInt8) ∉ piece)
    (hb : b ≠ 10) (hr : b ≠ 13) (hlen : cur.length + piece.length + 1 = defaultBufSize) :
    readLinesAux (piece ++ b :: rest) cur =
      (b :: (piece.reverse ++ cur)).reverse :: readLinesAux rest [] := by
  induction piece generalizing cur with
  | nil =>
    have hfull : cur.length + 1 = defaultBufSize := by simpa using hlen
    show readLinesAux (b :: rest) cur = _
    rw [readLinesAux_cons, if_neg hb, if_pos hfull, if_neg hr]
    rfl
  | cons c piece ih =>
    have hc : c ≠ 10 := fun e => hlf (e ▸ List.mem_cons_self _ _)
    have hl : (10 : UInt8) ∉ piece := fun m => hlf (List.mem_cons_of_mem _ m)
    have hfull : ¬ cur.length + 1 = defaultBufSize := by
      simp only [List.length_cons] at hlen
      omega
    show readLinesAux (c :: (piece ++ b :: rest)) cur = _
    rw [readLinesAux_cons, if_neg hc, if_neg hfull, ih (c :: cur) hl (by
      simp only [List.length_cons] at hlen ⊢
      omega)]
    simp

theorem readLines_full (piece rest : Bytes) (b : UInt8) (hlf : (10 : UInt8) ∉ piece)
    (hb : b ≠ 10) (hr : b ≠ 13) (hlen : piece.length + 1 = defaultBufSize) :
    readLines (piece ++ b :: rest) = (piece ++ [b]) :: readLines rest := by
  have h := readLinesAux_full piece rest [] b hlf hb hr (by simpa using hlen)
  unfold readLines
  rw [h]
  simp

/-- A run of `defaultBufSize` bytes without `\n` that ends in `\r` fills the buffer;
it is returned without the `\r`, which is read again with what follows. -/
theorem readLinesAux_full_cr (piece rest cur : Bytes) (hlf : (10 : UInt8) ∉ piece)
    (hlen : cur.length + piece.length + 1 = defaultBufSize) :
    readLinesAux (piece ++ 13 :: rest) cur =
      (piece.reverse ++ cur).reverse :: readLinesAux rest [13] := by
  induction piece generalizing cur with
  | nil =>
    have hfull : cur.length + 1 = defaultBufSize := by simpa using hlen
    show readLinesAux (13 :: rest) cur = _
    rw [readLinesAux_cons, if_neg (by decide), if_pos hfull, if_pos rfl]
    rfl
  | cons c piece ih =>
    have hc : c ≠ 10 := fun e => hlf (e ▸ List.mem_cons_self _ _)
    have hl : (10 : UInt8) ∉ piece := fun m => hlf (List.mem_cons_of_mem _ m)
    have hfull : ¬ cur.length + 1 = defaultBufSize := by
      simp only [List.length_cons] at hlen
      omega
    show readLinesAux (c :: (piece ++ 13 :: rest)) cur = _
    rw [readLinesAux_cons, if_neg hc, if_neg hfull, ih (c :: cur) hl (by
      simp only [List.length_cons] at hlen ⊢
      omega)]
    simp

/-- A line of exactly 4095 bytes before its `\r\n` is returned as these
bytes followed by an empty line. -/
theorem readLines_full_crlf (piece rest : Bytes) (hlf : (10 : UInt8) ∉ piece)
    (hlen : piece.length + 1 = defaultBufSize) :
    readLines (piece ++ 13 :: 10 :: rest) = piece :: [] :: readLines rest := by
  have h := readLinesAux_full_cr piece (10 :: rest) [] hlf (by simpa using hlen)
  unfold readLines
  rw [h, readLinesAux_cons, if_pos rfl]
  simp [dropCRrev]

theorem dropCR_nil : dropCR [] = [] := rfl

theorem dropCR_append_cr (line : Bytes) : dropCR (line ++ [13]) = line := by
  unfold dropCR
  rw [List.reverse_append]
  show (dropCRrev (13 :: line.reverse)).reverse = line
  rw [dropCRrev, if_pos rfl, List.reverse_reverse]

theorem connLines_line (line rest : Bytes) (hlf : (10 : UInt8) ∉ line)
    (hlen : line.length < defaultBufSize) :
    connLines (line ++ 10 :: rest) = ofBytes (dropCR line) :: connLines rest := by
  unfold connLines
  rw [readLines_line line rest hlf hlen]
  rfl

theorem connLines_last (line : Bytes) (hlf : (10 : UInt8) ∉ line)
    (hlen : line.length < defaultBufSize) :
    connLines line = if line = [] then [] else [ofBytes line] := by
  unfold connLines
  rw [readLines_last line hlf hlen]
  by_cases hl : line = []
  · simp [hl]
  · simp [hl]

theorem connLines_full (piece rest : Bytes) (b : UInt8) (hlf : (10 : UInt8) ∉ piece)
    (hb : b ≠ 10) (hr : b ≠ 13) (hlen : piece.length + 1 = defaultBufSize) :
    connLines (piece ++ b :: rest) = ofBytes (piece ++ [b]) :: connLines rest := by
  unfold connLines
  rw [readLines_full piece rest b hlf hb hr hlen]
  rfl

theorem ofBytes_nil : ofBytes [] = [] := rfl

theorem ofBytes_cons_ne_nil (b : UInt8) (rest : Bytes) : ofBytes (b :: rest) ≠ [] := by
  unfold ofBytes
  simp [ofBytesAux]

theorem ofBytes_eq_nil (line : Bytes) : ofBytes line = [] ↔ line = [] := by
  cases line with
  | nil => simp [ofBytes_nil]
  | cons b rest => simp [ofBytes_cons_ne_nil]

theorem joinLines_cons (line : Bytes) (lines : List Bytes) :
    joinLines (line :: lines) = line ++ 10 :: joinLines lines := rfl

/-! ## ASCII text on a connection -/

theorem ascii_facts :
    ∀ n, n < 128 →
      String.utf8EncodeChar (Char.ofNat n) = [UInt8.ofNat n] ∧
      (UInt8.ofNat n).toNat = n ∧
      (UInt8.ofNat n = 10 → Char.ofNat n = '\n') ∧
      (UInt8.ofNat n = 13 → Char.ofNat n = '\r') := by
  decide

theorem utf8EncodeChar_ascii (c : Char) (h : c.toNat < 128) :
    String.utf8EncodeChar c = [UInt8.ofNat c.toNat] := by
  have := (ascii_facts c.toNat h).1
  rwa [Char.ofNat_toNat] at this

theorem toBytes_ascii (s : Str) (h : ∀ c ∈ s, c.toNat < 128) :
    toBytes s = s.map (fun c => UInt8.ofNat c.toNat) := by
  induction s with
  | nil => rfl
  | cons c s ih =>
    rw [toBytes_cons, utf8EncodeChar_ascii c (h c (List.mem_cons_self _ _)),
      ih (fun x hx => h x (List.mem_cons_of_mem _ hx))]
    rfl

theorem toBytes_ascii_length (s : Str) (h : ∀ c ∈ s, c.toNat < 128) :
    (toBytes s).length = s.length := by
  rw [toBytes_ascii s h, List.length_map]

theorem toBytes_ascii_no_lf (s : Str) (h : ∀ c ∈ s, c.toNat < 128) (hlf : '\n' ∉ s) :
    (10 : UInt8) ∉ toBytes s := by
  rw [toBytes_ascii s h]
  intro hm
  obtain ⟨c, hc, e⟩ := List.mem_map.mp hm
  have := (ascii_facts c.toNat (h c hc)).2.2.1 e
  rw [Char.ofNat_toNat] at this
  exact hlf (this ▸ hc)

theorem DecodeRune_ascii (b : UInt8) (rest : Bytes) (h : b.toNat < 128) :
    DecodeRune (b :: rest) = (Char.ofNat b.toNat, 1) := by
  unfold DecodeRune
  simp only
  rw [if_pos h]

theorem ofBytes_cons_ascii (b : UInt8) (rest : Bytes) (h : b.toNat < 128) :
    ofBytes (b :: rest) = Char.ofNat b.toNat :: ofBytes rest := by
  unfold ofBytes
  show ofBytesAux (rest.length + 1) (b :: rest) = _
  rw [ofBytesAux, DecodeRune_ascii b rest h]
  rfl

/-- The text of the UTF-8 encoding of an ASCII text is that text. -/
theorem ofBytes_toBytes_ascii (s : Str) (h : ∀ c ∈ s, c.toNat < 128) :
    ofBytes (toBytes s) = s := by
  induction s with
  | nil => rfl
  | cons c s ih =>
    have hc := h c (List.mem_cons_self _ _)
    have hf := ascii_facts c.toNat hc
    rw [toBytes_cons, utf8EncodeChar_ascii c hc]
    show ofBytes (UInt8.ofNat c.toNat :: toBytes s) = _
    rw [ofBytes_cons_ascii _ _ (by rw [hf.2.1]; exact hc), hf.2.1, Char.ofNat_toNat,
      ih (fun x hx => h x (List.mem_cons_of_mem _ hx))]

theorem crlf_bytes : toBytes "\r\n".toList = [13, 10] := by decide

/-- An ASCII line with its `\r\n` that fits in the buffer is returned as its
text. -/
theorem connLines_text_line (t : Str) (rest : Bytes) (h : ∀ c ∈ t, c.toNat < 128)
    (hlf : '\n' ∉ t) (hlen : t.length + 1 < defaultBufSize) :
    connLines (toBytes (t ++ "\r\n".toList) ++ rest) = t :: connLines rest := by
  have e : toBytes (t ++ "\r\n".toList) ++ rest = (toBytes t ++ [13]) ++ 10 :: rest := by
    rw [toBytes_append, crlf_bytes]
    simp
  have hno : (10 : UInt8) ∉ toBytes t ++ [13] := by
    intro hm
    rcases List.mem_append.mp hm with hm | hm
    · exact toBytes_ascii_no_lf t h hlf hm
    · exact absurd (List.mem_singleton.mp hm) (by decide)
  rw [e, connLines_line _ _ hno (by
    rw [List.length_append, toBytes_ascii_length t h]
    exact hlen), dropCR_append_cr, ofBytes_toBytes_ascii t h]

/-- An ASCII text without `\n` of exactly the size of the buffer, not ending
in `\r`, is returned as a line, whatever follows it. -/
theorem connLines_text_full (t : Str) (c : Char) (rest : Bytes)
    (h : ∀ x ∈ t ++ [c], x.toNat < 128) (hlf : '\n' ∉ t ++ [c]) (hcr : c ≠ '\r')
    (hlen : t.length + 1 = defaultBufSize) :
    connLines (toBytes (t ++ [c]) ++ rest) = (t ++ [c]) :: connLines rest := by
  have ht : ∀ x ∈ t, x.toNat < 128 := fun x hx => h x (List.mem_append_left _ hx)
  have hc : c.toNat < 128 := h c (List.mem_append_right _ (List.mem_singleton_self c))
  have hf := ascii_facts c.toNat hc
  have hbytes : toBytes (t ++ [c]) = toBytes t ++ [UInt8.ofNat c.toNat] := by
    rw [toBytes_append, toBytes_cons, utf8EncodeChar_ascii c hc]
    rfl
  have e : toBytes (t ++ [c]) ++ rest = toBytes t ++ UInt8.ofNat c.toNat :: rest := by
    rw [hbytes]
    simp
  have hb10 : UInt8.ofNat c.toNat ≠ 10 := by
    intro e10
    have := hf.2.2.1 e10
    rw [Char.ofNat_toNat] at this
    exact hlf (this ▸ List.mem_append_right _ (List.mem_singleton_self c))
  have hb13 : UInt8.ofNat c.toNat ≠ 13 := by
    intro e13
    have := hf.2.2.2 e13
    rw [Char.ofNat_toNat] at this
    exact hcr this
  rw [e, connLines_full (toBytes t) rest _
    (toBytes_ascii_no_lf t ht (fun m => hlf (List.mem_append_left _ m))) hb10 hb13
    (by rw [toBytes_ascii_length t ht]; exact hlen), ← hbytes, ofBytes_toBytes_ascii _ h]

theorem ascii_of_literal_append_replicate (pre : Str) (n : Nat) (c : Char)
    (hpre : ∀ x ∈ pre, x.toNat < 128) (hc : c.toNat < 128) :
    ∀ x ∈ pre ++ List.replicate n c, x.toNat < 128 := by
  intro x hx
  rcases List.mem_append.mp hx with hx | hx
  · exact hpre x hx
  · rw [List.eq_of_mem_replicate hx]
    exact hc

theorem not_mem_literal_append_replicate (pre : Str) (n : Nat) (c q : Char)
    (hpre : q ∉ pre) (hc : q ≠ c) : q ∉ pre ++ List.replicate n c := by
  intro hx
  rcases List.mem_append.mp hx with hx | hx
  · exact hpre hx
  · exact hc (List.eq_of_mem_replicate hx)

/-! ## The request line on a connection -/

theorem replicate_split (m n : Nat) (c : Char) :
    List.replicate (m + 1 + n) c = List.replicate m c ++ c :: List.replicate n c := by
  rw [List.replicate_add, List.replicate_succ']
  simp

theorem Fields_two_tokens (a w b : Str) (ha : a ≠ []) (hb : b ≠ [])
    (hna : ∀ x ∈ a, isSpace x = false) (hnb : ∀ x ∈ b, isSpace x = false)
    (hw : ∀ x ∈ w, isSpace x = true) (hne : w ≠ []) :
    Fields (a ++ (w ++ b)) = [a, b] := by
  have ra : a.reverse ++ [] ≠ [] := by simpa using ha
  unfold Fields
  rw [fieldsAux_token _ _ _ hna, fieldsAux_end_token _ _ _ ra hw hne]
  have e : fieldsAux b [] = fieldsAux (b ++ []) [] := by rw [List.append_nil]
  rw [e, fieldsAux_token _ _ _ hnb]
  simp [fieldsAux, hb]

theorem isSpace_replicate (n : Nat) (c : Char) (v : Bool) (hc : isSpace c = v) :
    ∀ x ∈ List.replicate n c, isSpace x = v := by
  intro x hx
  rw [List.eq_of_mem_replicate hx]
  exact hc

theorem parseRequestConn_line (env : Env) (line rest : Bytes)
    (hlf : (10 : UInt8) ∉ line) (hlen : line.length < defaultBufSize) :
    parseRequestConn env (line ++ 10 :: rest) =
      parseRequest env (ofBytes (dropCR line) :: connLines rest) := by
  unfold parseRequestConn
  rw [connLines_line line rest hlf hlen]

theorem longRequestLine_split (tail : Str) :
    longRequestLine ++ tail =
      (("GET /".toList ++ List.replicate 4090 'a') ++ ['a']) ++
        (List.replicate 909 'a' ++ (" HTTP/1.1".toList ++ tail)) := by
  unfold longRequestLine
  rw [replicate_split 4090 909 'a']
  simp only [List.append_assoc, List.cons_append, List.nil_append]

theorem get_slash_facts :
    (∀ x ∈ "GET /".toList, x.toNat < 128) ∧ '\n' ∉ "GET /".toList ∧
    "GET /".toList.length = 5 ∧ "GET /".toList = "GET".toList ++ (" ".toList ++ "/".toList) ∧
    (∀ x ∈ "GET".toList, isSpace x = false) ∧ (∀ x ∈ " ".toList, isSpace x = true) ∧
    (∀ x ∈ "/".toList, isSpace x = false) ∧ (∀ x ∈ " HTTP/1.1".toList, x.toNat < 128) ∧
    (∀ x ∈ "HTTP/1.1".toList, isSpace x = false) ∧
    " HTTP/1.1".toList = " ".toList ++ "HTTP/1.1".toList := by
  decide

/-- The first line that the reader returns for the long request line: its
first 4096 bytes, the method and the beginning of the path. -/
theorem connLines_longRequestLine (tail : Str) :
    connLines (toBytes (longRequestLine ++ tail)) =
      ("GET /".toList ++ List.replicate 4091 'a') ::
        connLines (toBytes (List.replicate 909 'a' ++ (" HTTP/1.1".toList ++ tail))) := by
  have hascii : ∀ x ∈ ("GET /".toList ++ List.replicate 4090 'a') ++ ['a'], x.toNat < 128 := by
    intro x hx
    rcases List.mem_append.mp hx with hx | hx
    · exact ascii_of_literal_append_replicate _ _ _ get_slash_facts.1 (by decide) x hx
    · rw [List.mem_singleton.mp hx]
      decide
  have hlf : '\n' ∉ ("GET /".toList ++ List.replicate 4090 'a') ++ ['a'] := by
    intro hx
    rcases List.mem_append.mp hx with hx | hx
    · exact not_mem_literal_append_replicate _ _ _ _ get_slash_facts.2.1 (by decide) hx
    · exact absurd (List.mem_singleton.mp hx) (by decide)
  have hlen : ("GET /".toList ++ List.replicate 4090 'a').length + 1 = defaultBufSize := by
    rw [List.length_append, List.length_replicate, get_slash_facts.2.2.1]
    rfl
  have e : ("GET /".toList ++ List.replicate 4090 'a') ++ ['a'] =
      "GET /".toList ++ List.replicate 4091 'a' := by
    rw [List.append_assoc, ← List.replicate_succ']
  rw [longRequestLine_split, toBytes_append,
    connLines_text_full _ 'a' _ hascii hlf (by decide) hlen, e]

theorem length_two_ne_three (a b : Str) : [a, b].length ≠ 3 := by simp

theorem Fields_get_path (r : Str) (hr : ∀ x ∈ r, isSpace x = false) :
    Fields ("GET /".toList ++ r) = ["GET".toList, '/' :: r] := by
  have e : "GET /".toList ++ r = "GET".toList ++ (" ".toList ++ ('/' :: r)) := rfl
  rw [e]
  refine Fields_two_tokens _ _ _ (by decide) (by simp) get_slash_facts.2.2.2.2.1 ?_
    get_slash_facts.2.2.2.2.2.1 (by decide)
  intro x hx
  rcases List.mem_cons.mp hx with hx | hx
  · rw [hx]
    decide
  · exact hr x hx

theorem Fields_get_path_version (r : Str) (hr : ∀ x ∈ r, isSpace x = false) :
    Fields ("GET /".toList ++ r ++ " HTTP/1.1".toList) =
      ["GET".toList, '/' :: r, "HTTP/1.1".toList] := by
  have e : "GET /".toList ++ r ++ " HTTP/1.1".toList =
      [] ++ ("GET".toList ++ (" ".toList ++ (('/' :: r) ++
        (" ".toList ++ ("HTTP/1.1".toList ++ []))))) := by
    simp only [List.append_assoc, List.nil_append, List.append_nil]
    rfl
  rw [e]
  refine Fields_three_tokens _ _ _ _ _ _ _ (by decide) (by simp) (by decide)
    get_slash_facts.2.2.2.2.1 ?_ get_slash_facts.2.2.2.2.2.2.2.2.1 (by simp)
    get_slash_facts.2.2.2.2.2.1 get_slash_facts.2.2.2.2.2.1 (by simp) (by decide) (by decide)
  intro x hx
  rcases List.mem_cons.mp hx with hx | hx
  · rw [hx]
    decide
  · exact hr x hx

theorem Fields_longRequestLine_piece :
    Fields ("GET /".toList ++ List.replicate 4091 'a') =
      ["GET".toList, '/' :: List.replicate 4091 'a'] :=
  Fields_get_path _ (isSpace_replicate _ _ _ (by decide))

theorem Fields_longRequestLine :
    Fields longRequestLine =
      ["GET".toList, '/' :: List.replicate 5000 'a', "HTTP/1.1".toList] :=
  Fields_get_path_version _ (isSpace_replicate _ _ _ (by decide))

/-- A connection that begins with the long request line: the first line that
the reader returns has two fields, and `parseRequest` fails. -/
theorem parseRequestConn_longRequestLine (env : Env) (tail : Str) :
    parseRequestConn env (toBytes (longRequestLine ++ tail)) =
      (none, some ParseError.invalidRequestLine) := by
  unfold parseRequestConn
  rw [connLines_longRequestLine]
  refine parseRequest_not_three env _ _ ?_
  rw [Fields_longRequestLine_piece]
  exact length_two_ne_three _ _

theorem get_root_facts :
    (∀ x ∈ "GET / HTTP/1.1".toList, x.toNat < 128) ∧ '\n' ∉ "GET / HTTP/1.1".toList ∧
    "GET / HTTP/1.1".toList.length = 14 ∧
    (∀ x ∈ "/".toList, isSpace x = false) ∧
    (∀ x ∈ "extra".toList, isSpace x = false) ∧
    connLines (toBytes ("extra".toList ++ "\r\n\r\n".toList)) = ["extra".toList, []] ∧
    readHeaders demoEnv ["extra".toList, []] Headers.empty "host".toList = none := by
  decide

theorem connLines_joinLines_append (lines : List Bytes) (rest : Bytes)
    (hlines : ∀ l ∈ lines, WholeLine l) :
    connLines (joinLines lines ++ rest) = lines.map lineText ++ connLines rest := by
  induction lines with
  | nil => rfl
  | cons l lines ih =>
    have hl := hlines l (List.mem_cons_self _ _)
    have e : joinLines (l :: lines) ++ rest = l ++ 10 :: (joinLines lines ++ rest) := by
      rw [joinLines_cons]
      simp
    rw [e, connLines_line l _ hl.1 hl.2,
      ih (fun x hx => hlines x (List.mem_cons_of_mem _ hx))]
    rfl

theorem readHeaders_foldl (env : Env) (lines : List Str) (h : Headers)
    (hne : ∀ l ∈ lines, l ≠ []) :
    readHeaders env lines h = lines.foldl (storeHeader env) h := by
  have := readHeaders_append env lines [] h hne
  rw [List.append_nil] at this
  rw [this]
  rfl

/-- C11 (amended). After a request line of three fields and header lines
`pre` none of which is empty, a header line whose text is `a:b` with the
first colon not at the very start (`a` is not empty and has no colon) stores
the entry whose key is `a` trimmed and lower-cased and whose value is `b`
trimmed (later colons stay in `b`), provided that each of these lines fits in
the buffer of the reader with its line end (at most 4095 bytes before the
`\n`): the map of the parsed request is the map read from what follows on
the connection, on top of that entry. -/
theorem parseRequestConn_header_line (env : Env) (requestLine : Bytes) (pre : List Bytes)
    (line rest : Bytes) (m p v a b : Str)
    (hreq : WholeLine requestLine) (h3 : Fields (lineText requestLine) = [m, p, v])
    (hpre : ∀ l ∈ pre, WholeLine l ∧ lineText l ≠ [])
    (hline : WholeLine line) (hab : lineText line = a ++ ':' :: b)
    (ha : ':' ∉ a) (hne : a ≠ []) :
    parseRequestConn env (requestLine ++ 10 :: (joinLines pre ++ (line ++ 10 :: rest))) =
      (some { Method := m, Path := p, Version := v,
              Headers := readHeaders env (connLines rest)
                ((readHeaders env (pre.map lineText) Headers.empty).set
                  (ToLower env.caseTable (TrimSpace a)) (TrimSpace b)) }, none) := by
  rw [parseRequestConn_line env requestLine _ hreq.1 hreq.2,
    connLines_joinLines_append pre _ (fun l hl => (hpre l hl).1),
    connLines_line line rest hline.1 hline.2]
  have hpre2 : ∀ l ∈ pre.map lineText, l ≠ [] := by
    intro l hl
    obtain ⟨x, hx, e⟩ := List.mem_map.mp hl
    rw [← e]
    exact (hpre x hx).2
  show parseRequest env (lineText requestLine :: (pre.map lineText ++
    lineText line :: connLines rest)) = _
  rw [hab]
  exact parseRequest_header_line env _ m p v _ _ a b h3 hpre2 ha hne

theorem header_line_bytes :
    toBytes "GET / HTTP/1.1\r\nHost: example\r\nContent-Type : text/html; a:b\r\n\r\n".toList =
      toBytes "GET / HTTP/1.1\r".toList ++ 10 :: (joinLines [toBytes "Host: example\r".toList] ++
        (toBytes "Content-Type : text/html; a:b\r".toList ++ 10 :: toBytes "\r\n".toList)) := by
  decide

/-- The line `Content-Type : text/html; a:b` after a `Host` line: the key is
`content-type` and the value keeps its later colon. -/
theorem parseRequestConn_header_line_witness :
    (parseRequestConn demoEnv (toBytes
      "GET / HTTP/1.1\r\nHost: example\r\nContent-Type : text/html; a:b\r\n\r\n".toList)).2 =
      none ∧
    (parseRequestConn demoEnv (toBytes
      "GET / HTTP/1.1\r\nHost: example\r\nContent-Type : text/html; a:b\r\n\r\n".toList)).1.map
      (fun request => request.Headers "content-type".toList) =
      some (some "text/html; a:b".toList) := by
  have h := parseRequestConn_header_line demoEnv (toBytes "GET / HTTP/1.1\r".toList)
    [toBytes "Host: example\r".toList] (toBytes "Content-Type : text/html; a:b\r".toList)
    (toBytes "\r\n".toList) "GET".toList "/".toList "HTTP/1.1".toList
    "Content-Type ".toList " text/html; a:b".toList (by decide) (by decide) (by decide)
    (by decide) (by decide) (by decide) (by decide)
  rw [header_line_bytes, h]
  exact ⟨rfl, by decide⟩

theorem get_root_crlf :
    "GET / HTTP/1.1\r\n".toList = "GET / HTTP/1.1".toList ++ "\r\n".toList ∧
    Fields "GET / HTTP/1.1".toList = ["GET".toList, "/".toList, "HTTP/1.1".toList] ∧
    "GET / HTTP/1.1".toList.length + 1 < defaultBufSize := by
  decide

/-- The request line `GET / HTTP/1.1` with its `\r\n`: the request has the
headers read from what follows. -/
theorem parseRequestConn_get_root (env : Env) (rest : Str) :
    parseRequestConn env (toBytes ("GET / HTTP/1.1\r\n".toList ++ rest)) =
      (some { Method := "GET".toList, Path := "/".toList, Version := "HTTP/1.1".toList,
              Headers := readHeaders env (connLines (toBytes rest)) Headers.empty }, none) := by
  unfold parseRequestConn
  rw [toBytes_append, get_root_crlf.1,
    connLines_text_line _ _ get_root_facts.1 get_root_facts.2.1 get_root_crlf.2.2]
  exact parseRequest_three_fields env _ _ _ _ _ get_root_crlf.2.1

theorem xpad_facts :
    (∀ x ∈ "X-Pad: ".toList, x.toNat < 128) ∧ '\n' ∉ "X-Pad: ".toList ∧
    "X-Pad: ".toList.length = 7 ∧
    "X-Pad: ".toList = "X-Pad".toList ++ ':' :: " ".toList ∧
    ':' ∉ "X-Pad".toList ∧ "X-Pad".toList ≠ [] ∧
    ToLower demoEnv.caseTable (TrimSpace "X-Pad".toList) = "x-pad".toList ∧
    isSpace 'a' = false ∧ 'a'.toNat < 128 ∧ '\n' ≠ 'a' ∧ 'a' ≠ '\r' ∧ ':' ≠ 'a' := by
  decide

/-- A run of 4096 bytes that begins a line `X-Pad: aa…a` is returned as a
line by the reader, whatever follows it. -/
theorem connLines_xpad (n : Nat) (tail : Str) (hn : 7 + n + 1 = defaultBufSize) :
    connLines (toBytes ("X-Pad: ".toList ++ List.replicate (n + 1) 'a' ++ tail)) =
      ("X-Pad: ".toList ++ List.replicate (n + 1) 'a') :: connLines (toBytes tail) := by
  have hascii : ∀ x ∈ ("X-Pad: ".toList ++ List.replicate n 'a') ++ ['a'], x.toNat < 128 := by
    intro x hx
    rcases List.mem_append.mp hx with hx | hx
    · exact ascii_of_literal_append_replicate _ _ _ xpad_facts.1 (by decide) x hx
    · rw [List.mem_singleton.mp hx]
      decide
  have hlf : '\n' ∉ ("X-Pad: ".toList ++ List.replicate n 'a') ++ ['a'] := by
    intro hx
    rcases List.mem_append.mp hx with hx | hx
    · exact not_mem_literal_append_replicate _ _ _ _ xpad_facts.2.1 (by decide) hx
    · exact absurd (List.mem_singleton.mp hx) (by decide)
  have hlen : ("X-Pad: ".toList ++ List.replicate n 'a').length + 1 = defaultBufSize := by
    rw [List.length_append, List.length_replicate, xpad_facts.2.2.1]
    exact hn
  have e : "X-Pad: ".toList ++ List.replicate (n + 1) 'a' =
      ("X-Pad: ".toList ++ List.replicate n 'a') ++ ['a'] := by
    rw [List.replicate_succ', List.append_assoc]
  rw [e, toBytes_append, connLines_text_full _ 'a' _ hascii hlf (by decide) hlen]

theorem TrimSpace_space_cons (r : Str) (hr : ∀ x ∈ r, isSpace x = false) :
    TrimSpace (" ".toList ++ r) = r := by
  have h1 : TrimSpace (" ".toList ++ r) = TrimSpace r := by
    show TrimSpace (' ' :: r) = TrimSpace r
    unfold TrimSpace
    rw [List.dropWhile_cons_of_pos (by decide)]
  rw [h1]
  refine TrimSpace_of_Trimmed r ⟨?_, ?_⟩
  · intro c hc
    exact hr c (List.mem_of_mem_head? hc)
  · intro c hc
    exact hr c (List.mem_of_mem_getLast? hc)

/-- A line `X-Pad: r` stores the name `x-pad` with the value `r`, for a text
`r` without white space. -/
theorem headerEntry_xpad (r : Str) (hr : ∀ x ∈ r, isSpace x = false) :
    headerEntry demoEnv ("X-Pad: ".toList ++ r) = some ("x-pad".toList, r) := by
  have e : "X-Pad: ".toList ++ r = "X-Pad".toList ++ ':' :: (" ".toList ++ r) := rfl
  rw [e, headerEntry_split demoEnv _ _ xpad_facts.2.2.2.2.1 xpad_facts.2.2.2.2.2.1,
    xpad_facts.2.2.2.2.2.2.1, TrimSpace_space_cons r hr]

theorem readHeaders_xpad (r : Str) (rest : List Str) (h : Headers)
    (hr : ∀ x ∈ r, isSpace x = false) :
    readHeaders demoEnv (("X-Pad: ".toList ++ r) :: rest) h =
      readHeaders demoEnv rest (h.set "x-pad".toList r) := by
  have hne : "X-Pad: ".toList ++ r ≠ [] := by
    show 'X' :: ("-Pad: ".toList ++ r) ≠ []
    simp
  rw [readHeaders_cons demoEnv _ _ _ hne]
  unfold storeHeader
  rw [headerEntry_xpad r hr]

theorem Headers_set_same (h : Headers) (k v : Str) : h.set k v k = some v := by
  simp [Headers.set]

theorem longHeaderLine_split (tail : Str) :
    longHeaderLine ++ tail =
      "X-Pad: ".toList ++ List.replicate (4088 + 1) 'a' ++
        (List.replicate 10 'a' ++ tail) := by
  unfold longHeaderLine
  have e : List.replicate 4099 'a' = List.replicate (4088 + 1) 'a' ++ List.replicate 10 'a' :=
    List.replicate_add (4088 + 1) 10 'a'
  rw [e]
  simp only [List.append_assoc]

theorem short_tail_lines :
    connLines (toBytes (List.replicate 10 'a' ++ "\r\n\r\n".toList)) =
      [List.replicate 10 'a', []] ∧
    connLines (toBytes (List.replicate 10 'a' ++ [])) = [List.replicate 10 'a'] ∧
    (∀ l ∈ [List.replicate 10 'a', []].takeWhile (fun l => decide (l ≠ [])),
      (headerEntry demoEnv l).map Prod.fst ≠ some "x-pad".toList) ∧
    (∀ l ∈ [List.replicate 10 'a'].takeWhile (fun l => decide (l ≠ [])),
      (headerEntry demoEnv l).map Prod.fst ≠ some "x-pad".toList) := by
  decide

/-- The long header line after the request line `GET / HTTP/1.1`: the value
stored for `x-pad` is the first 4089 letters of the 4099. -/
theorem parseRequestConn_longHeaderLine :
    parseRequestConn demoEnv
        (toBytes ("GET / HTTP/1.1\r\n".toList ++ (longHeaderLine ++ "\r\n\r\n".toList))) =
      (some { Method := "GET".toList, Path := "/".toList, Version := "HTTP/1.1".toList,
              Headers := readHeaders demoEnv [List.replicate 10 'a', []]
                (Headers.empty.set "x-pad".toList (List.replicate (4088 + 1) 'a')) }, none) := by
  rw [parseRequestConn_get_root, longHeaderLine_split, connLines_xpad 4088 _ rfl,
    short_tail_lines.1, readHeaders_xpad _ _ _ (isSpace_replicate _ _ _ xpad_facts.2.2.2.2.2.2.2.1)]

/-- C11 (as stated, refuted). A header line whose first colon is at the very
start stores nothing: after `GET / HTTP/1.1` and the header line `:value`
the parsed request has no entry for the empty name, which would be the
lower-cased, trimmed text before the colon (the line ` :value` stores one).
And of the header line `X-Pad: aa…a` with 4099 letters, which is longer than
the buffer of the reader, the value stored for `x-pad` is the first 4089
letters, not the trimmed text after the colon. -/
theorem header_line_not_stored_as_claimed :
    Index ":value".toList ":".toList = 0 ∧
    (parseRequestConn demoEnv (toBytes "GET / HTTP/1.1\r\n:value\r\n\r\n".toList)).2 = none ∧
    (parseRequestConn demoEnv (toBytes "GET / HTTP/1.1\r\n:value\r\n\r\n".toList)).1.map
      (fun request => request.Headers []) = some none ∧
    (parseRequestConn demoEnv (toBytes "GET / HTTP/1.1\r\n :value\r\n\r\n".toList)).1.map
      (fun request => request.Headers []) = some (some "value".toList) ∧
    headerEntry demoEnv longHeaderLine = some ("x-pad".toList, List.replicate 4099 'a') ∧
    (parseRequestConn demoEnv
      (toBytes ("GET / HTTP/1.1\r\n".toList ++ (longHeaderLine ++ "\r\n\r\n".toList)))).1.map
      (fun request => request.Headers "x-pad".toList) = some (some (List.replicate 4089 'a')) := by
  refine ⟨by decide, by decide, by decide, by decide,
    headerEntry_xpad _ (isSpace_replicate _ _ _ xpad_facts.2.2.2.2.2.2.2.1), ?_⟩
  rw [parseRequestConn_longHeaderLine]
  show some (readHeaders demoEnv [List.replicate 10 'a', []]
    (Headers.empty.set "x-pad".toList (List.replicate (4088 + 1) 'a')) "x-pad".toList) = _
  rw [readHeaders_frame demoEnv _ _ _ short_tail_lines.2.2.1, Headers_set_same]

/-- C15 (amended). When the request line has three fields and fits in the
buffer of the reader with its line end, a failure of the connection after it
is never a parse failure; and when the connection fails (EOF, read error)
after header lines none of which is empty and each of which fits in the
buffer (at most 4095 bytes; the last one may lack its line end, it is read as
a line all the same), `parseRequest` returns the request with the headers
stored by these lines, one after the other, the last line without line end
among them. -/
theorem parseRequestConn_truncated (env : Env) (requestLine : Bytes) (lines : List Bytes)
    (last rest : Bytes) (m p v : Str)
    (hreq : WholeLine requestLine) (h3 : Fields (lineText requestLine) = [m, p, v]) :
    (parseRequestConn env (requestLine ++ 10 :: rest)).1 ≠ none ∧
    (parseRequestConn env (requestLine ++ 10 :: rest)).2 = none ∧
    ((∀ l ∈ lines, WholeLine l ∧ lineText l ≠ []) → WholeLine last →
      parseRequestConn env (requestLine ++ 10 :: (joinLines lines ++ last)) =
        (some { Method := m, Path := p, Version := v,
                Headers := (lines.map lineText ++
                    (if last = [] then [] else [ofBytes last])).foldl
                  (storeHeader env) Headers.empty }, none)) := by
  have hp : ∀ rest2, parseRequestConn env (requestLine ++ 10 :: rest2) =
      (some { Method := m, Path := p, Version := v,
              Headers := readHeaders env (connLines rest2) Headers.empty }, none) := by
    intro rest2
    rw [parseRequestConn_line env requestLine rest2 hreq.1 hreq.2]
    exact parseRequest_three_fields env _ _ m p v h3
  refine ⟨?_, ?_, ?_⟩
  · rw [hp rest]
    simp
  · rw [hp rest]
  · intro hlines hlast
    rw [hp, connLines_joinLines_append lines last (fun l hl => (hlines l hl).1),
      connLines_last last hlast.1 hlast.2]
    have hne : ∀ l ∈ lines.map lineText ++ (if last = [] then [] else [ofBytes last]),
        l ≠ [] := by
      intro l hl
      rcases List.mem_append.mp hl with hl | hl
      · obtain ⟨x, hx, e⟩ := List.mem_map.mp hl
        rw [← e]
        exact (hlines x hx).2
      · by_cases hlast2 : last = []
        · rw [if_pos hlast2] at hl
          exact absurd hl (List.not_mem_nil _)
        · rw [if_neg hlast2] at hl
          rw [List.mem_singleton.mp hl]
          exact fun e => hlast2 ((ofBytes_eq_nil last).mp e)
    rw [readHeaders_foldl env _ _ hne]

theorem truncated_bytes :
    toBytes "GET / HTTP/1.1\r\nHost: example\r\nAccept: te".toList =
      toBytes "GET / HTTP/1.1\r".toList ++ 10 ::
        (joinLines [toBytes "Host: example\r".toList] ++ toBytes "Accept: te".toList) := by
  decide

/-- A connection that fails inside the second header line: both header lines
are stored. -/
theorem parseRequestConn_truncated_witness :
    (parseRequestConn demoEnv
      (toBytes "GET / HTTP/1.1\r\nHost: example\r\nAccept: te".toList)).2 = none ∧
    (parseRequestConn demoEnv
      (toBytes "GET / HTTP/1.1\r\nHost: example\r\nAccept: te".toList)).1.map
      (fun request => (request.Headers "host".toList, request.Headers "accept".toList)) =
      some (some "example".toList, some "te".toList) := by
  have h := (parseRequestConn_truncated demoEnv (toBytes "GET / HTTP/1.1\r".toList)
    [toBytes "Host: example\r".toList] (toBytes "Accept: te".toList) [] "GET".toList
    "/".toList "HTTP/1.1".toList (by decide) (by decide)).2.2 (by decide) (by decide)
  rw [truncated_bytes, h]
  exact ⟨rfl, by decide⟩

theorem parseRequestConn_longHeaderLine_last :
    parseRequestConn demoEnv (toBytes ("GET / HTTP/1.1\r\n".toList ++ (longHeaderLine ++ []))) =
      (some { Method := "GET".toList, Path := "/".toList, Version := "HTTP/1.1".toList,
              Headers := readHeaders demoEnv [List.replicate 10 'a']
                (Headers.empty.set "x-pad".toList (List.replicate (4088 + 1) 'a')) }, none) := by
  rw [parseRequestConn_get_root, longHeaderLine_split, connLines_xpad 4088 _ rfl,
    short_tail_lines.2.1, readHeaders_xpad _ _ _ (isSpace_replicate _ _ _ xpad_facts.2.2.2.2.2.2.2.1)]

/-- C15 (as stated, refuted). When the connection fails inside the header
line `Host: example`, after `Host: exa`, no complete header line was read,
and yet the request has the header `host`, with the value `exa`: the reader
returns the bytes before the failure as a line. And the bound of the buffer
matters: the request line of 5014 bytes, which has three tokens, makes
`parseRequest` fail on a connection that ends before any empty line; and of
the header line `X-Pad: aa…a` with 4099 letters, read before the failure,
the value stored is the first 4089 letters. -/
theorem truncated_fragment_is_stored :
    (parseRequestConn demoEnv (toBytes "GET / HTTP/1.1\r\nHost: exa".toList)).2 = none ∧
    (parseRequestConn demoEnv (toBytes "GET / HTTP/1.1\r\nHost: exa".toList)).1.map
      (fun request => request.Headers "host".toList) = some (some "exa".toList) ∧
    Fields longRequestLine =
      ["GET".toList, '/' :: List.replicate 5000 'a', "HTTP/1.1".toList] ∧
    parseRequestConn demoEnv (toBytes (longRequestLine ++ "\r\nHost: a".toList)) =
      (none, some ParseError.invalidRequestLine) ∧
    headerEntry demoEnv longHeaderLine = some ("x-pad".toList, List.replicate 4099 'a') ∧
    (parseRequestConn demoEnv
      (toBytes ("GET / HTTP/1.1\r\n".toList ++ (longHeaderLine ++ [])))).1.map
      (fun request => request.Headers "x-pad".toList) = some (some (List.replicate 4089 'a')) := by
  refine ⟨by decide, by decide, Fields_longRequestLine,
    parseRequestConn_longRequestLine demoEnv _,
    headerEntry_xpad _ (isSpace_replicate _ _ _ xpad_facts.2.2.2.2.2.2.2.1), ?_⟩
  rw [parseRequestConn_longHeaderLine_last]
  show some (readHeaders demoEnv [List.replicate 10 'a']
    (Headers.empty.set "x-pad".toList (List.replicate (4088 + 1) 'a')) "x-pad".toList) = _
  rw [readHeaders_frame demoEnv _ _ _ short_tail_lines.2.2.2, Headers_set_same]

end HttpServerGo
